import Mathlib

/-!
# rosplane path manager (`path_manager_example.cpp`): shallow embedding

The C++ class `rosplane::path_manager_example` is embedded as pure functions on
an explicit state record.  Conventions:

* Single- and double-precision values are idealised as elements of a linearly
  ordered field `F`; the C math library and the library constants the code uses
  are collected in the class `Libm F`.  Control-flow results are proved for every
  such `F`; geometric results are proved for `F = ℝ` with the exact functions.
  Rounding is not modelled, and over `ℝ` the functions `sqrtf`, `asinf`, `acosf`
  are total where the C functions return NaN outside their domain: a general
  statement that uses such a value carries a hypothesis that keeps the argument
  inside the domain, and the inputs at which the program leaves the domain are
  evaluated up to the call itself.
* `std::vector` reads `waypoints_[i]` outside `[0, size)` have no defined
  behaviour in C++; here they make the operation return `none`.
* Reference parameters (`output`, `idx_b`, `idx_c`) are returned as results.
* Messages sent on `target_wp_pub_` are appended to the list `published_`.
-/

namespace rosplane

/-! ## Scalars, vectors, matrices -/

/-- The C math library functions and library constants used by the path manager. -/
class Libm (F : Type) where
  sqrtf : F → F
  sinf : F → F
  cosf : F → F
  tanf : F → F
  asinf : F → F
  acosf : F → F
  atan2f : F → F → F
  floorf : F → F
  fmod : F → F → F
  M_PI_F : F
  M_PI_2_F : F
  dummy_precision : F

/-- Eigen `Vector3f`. -/
structure Vec3 (F : Type) where
  x : F
  y : F
  z : F

/-- Eigen `Matrix3f`, stored by rows. -/
structure Mat3 (F : Type) where
  r0 : Vec3 F
  r1 : Vec3 F
  r2 : Vec3 F

section generic

variable {F : Type} [LinearOrderedField F] [Libm F]

/-- Vector sum `a + b`. -/
def Vec3.add (a b : Vec3 F) : Vec3 F := ⟨a.x + b.x, a.y + b.y, a.z + b.z⟩

/-- Vector difference `a - b`. -/
def Vec3.sub (a b : Vec3 F) : Vec3 F := ⟨a.x - b.x, a.y - b.y, a.z - b.z⟩

/-- Product with a scalar on the right, `a * k`. -/
def Vec3.scale (a : Vec3 F) (k : F) : Vec3 F := ⟨a.x * k, a.y * k, a.z * k⟩

/-- Quotient by a scalar, `a / k`. -/
def Vec3.divs (a : Vec3 F) (k : F) : Vec3 F := ⟨a.x / k, a.y / k, a.z / k⟩

/-- Eigen `a.dot(b)`. -/
def Vec3.dot (a b : Vec3 F) : F := a.x * b.x + a.y * b.y + a.z * b.z

/-- Eigen `a.squaredNorm()`. -/
def Vec3.squaredNorm (a : Vec3 F) : F := a.x * a.x + a.y * a.y + a.z * a.z

/-- Eigen `a.norm()`. -/
def Vec3.norm (a : Vec3 F) : F := Libm.sqrtf (a.squaredNorm)

/-- Eigen `a.normalized()`: a vector of squared norm zero is returned as it is. -/
def Vec3.normalized (a : Vec3 F) : Vec3 F :=
  if a.squaredNorm > 0 then a.divs (Libm.sqrtf a.squaredNorm) else a

/-- Eigen `a.isZero()`: every coefficient is at most `dummy_precision` in absolute value. -/
def Vec3.isZero (a : Vec3 F) : Prop :=
  |a.x| ≤ (Libm.dummy_precision : F) ∧ |a.y| ≤ (Libm.dummy_precision : F)
    ∧ |a.z| ≤ (Libm.dummy_precision : F)

instance (a : Vec3 F) : Decidable a.isZero := by
  unfold Vec3.isZero; infer_instance

/-- Eigen `a == b`: coefficient-wise equality. -/
def Vec3.eqv (a b : Vec3 F) : Prop := a.x = b.x ∧ a.y = b.y ∧ a.z = b.z

instance (a b : Vec3 F) : Decidable (a.eqv b) := by
  unfold Vec3.eqv; infer_instance

/-- Matrix-vector product. -/
def Mat3.mulVec (m : Mat3 F) (v : Vec3 F) : Vec3 F := ⟨m.r0.dot v, m.r1.dot v, m.r2.dot v⟩

/-! ## Data model -/

/-- The waypoint record `waypoint_s`. -/
structure waypoint_s (F : Type) where
  w : Vec3 F
  chi_d : F
  use_chi : Bool
  va_d : F

/-- The pose sample `input_s` (fields read by the path manager). -/
structure input_s (F : Type) where
  pn : F
  pe : F
  h : F
  chi : F

/-- The path primitive `output_s`; `flag = true` is a line, `false` an orbit. -/
structure output_s (F : Type) where
  flag : Bool
  va_d : F
  r : Vec3 F
  q : Vec3 F
  c : Vec3 F
  rho : F
  lamda : Int

/-- The Dubins path record `dubinspath_s`. -/
structure dubinspath_s (F : Type) where
  ps : Vec3 F
  chis : F
  pe : Vec3 F
  chie : F
  cs : Vec3 F
  lams : Int
  ce : Vec3 F
  lame : Int
  L : F
  w1 : Vec3 F
  q1 : Vec3 F
  w2 : Vec3 F
  w3 : Vec3 F
  q3 : Vec3 F
  R : F

/-- States of the fillet manager. -/
inductive fillet_state where
  | STRAIGHT
  | TRANSITION
  | ORBIT
deriving DecidableEq

/-- States of the Dubins manager. -/
inductive dubin_state where
  | FIRST
  | BEFORE_H1
  | BEFORE_H1_WRONG_SIDE
  | STRAIGHT
  | BEFORE_H3
  | BEFORE_H3_WRONG_SIDE
deriving DecidableEq

/-- The message published on `target_wp_pub_`. -/
structure target_wp_msg (F : Type) where
  w : Vec3 F
  va_d : F
  lla : Bool

/-- The member variables of `path_manager_example` (with those of its base class that the
methods use) and the four declared parameters. -/
structure path_manager_example (F : Type) where
  waypoints_ : List (waypoint_s F)
  num_waypoints_ : Int
  idx_a_ : Int
  temp_waypoint_ : Bool
  update_marker_ : Bool
  fil_state_ : fillet_state
  dub_state_ : dubin_state
  dubinspath_ : dubinspath_s F
  orbit_dir : Int
  R_min : F
  orbit_last : Bool
  default_altitude : F
  default_airspeed : F
  published_ : List (target_wp_msg F)

/-- The read `waypoints_[i]`; `none` outside the vector. -/
def path_manager_example.wp (s : path_manager_example F) (i : Int) : Option (waypoint_s F) :=
  if i < 0 then none else s.waypoints_[i.toNat]?

/-! ## Index sequencer -/

/-- The method `orbit_direction`: returns the direction and the state with the cache updated. -/
def orbit_direction (s : path_manager_example F) (pn pe chi c_n c_e : F) :
    Int × path_manager_example F :=
  if s.orbit_dir ≠ 0 then (s.orbit_dir, s)
  else
    let d : Vec3 F := Vec3.sub ⟨pn, pe, 0⟩ ⟨c_n, c_e, 0⟩
    let course : Vec3 F := ⟨Libm.sinf chi, Libm.cosf chi, 0⟩
    if d.x * course.y - d.y * course.x ≥ 0 then (1, { s with orbit_dir := 1 })
    else (-1, { s with orbit_dir := -1 })

/-- The method `publish_target_wp`. -/
def publish_target_wp (s : path_manager_example F) (idx : Int) :
    Option (path_manager_example F) :=
  match s.wp idx with
  | none => none
  | some t => some { s with published_ := s.published_ ++ [⟨t.w, t.va_d, false⟩] }

/-- The closing lines of `increment_indices`: publish the target `idx_b` when the marker is
set, and clear the marker. -/
def publish_if_marked (s : path_manager_example F) (idx : Int) :
    Option (path_manager_example F) :=
  if s.update_marker_ then
    match publish_target_wp s idx with
    | none => none
    | some s1 => some { s1 with update_marker_ := false }
  else some s

/-- The method `increment_indices`; the result is the new state, `idx_b`, `idx_c` and the
output. -/
def increment_indices (s : path_manager_example F) (input : input_s F) (output : output_s F) :
    Option (path_manager_example F × Int × Int × output_s F) :=
  if s.temp_waypoint_ = true ∧ s.idx_a_ = 1 then
    match s.waypoints_ with
    | [] => none
    | _ :: rest =>
      some ({ s with waypoints_ := rest, num_waypoints_ := s.num_waypoints_ - 1, idx_a_ := 0,
                     temp_waypoint_ := false, update_marker_ := true }, 1, 2, output)
  else if s.idx_a_ = s.num_waypoints_ - 1 then
    if s.orbit_last = true then
      match s.wp s.idx_a_ with
      | none => none
      | some wa =>
        let dir := orbit_direction s input.pn input.pe input.chi wa.w.x wa.w.y
        let out : output_s F :=
          { flag := false, va_d := wa.va_d, c := wa.w, r := ⟨0, 0, 0⟩, q := ⟨0, 0, 0⟩,
            rho := s.R_min, lamda := dir.1 }
        match publish_if_marked dir.2 s.idx_a_ with
        | none => none
        | some s2 => some (s2, 0, 1, out)
    else
      match publish_if_marked s 0 with
      | none => none
      | some s2 => some (s2, 0, 1, output)
  else if s.idx_a_ = s.num_waypoints_ - 2 then
    match publish_if_marked s (s.num_waypoints_ - 1) with
    | none => none
    | some s2 => some (s2, s.num_waypoints_ - 1, 0, output)
  else
    match publish_if_marked s (s.idx_a_ + 1) with
    | none => none
    | some s2 => some (s2, s.idx_a_ + 1, s.idx_a_ + 1 + 1, output)

/-- The index update `if (idx_a_ == num_waypoints_ - 1) idx_a_ = 0; else idx_a_++;`. -/
def advance_idx_a (s : path_manager_example F) : Int :=
  if s.idx_a_ = s.num_waypoints_ - 1 then 0 else s.idx_a_ + 1

/-! ## Line manager -/

/-- The method `manage_line`. -/
def manage_line (s : path_manager_example F) (input : input_s F) (output : output_s F) :
    Option (path_manager_example F × output_s F) :=
  let p : Vec3 F := ⟨input.pn, input.pe, -input.h⟩
  match increment_indices s input output with
  | none => none
  | some (s1, idx_b, idx_c, out1) =>
    if s.orbit_last = true ∧
        (s1.idx_a_ = s1.num_waypoints_ - 1 ∨ s1.idx_a_ = s1.num_waypoints_ - 2) then
      some (s1, out1)
    else
      match s1.wp s1.idx_a_, s1.wp idx_b, s1.wp idx_c with
      | some wa, some wb, some wc =>
        let w_im1 := wa.w
        let w_i := wb.w
        let w_ip1 := wc.w
        let q_im1 := (w_i.sub w_im1).normalized
        let q_i := (w_ip1.sub w_i).normalized
        let out2 : output_s F :=
          { out1 with flag := true, va_d := wa.va_d, r := w_im1, q := q_im1 }
        let n0 := (q_im1.add q_i).normalized
        let n_i := if n0.isZero then q_im1 else n0
        if (p.sub w_i).dot n_i > 0 then
          some ({ s1 with idx_a_ := advance_idx_a s1, update_marker_ := true }, out2)
        else some (s1, out2)
      | _, _, _ => none

/-! ## Fillet manager -/

/-- The turn angle `varrho = acosf(-q_im1.dot(q_i))` of `manage_fillet`. -/
def fillet_varrho (w_im1 w_i w_ip1 : Vec3 F) : F :=
  Libm.acosf (-((w_i.sub w_im1).normalized.dot (w_ip1.sub w_i).normalized))

/-- The bound `max_r = std::min(dist_w_ip1, dist_w_im1) * sinf(varrho / 2.0)` of
`manage_fillet`. -/
def fillet_max_r (w_im1 w_i w_ip1 : Vec3 F) : F :=
  let dist_w_im1 := (w_i.sub w_im1).norm
  let dist_w_ip1 := (w_ip1.sub w_i).norm
  let min_dist := if dist_w_im1 < dist_w_ip1 then dist_w_im1 else dist_w_ip1
  min_dist * Libm.sinf (fillet_varrho w_im1 w_i w_ip1 / 2)

/-- The orbit written by the cases `TRANSITION` and `ORBIT` of `manage_fillet`. -/
def fillet_orbit_output (R_min : F) (output : output_s F) (w_i q_im1 q_i : Vec3 F)
    (varrho : F) : output_s F :=
  { output with
    flag := false
    q := q_i
    c := w_i.sub (((q_im1.sub q_i).normalized).scale (R_min / Libm.sinf (varrho / 2)))
    rho := R_min
    lamda := if q_im1.x * q_i.y - q_im1.y * q_i.x > 0 then 1 else -1 }

/-- The `switch (fil_state_)` block of `manage_fillet`. -/
def fillet_switch (s : path_manager_example F) (output : output_s F)
    (p w_i q_im1 q_i : Vec3 F) (varrho : F) : path_manager_example F × output_s F :=
  match s.fil_state_ with
  | fillet_state.STRAIGHT =>
    let out : output_s F :=
      { output with flag := true, q := q_im1, c := ⟨1, 1, 1⟩, rho := 1, lamda := 1 }
    let z := w_i.sub (q_im1.scale (s.R_min / Libm.tanf (varrho / 2)))
    if (p.sub z).dot q_im1 > 0 then
      if q_i.eqv q_im1 then
        ({ s with idx_a_ := advance_idx_a s, update_marker_ := true }, out)
      else ({ s with fil_state_ := fillet_state.TRANSITION }, out)
    else (s, out)
  | fillet_state.TRANSITION =>
    let out := fillet_orbit_output s.R_min output w_i q_im1 q_i varrho
    let z := w_i.add (q_i.scale (s.R_min / Libm.tanf (varrho / 2)))
    if s.orbit_last = true ∧ s.idx_a_ = s.num_waypoints_ - 2 then
      ({ s with idx_a_ := s.idx_a_ + 1, fil_state_ := fillet_state.STRAIGHT }, out)
    else if (p.sub z).dot q_i < 0 then
      ({ s with fil_state_ := fillet_state.ORBIT }, out)
    else (s, out)
  | fillet_state.ORBIT =>
    let out := fillet_orbit_output s.R_min output w_i q_im1 q_i varrho
    let z := w_i.add (q_i.scale (s.R_min / Libm.tanf (varrho / 2)))
    if (p.sub z).dot q_i > 0 then
      ({ s with idx_a_ := advance_idx_a s, update_marker_ := true,
                fil_state_ := fillet_state.STRAIGHT }, out)
    else (s, out)

/-- The method `manage_fillet`. -/
def manage_fillet (s : path_manager_example F) (input : input_s F) (output : output_s F) :
    Option (path_manager_example F × output_s F) :=
  if s.num_waypoints_ < 3 then manage_line s input output
  else
    let p : Vec3 F := ⟨input.pn, input.pe, -input.h⟩
    match increment_indices s input output with
    | none => none
    | some (s1, idx_b, idx_c, out1) =>
      if s.orbit_last = true ∧ s1.idx_a_ = s1.num_waypoints_ - 1 then some (s1, out1)
      else
        match s1.wp s1.idx_a_, s1.wp idx_b, s1.wp idx_c with
        | some wa, some wb, some wc =>
          let w_im1 := wa.w
          let w_i := wb.w
          let w_ip1 := wc.w
          let out2 : output_s F := { out1 with va_d := wa.va_d, r := w_im1 }
          let q_im1 := (w_i.sub w_im1).normalized
          let q_i := (w_ip1.sub w_i).normalized
          let varrho := fillet_varrho w_im1 w_i w_ip1
          let max_r := fillet_max_r w_im1 w_i w_ip1
          if s.R_min > max_r then manage_line s1 input out2
          else some (fillet_switch s1 out2 p w_i q_im1 q_i varrho)
        | _, _, _ => none

/-! ## Planar geometry utilities -/

/-- The method `rotz`. -/
def rotz (theta : F) : Mat3 F :=
  ⟨⟨Libm.cosf theta, -Libm.sinf theta, 0⟩, ⟨Libm.sinf theta, Libm.cosf theta, 0⟩, ⟨0, 0, 1⟩⟩

/-- The method `mo`, read with exact arithmetic: the source evaluates `in / 2.0 / M_PI_F` and
`in - n * 2.0 * M_PI_F` in floating point and rounds the result to single precision, and that
rounding is not modelled. -/
def mo (x : F) : F :=
  if x > 0 then Libm.fmod x (2 * Libm.M_PI_F)
  else x - Libm.floorf (x / 2 / Libm.M_PI_F) * 2 * Libm.M_PI_F

/-! ## Dubins solver -/

/-- The centre `crs` (from `ps`, `chis`) and `cre` (from `pe`, `chie`) of
`dubinsParameters`. -/
def circle_right (p : Vec3 F) (chi R : F) : Vec3 F :=
  ⟨p.x + R * (Libm.cosf Libm.M_PI_2_F * Libm.cosf chi - Libm.sinf Libm.M_PI_2_F * Libm.sinf chi),
   p.y + R * (Libm.sinf Libm.M_PI_2_F * Libm.cosf chi + Libm.cosf Libm.M_PI_2_F * Libm.sinf chi),
   p.z⟩

/-- The centre `cls` (from `ps`, `chis`) and `cle` (from `pe`, `chie`) of
`dubinsParameters`. -/
def circle_left (p : Vec3 F) (chi R : F) : Vec3 F :=
  ⟨p.x + R * (Libm.cosf (-Libm.M_PI_2_F) * Libm.cosf chi
              - Libm.sinf (-Libm.M_PI_2_F) * Libm.sinf chi),
   p.y + R * (Libm.sinf (-Libm.M_PI_2_F) * Libm.cosf chi
              + Libm.cosf (-Libm.M_PI_2_F) * Libm.sinf chi),
   p.z⟩

/-- The candidate length `L1` (right-straight-right). -/
def dubins_L1 (crs cre : Vec3 F) (chis chie R : F) : F :=
  let theta := Libm.atan2f (cre.y - crs.y) (cre.x - crs.x)
  (crs.sub cre).norm
    + R * mo (2 * Libm.M_PI_F + mo (theta - Libm.M_PI_2_F) - mo (chis - Libm.M_PI_2_F))
    + R * mo (2 * Libm.M_PI_F + mo (chie - Libm.M_PI_2_F) - mo (theta - Libm.M_PI_2_F))

/-- The angle `theta2` of the right-straight-left case. -/
def dubins_theta2_rsl (crs cle : Vec3 F) (R : F) : F :=
  let ell := (cle.sub crs).norm
  let theta := Libm.atan2f (cle.y - crs.y) (cle.x - crs.x)
  theta - Libm.M_PI_2_F + Libm.asinf (2 * R / ell)

/-- The candidate length `L2` (right-straight-left). -/
def dubins_L2 (crs cle : Vec3 F) (chis chie R : F) : F :=
  let ell := (cle.sub crs).norm
  if 2 * R > ell then 9999
  else
    let theta2 := dubins_theta2_rsl crs cle R
    Libm.sqrtf (ell * ell - 4 * R * R)
      + R * mo (2 * Libm.M_PI_F + mo theta2 - mo (chis - Libm.M_PI_2_F))
      + R * mo (2 * Libm.M_PI_F + mo (theta2 + Libm.M_PI_F) - mo (chie + Libm.M_PI_2_F))

/-- The sum `theta + theta2` of the left-straight-right case. -/
def dubins_theta_lsr (cls cre : Vec3 F) (R : F) : F :=
  let ell := (cre.sub cls).norm
  let theta := Libm.atan2f (cre.y - cls.y) (cre.x - cls.x)
  let theta2 := Libm.acosf (2 * R / ell)
  theta + theta2

/-- The candidate length `L3` (left-straight-right). -/
def dubins_L3 (cls cre : Vec3 F) (chis chie R : F) : F :=
  let ell := (cre.sub cls).norm
  if 2 * R > ell then 9999
  else
    let tt := dubins_theta_lsr cls cre R
    Libm.sqrtf (ell * ell - 4 * R * R)
      + R * mo (2 * Libm.M_PI_F + mo (chis + Libm.M_PI_2_F) - mo tt)
      + R * mo (2 * Libm.M_PI_F + mo (chie - Libm.M_PI_2_F) - mo (tt - Libm.M_PI_F))

/-- The candidate length `L4` (left-straight-left). -/
def dubins_L4 (cls cle : Vec3 F) (chis chie R : F) : F :=
  let theta := Libm.atan2f (cle.y - cls.y) (cle.x - cls.x)
  (cls.sub cle).norm
    + R * mo (2 * Libm.M_PI_F + mo (chis + Libm.M_PI_2_F) - mo (theta + Libm.M_PI_2_F))
    + R * mo (2 * Libm.M_PI_F + mo (theta + Libm.M_PI_2_F) - mo (chie + Libm.M_PI_2_F))

/-- The selection `idx`, `dubinspath_.L` among the four candidate lengths. -/
def dubins_select (L1 L2 L3 L4 : F) : Nat × F :=
  let r1 : Nat × F := (1, L1)
  let r2 : Nat × F := if L2 < r1.2 then (2, L2) else r1
  let r3 : Nat × F := if L3 < r2.2 then (3, L3) else r2
  if L4 < r3.2 then (4, L4) else r3

/-- The value `ell` tested on entry of `dubinsParameters`. -/
def dubins_ell (start_node end_node : waypoint_s F) : F :=
  Libm.sqrtf ((start_node.w.x - end_node.w.x) * (start_node.w.x - end_node.w.x)
    + (start_node.w.y - end_node.w.y) * (start_node.w.y - end_node.w.y))

/-- The index `idx` that `dubinsParameters` selects for an accepted pair. -/
def dubins_idx (start_node end_node : waypoint_s F) (R : F) : Nat :=
  let crs := circle_right start_node.w start_node.chi_d R
  let cls := circle_left start_node.w start_node.chi_d R
  let cre := circle_right end_node.w end_node.chi_d R
  let cle := circle_left end_node.w end_node.chi_d R
  (dubins_select (dubins_L1 crs cre start_node.chi_d end_node.chi_d R)
    (dubins_L2 crs cle start_node.chi_d end_node.chi_d R)
    (dubins_L3 cls cre start_node.chi_d end_node.chi_d R)
    (dubins_L4 cls cle start_node.chi_d end_node.chi_d R)).1

/-- The method `dubinsParameters`, as a function of the old value of `dubinspath_`. -/
def dubinsParameters (d : dubinspath_s F) (start_node end_node : waypoint_s F) (R : F) :
    dubinspath_s F :=
  if dubins_ell start_node end_node < 2 * R then d
  else
    let ps := start_node.w
    let chis := start_node.chi_d
    let pe := end_node.w
    let chie := end_node.chi_d
    let crs := circle_right ps chis R
    let cls := circle_left ps chis R
    let cre := circle_right pe chie R
    let cle := circle_left pe chie R
    let sel := dubins_select (dubins_L1 crs cre chis chie R) (dubins_L2 crs cle chis chie R)
      (dubins_L3 cls cre chis chie R) (dubins_L4 cls cle chis chie R)
    let e1 : Vec3 F := ⟨1, 0, 0⟩
    let d0 : dubinspath_s F := { d with ps := ps, chis := chis, pe := pe, chie := chie, L := sel.2 }
    let d1 : dubinspath_s F :=
      match sel.1 with
      | 1 =>
        let q1 := (cre.sub crs).normalized
        { d0 with cs := crs, lams := 1, ce := cre, lame := 1, q1 := q1,
                  w1 := crs.add (((rotz (-Libm.M_PI_2_F)).mulVec q1).scale R),
                  w2 := cre.add (((rotz (-Libm.M_PI_2_F)).mulVec q1).scale R) }
      | 2 =>
        let theta2 := dubins_theta2_rsl crs cle R
        { d0 with cs := crs, lams := 1, ce := cle, lame := -1,
                  q1 := (rotz (theta2 + Libm.M_PI_2_F)).mulVec e1,
                  w1 := crs.add (((rotz theta2).mulVec e1).scale R),
                  w2 := cle.add (((rotz (theta2 + Libm.M_PI_F)).mulVec e1).scale R) }
      | 3 =>
        let tt := dubins_theta_lsr cls cre R
        { d0 with cs := cls, lams := -1, ce := cre, lame := 1,
                  q1 := (rotz (tt - Libm.M_PI_2_F)).mulVec e1,
                  w1 := cls.add (((rotz tt).mulVec e1).scale R),
                  w2 := cre.add (((rotz (tt - Libm.M_PI_F)).mulVec e1).scale R) }
      | 4 =>
        let q1 := (cle.sub cls).normalized
        { d0 with cs := cls, lams := -1, ce := cle, lame := -1, q1 := q1,
                  w1 := cls.add (((rotz Libm.M_PI_2_F).mulVec q1).scale R),
                  w2 := cle.add (((rotz Libm.M_PI_2_F).mulVec q1).scale R) }
      | _ => d0
    { d1 with w3 := pe, q3 := (rotz chie).mulVec e1, R := R }

/-! ## Dubins manager -/

/-- The orbit on the start circle written by the cases `FIRST`, `BEFORE_H1` and
`BEFORE_H1_WRONG_SIDE` of `manage_dubins`. -/
def dubins_start_orbit (d : dubinspath_s F) (output : output_s F) : output_s F :=
  { output with flag := false, c := d.cs, rho := d.R, lamda := d.lams }

/-- The orbit on the end circle written by the cases `BEFORE_H3` and
`BEFORE_H3_WRONG_SIDE` of `manage_dubins`. -/
def dubins_end_orbit (d : dubinspath_s F) (output : output_s F) : output_s F :=
  { output with flag := false, c := d.ce, rho := d.R, lamda := d.lame }

/-- The state entered when a Dubins path starts: `BEFORE_H1_WRONG_SIDE` when the pose is in
`H1`, else `BEFORE_H1`. -/
def dubins_entry_state (d : dubinspath_s F) (p : Vec3 F) : dubin_state :=
  if (p.sub d.w1).dot d.q1 ≥ 0 then dubin_state.BEFORE_H1_WRONG_SIDE
  else dubin_state.BEFORE_H1

/-- The method `manage_dubins`. -/
def manage_dubins (s : path_manager_example F) (input : input_s F) (output : output_s F) :
    Option (path_manager_example F × output_s F) :=
  let p : Vec3 F := ⟨input.pn, input.pe, -input.h⟩
  match s.wp s.idx_a_ with
  | none => none
  | some wa =>
    let out0 : output_s F :=
      { output with va_d := wa.va_d, r := ⟨0, 0, 0⟩, q := ⟨0, 0, 0⟩, c := ⟨0, 0, 0⟩ }
    match s.dub_state_ with
    | dubin_state.FIRST =>
      match s.wp 0, s.wp 1 with
      | some w0, some w1 =>
        let d := dubinsParameters s.dubinspath_ w0 w1 s.R_min
        some ({ s with dubinspath_ := d, dub_state_ := dubins_entry_state d p },
              dubins_start_orbit d out0)
      | _, _ => none
    | dubin_state.BEFORE_H1 =>
      let d := s.dubinspath_
      if (p.sub d.w1).dot d.q1 ≥ 0 then
        some ({ s with dub_state_ := dubin_state.STRAIGHT }, dubins_start_orbit d out0)
      else some (s, dubins_start_orbit d out0)
    | dubin_state.BEFORE_H1_WRONG_SIDE =>
      let d := s.dubinspath_
      if (p.sub d.w1).dot d.q1 < 0 then
        some ({ s with dub_state_ := dubin_state.BEFORE_H1 }, dubins_start_orbit d out0)
      else some (s, dubins_start_orbit d out0)
    | dubin_state.STRAIGHT =>
      let d := s.dubinspath_
      let out : output_s F := { out0 with flag := true, r := d.w1, q := d.q1, rho := 1, lamda := 1 }
      if (p.sub d.w2).dot d.q1 ≥ 0 then
        if (p.sub d.w3).dot d.q3 ≥ 0 then
          some ({ s with dub_state_ := dubin_state.BEFORE_H3_WRONG_SIDE }, out)
        else some ({ s with dub_state_ := dubin_state.BEFORE_H3 }, out)
      else some (s, out)
    | dubin_state.BEFORE_H3 =>
      let d := s.dubinspath_
      let out := dubins_end_orbit d out0
      if (p.sub d.w3).dot d.q3 ≥ 0 then
        let idx_a : Int :=
          if s.idx_a_ = s.num_waypoints_ - 1 then 0 else s.idx_a_ + 1
        let idx_b : Int :=
          if s.idx_a_ = s.num_waypoints_ - 1 then 1
          else if s.idx_a_ = s.num_waypoints_ - 2 then 0 else s.idx_a_ + 1 + 1
        match s.wp idx_a, s.wp idx_b with
        | some na, some nb =>
          let d2 := dubinsParameters d na nb s.R_min
          some ({ s with idx_a_ := idx_a, update_marker_ := true, dubinspath_ := d2,
                         dub_state_ := dubins_entry_state d2 p }, out)
        | _, _ => none
      else some (s, out)
    | dubin_state.BEFORE_H3_WRONG_SIDE =>
      let d := s.dubinspath_
      let out := dubins_end_orbit d out0
      if (p.sub d.w3).dot d.q3 < 0 then
        some ({ s with dub_state_ := dubin_state.BEFORE_H1 }, out)
      else some (s, out)

/-! ## Top-level dispatcher -/

/-- The method `manage`; `elapsed` is the number of seconds since `start_time` that the
`N = 0` branch compares with `10.0`. -/
def manage (s : path_manager_example F) (elapsed : F) (input : input_s F) (output : output_s F) :
    Option (path_manager_example F × output_s F) :=
  if s.num_waypoints_ = 0 then
    if elapsed ≥ 10 then
      some (s, { output with flag := false, va_d := s.default_airspeed,
                             c := ⟨0, 0, -s.default_altitude⟩, rho := s.R_min, lamda := 1 })
    else some (s, output)
  else if s.num_waypoints_ = 1 then
    match s.wp 0 with
    | none => none
    | some w0 =>
      let dir := orbit_direction s input.pn input.pe input.chi w0.w.x w0.w.y
      some (dir.2, { output with flag := false, va_d := w0.va_d, c := w0.w, rho := s.R_min,
                                 lamda := dir.1 })
  else
    match s.wp s.idx_a_ with
    | none => none
    | some wa =>
      if wa.use_chi = true then manage_dubins s input output
      else manage_fillet s input output

end generic

/-! ## The exact real-number model of the math library -/

/-- The math library over `ℝ`: the exact functions, `atan2f y x` the argument of `x + y i`,
`fmod x y = x - y * trunc (x / y)`, the constants `π`, `π / 2` and Eigen's single-precision
`dummy_precision` of `1e-5`. The functions are total here: `Real.sqrt` is `0` on negative
arguments and `Real.arcsin`, `Real.arccos` are constant outside `[-1, 1]`, where `sqrtf`,
`asinf` and `acosf` of the C library return NaN; and every operation is exact where the source
rounds to single precision. A statement about a value of `sqrtf`, `asinf` or `acosf` therefore
speaks about the program only where the argument is inside the domain. -/
noncomputable instance realLibm : Libm ℝ where
  sqrtf := Real.sqrt
  sinf := Real.sin
  cosf := Real.cos
  tanf := Real.tan
  asinf := Real.arcsin
  acosf := Real.arccos
  atan2f := fun y x => Complex.arg ⟨x, y⟩
  floorf := fun x => ((⌊x⌋ : ℤ) : ℝ)
  fmod := fun x y => x - y * (if 0 ≤ x / y then ((⌊x / y⌋ : ℤ) : ℝ) else ((⌈x / y⌉ : ℤ) : ℝ))
  M_PI_F := Real.pi
  M_PI_2_F := Real.pi / 2
  dummy_precision := 1 / 100000

/-! ## Derived quantities and specification predicates -/

/-- The changes of `fil_state_` in one tick that the code can make: none, the three edges
`STRAIGHT → TRANSITION → ORBIT → STRAIGHT`, and `TRANSITION → STRAIGHT` when `orbit_last` is set
and `idx_a_` is the second-to-last index. -/
def fillet_edge {F : Type} (s s1 : path_manager_example F) : Prop :=
  s1.fil_state_ = s.fil_state_
    ∨ (s.fil_state_ = fillet_state.STRAIGHT ∧ s1.fil_state_ = fillet_state.TRANSITION)
    ∨ (s.fil_state_ = fillet_state.TRANSITION ∧ s1.fil_state_ = fillet_state.ORBIT)
    ∨ (s.fil_state_ = fillet_state.ORBIT ∧ s1.fil_state_ = fillet_state.STRAIGHT)
    ∨ (s.fil_state_ = fillet_state.TRANSITION ∧ s1.fil_state_ = fillet_state.STRAIGHT
        ∧ s.orbit_last = true ∧ s.idx_a_ = s.num_waypoints_ - 2)

/-- The candidate length `L1` of `dubinsParameters` for a pair of waypoints. -/
def dubins_cand1 {F : Type} [LinearOrderedField F] [Libm F] (sn en : waypoint_s F) (R : F) : F :=
  dubins_L1 (circle_right sn.w sn.chi_d R) (circle_right en.w en.chi_d R) sn.chi_d en.chi_d R

/-- The candidate length `L2` of `dubinsParameters` for a pair of waypoints. -/
def dubins_cand2 {F : Type} [LinearOrderedField F] [Libm F] (sn en : waypoint_s F) (R : F) : F :=
  dubins_L2 (circle_right sn.w sn.chi_d R) (circle_left en.w en.chi_d R) sn.chi_d en.chi_d R

/-- The candidate length `L3` of `dubinsParameters` for a pair of waypoints. -/
def dubins_cand3 {F : Type} [LinearOrderedField F] [Libm F] (sn en : waypoint_s F) (R : F) : F :=
  dubins_L3 (circle_left sn.w sn.chi_d R) (circle_right en.w en.chi_d R) sn.chi_d en.chi_d R

/-- The candidate length `L4` of `dubinsParameters` for a pair of waypoints. -/
def dubins_cand4 {F : Type} [LinearOrderedField F] [Libm F] (sn en : waypoint_s F) (R : F) : F :=
  dubins_L4 (circle_left sn.w sn.chi_d R) (circle_left en.w en.chi_d R) sn.chi_d en.chi_d R

/-- The point `p + R · rotz(chi + a) · ê₁`: a circle centre at distance `R` from `p` in the
direction of the course `chi` turned by `a`. -/
def tangent_center {F : Type} [LinearOrderedField F] [Libm F] (p : Vec3 F) (chi R a : F) :
    Vec3 F :=
  p.add (((rotz (chi + a)).mulVec ⟨1, 0, 0⟩).scale R)

/-! ## Concrete inputs -/

/-- A waypoint at `(x, y, z)` with course `chi`, heading flag `u` and airspeed `15`. -/
def mkwp (x y z chi : ℝ) (u : Bool) : waypoint_s ℝ := ⟨⟨x, y, z⟩, chi, u, 15⟩

/-- The all-zero output primitive. -/
def out_zero : output_s ℝ := ⟨false, 0, ⟨0, 0, 0⟩, ⟨0, 0, 0⟩, ⟨0, 0, 0⟩, 0, 0⟩

/-- A stored Dubins path whose arrival half-plane `H3` is `(w3, q3) = ((200, 0, -50), (-1, 0, 0))`. -/
def path_arrival : dubinspath_s ℝ :=
  { ps := ⟨0, 0, -50⟩, chis := 0, pe := ⟨200, 0, -50⟩, chie := 3,
    cs := ⟨0, 50, -50⟩, lams := 1, ce := ⟨200, 50, -50⟩, lame := -1, L := 400,
    w1 := ⟨25, 10, -50⟩, q1 := ⟨1, 0, 0⟩, w2 := ⟨175, 90, -50⟩,
    w3 := ⟨200, 0, -50⟩, q3 := ⟨-1, 0, 0⟩, R := 50 }

/-- Two heading-constrained waypoints, the manager in `BEFORE_H3_WRONG_SIDE` on `path_arrival`. -/
def state_h3_wrong_side : path_manager_example ℝ :=
  { waypoints_ := [mkwp 0 0 (-50) 0 true, mkwp 200 0 (-50) 3 true],
    num_waypoints_ := 2, idx_a_ := 0, temp_waypoint_ := false, update_marker_ := false,
    fil_state_ := fillet_state.STRAIGHT, dub_state_ := dubin_state.BEFORE_H3_WRONG_SIDE,
    dubinspath_ := path_arrival, orbit_dir := 0, R_min := 50, orbit_last := false,
    default_altitude := 50, default_airspeed := 15, published_ := [] }

/-- Four waypoints on a square of side 100 at altitude 50. -/
def square_wps : List (waypoint_s ℝ) :=
  [mkwp 0 0 (-50) 0 false, mkwp 100 0 (-50) 0 false, mkwp 100 100 (-50) 0 false,
   mkwp 0 100 (-50) 0 false]

/-- The fillet manager in `TRANSITION` at the second-to-last waypoint with `orbit_last` set. -/
def state_square_transition : path_manager_example ℝ :=
  { waypoints_ := square_wps,
    num_waypoints_ := 4, idx_a_ := 2, temp_waypoint_ := false, update_marker_ := false,
    fil_state_ := fillet_state.TRANSITION, dub_state_ := dubin_state.FIRST,
    dubinspath_ := path_arrival, orbit_dir := 0, R_min := 25, orbit_last := true,
    default_altitude := 50, default_airspeed := 15, published_ := [] }

/-- A temporary waypoint followed by one real waypoint; the vehicle has reached the real one
(`idx_a_ = 1`). -/
def state_temp_pair : path_manager_example ℝ :=
  { waypoints_ := [mkwp 0 0 (-50) 0 false, mkwp 100 0 (-50) 0 false],
    num_waypoints_ := 2, idx_a_ := 1, temp_waypoint_ := true, update_marker_ := false,
    fil_state_ := fillet_state.STRAIGHT, dub_state_ := dubin_state.FIRST,
    dubinspath_ := path_arrival, orbit_dir := 0, R_min := 25, orbit_last := false,
    default_altitude := 50, default_airspeed := 15, published_ := [] }

/-- Three waypoints with a right-angle corner, the manager on the first leg. -/
def state_right_angle : path_manager_example ℝ :=
  { waypoints_ := [mkwp 0 0 (-50) 0 false, mkwp 100 0 (-50) 0 false, mkwp 100 100 (-50) 0 false],
    num_waypoints_ := 3, idx_a_ := 0, temp_waypoint_ := false, update_marker_ := true,
    fil_state_ := fillet_state.STRAIGHT, dub_state_ := dubin_state.FIRST,
    dubinspath_ := path_arrival, orbit_dir := 0, R_min := 25, orbit_last := false,
    default_altitude := 50, default_airspeed := 15, published_ := [] }

/-- Two heading-constrained waypoints 400 apart. -/
def wp_far_s : waypoint_s ℝ := mkwp 0 0 (-50) 0 true

/-- The second of two heading-constrained waypoints 400 apart. -/
def wp_far_e : waypoint_s ℝ := mkwp 400 0 (-50) 0 true

/-- Start of the degenerate pair: `(0,0,0)` with course `-π/2`. -/
noncomputable def wp_deg_s : waypoint_s ℝ := ⟨⟨0, 0, 0⟩, -(Real.pi / 2), true, 15⟩

/-- End of the degenerate pair: `(2,0,0)` with course `π/2`; with `R = 1` the right circles of
the two configurations coincide. -/
noncomputable def wp_deg_e : waypoint_s ℝ := ⟨⟨2, 0, 0⟩, Real.pi / 2, true, 15⟩

/-- Start of the minimum-selection scenario: `(0,0,-50)` with course `0`. -/
def wp_sel_s : waypoint_s ℝ := ⟨⟨0, 0, -50⟩, 0, true, 15⟩

/-- End of the minimum-selection scenario: `(200,0,-50)` with course `π`. -/
noncomputable def wp_sel_e : waypoint_s ℝ := ⟨⟨200, 0, -50⟩, Real.pi, true, 15⟩

/-- Two waypoints 1 apart, closer than `2R` for `R = 50`. -/
def wp_near_s : waypoint_s ℝ := mkwp 0 0 (-50) 0 true

/-- The second of two waypoints 1 apart. -/
def wp_near_e : waypoint_s ℝ := mkwp 1 0 (-50) 0 true

/-- Two waypoints 1 apart with heading constraints, the Dubins manager in `FIRST`, the stored
path `path_arrival` left over from before. -/
def state_first_near : path_manager_example ℝ :=
  { waypoints_ := [wp_near_s, wp_near_e],
    num_waypoints_ := 2, idx_a_ := 0, temp_waypoint_ := false, update_marker_ := true,
    fil_state_ := fillet_state.STRAIGHT, dub_state_ := dubin_state.FIRST,
    dubinspath_ := path_arrival, orbit_dir := 0, R_min := 50, orbit_last := false,
    default_altitude := 50, default_airspeed := 15, published_ := [] }

/-- A third heading-constrained waypoint, 400 beyond `wp_far_e`. -/
def wp_far_3 : waypoint_s ℝ := mkwp 800 0 (-50) 0 true

/-- Three heading-constrained waypoints 400 apart, the Dubins manager still in `FIRST` while
`idx_a_` is already `1`. -/
def state_first_late : path_manager_example ℝ :=
  { waypoints_ := [wp_far_s, wp_far_e, wp_far_3],
    num_waypoints_ := 3, idx_a_ := 1, temp_waypoint_ := false, update_marker_ := true,
    fil_state_ := fillet_state.STRAIGHT, dub_state_ := dubin_state.FIRST,
    dubinspath_ := path_arrival, orbit_dir := 0, R_min := 50, orbit_last := false,
    default_altitude := 50, default_airspeed := 15, published_ := [] }

/-- Three waypoints with a right-angle corner, `orbit_last` set, the manager at the last
waypoint. -/
def state_last_orbit : path_manager_example ℝ :=
  { waypoints_ := [mkwp 0 0 (-50) 0 false, mkwp 100 0 (-50) 0 false, mkwp 100 100 (-50) 0 false],
    num_waypoints_ := 3, idx_a_ := 2, temp_waypoint_ := false, update_marker_ := true,
    fil_state_ := fillet_state.STRAIGHT, dub_state_ := dubin_state.FIRST,
    dubinspath_ := path_arrival, orbit_dir := 0, R_min := 25, orbit_last := true,
    default_altitude := 50, default_airspeed := 15, published_ := [] }

/-- Two heading-constrained waypoints 400 apart, `orbit_last` set, the Dubins manager in
`BEFORE_H3` at the last waypoint on the stored path `path_arrival`. -/
def state_h3_last : path_manager_example ℝ :=
  { waypoints_ := [wp_far_s, wp_far_e],
    num_waypoints_ := 2, idx_a_ := 1, temp_waypoint_ := false, update_marker_ := false,
    fil_state_ := fillet_state.STRAIGHT, dub_state_ := dubin_state.BEFORE_H3,
    dubinspath_ := path_arrival, orbit_dir := 0, R_min := 50, orbit_last := true,
    default_altitude := 50, default_airspeed := 15, published_ := [] }

/-- A single waypoint `(100, 100, -60)` with commanded airspeed 18, `R_min = 25` and the orbit
direction not yet computed. -/
def state_single : path_manager_example ℝ :=
  { waypoints_ := [⟨⟨100, 100, -60⟩, 0, false, 18⟩],
    num_waypoints_ := 1, idx_a_ := 0, temp_waypoint_ := false, update_marker_ := false,
    fil_state_ := fillet_state.STRAIGHT, dub_state_ := dubin_state.FIRST,
    dubinspath_ := path_arrival, orbit_dir := 0, R_min := 25, orbit_last := false,
    default_altitude := 50, default_airspeed := 15, published_ := [] }

/-- Two coincident waypoints without heading constraint, the manager on the leg between
them. -/
def state_duplicate : path_manager_example ℝ :=
  { waypoints_ := [mkwp 0 0 (-50) 0 false, mkwp 0 0 (-50) 0 false],
    num_waypoints_ := 2, idx_a_ := 0, temp_waypoint_ := false, update_marker_ := false,
    fil_state_ := fillet_state.STRAIGHT, dub_state_ := dubin_state.FIRST,
    dubinspath_ := path_arrival, orbit_dir := 0, R_min := 25, orbit_last := false,
    default_altitude := 50, default_airspeed := 15, published_ := [] }

/-- A Dubins record with every field zero: no solver call has written it. -/
def path_blank : dubinspath_s ℝ :=
  { ps := ⟨0, 0, 0⟩, chis := 0, pe := ⟨0, 0, 0⟩, chie := 0,
    cs := ⟨0, 0, 0⟩, lams := 0, ce := ⟨0, 0, 0⟩, lame := 0, L := 0,
    w1 := ⟨0, 0, 0⟩, q1 := ⟨0, 0, 0⟩, w2 := ⟨0, 0, 0⟩,
    w3 := ⟨0, 0, 0⟩, q3 := ⟨0, 0, 0⟩, R := 0 }

/-- Two waypoints 1 apart with heading constraints, the Dubins manager in `FIRST` and the
stored record `path_blank`. -/
def state_first_blank : path_manager_example ℝ :=
  { waypoints_ := [wp_near_s, wp_near_e],
    num_waypoints_ := 2, idx_a_ := 0, temp_waypoint_ := false, update_marker_ := true,
    fil_state_ := fillet_state.STRAIGHT, dub_state_ := dubin_state.FIRST,
    dubinspath_ := path_blank, orbit_dir := 0, R_min := 50, orbit_last := false,
    default_altitude := 50, default_airspeed := 15, published_ := [] }

/-- The right-straight-left length that `dubinsParameters` computes in the `else` branch of
its test `2.0 * R > ell`: the tangent segment `sqrtf(ell² - 4R²)` plus the two arcs. -/
def dubins_rsl_length {F : Type} [LinearOrderedField F] [Libm F]
    (crs cle : Vec3 F) (chis chie R : F) : F :=
  Libm.sqrtf ((cle.sub crs).norm * (cle.sub crs).norm - 4 * R * R)
    + R * mo (2 * Libm.M_PI_F + mo (dubins_theta2_rsl crs cle R) - mo (chis - Libm.M_PI_2_F))
    + R * mo (2 * Libm.M_PI_F + mo (dubins_theta2_rsl crs cle R + Libm.M_PI_F)
        - mo (chie + Libm.M_PI_2_F))

/-- The left-straight-right length that `dubinsParameters` computes in the `else` branch of
its test `2.0 * R > ell`. -/
def dubins_lsr_length {F : Type} [LinearOrderedField F] [Libm F]
    (cls cre : Vec3 F) (chis chie R : F) : F :=
  Libm.sqrtf ((cre.sub cls).norm * (cre.sub cls).norm - 4 * R * R)
    + R * mo (2 * Libm.M_PI_F + mo (chis + Libm.M_PI_2_F) - mo (dubins_theta_lsr cls cre R))
    + R * mo (2 * Libm.M_PI_F + mo (chie - Libm.M_PI_2_F)
        - mo (dubins_theta_lsr cls cre R - Libm.M_PI_F))

/-- The point `z` of the case `STRAIGHT` of `manage_fillet`: where the first leg is left. -/
def fillet_z_in {F : Type} [LinearOrderedField F] [Libm F] (R_min : F) (w_i q_im1 : Vec3 F)
    (varrho : F) : Vec3 F :=
  w_i.sub (q_im1.scale (R_min / Libm.tanf (varrho / 2)))

/-- The point `z` of the cases `TRANSITION` and `ORBIT` of `manage_fillet`: where the second
leg is joined. -/
def fillet_z_out {F : Type} [LinearOrderedField F] [Libm F] (R_min : F) (w_i q_i : Vec3 F)
    (varrho : F) : Vec3 F :=
  w_i.add (q_i.scale (R_min / Libm.tanf (varrho / 2)))

/-- One step of the active index: `num_waypoints_` is kept and `idx_a_` is kept or advanced
by one with wraparound. -/
def idx_step {F : Type} (s s1 : path_manager_example F) : Prop :=
  s1.num_waypoints_ = s.num_waypoints_
    ∧ (s1.idx_a_ = s.idx_a_ ∨ s1.idx_a_ = (s.idx_a_ + 1) % s.num_waypoints_)

/-- The dispatcher called once per sample of a list of `(elapsed, pose)` pairs, in order,
each tick starting from the state and the output primitive the previous one left. -/
def manage_ticks {F : Type} [LinearOrderedField F] [Libm F] (s : path_manager_example F)
    (output : output_s F) : List (F × input_s F) → Option (path_manager_example F × output_s F)
  | [] => some (s, output)
  | (elapsed, input) :: rest =>
    match manage s elapsed input output with
    | none => none
    | some (s1, o1) => manage_ticks s1 o1 rest

/-- Two waypoints without heading constraint, `orbit_last` set, the manager on the leg to the
last waypoint. -/
def state_stall : path_manager_example ℝ :=
  { waypoints_ := [mkwp 0 0 (-50) 0 false, mkwp 100 0 (-50) 0 false],
    num_waypoints_ := 2, idx_a_ := 0, temp_waypoint_ := false, update_marker_ := true,
    fil_state_ := fillet_state.STRAIGHT, dub_state_ := dubin_state.FIRST,
    dubinspath_ := path_arrival, orbit_dir := 0, R_min := 25, orbit_last := true,
    default_altitude := 50, default_airspeed := 15, published_ := [] }

/-- The end waypoint `(3900, 0, 0)` with course `-π/2`: with the start `wp_deg_s` and
`R = 1300` every candidate path but the right-straight-left one is longer than `9999`. -/
noncomputable def wp_long_e : waypoint_s ℝ := ⟨⟨3900, 0, 0⟩, -(Real.pi / 2), true, 15⟩

/-- The single-precision value of the literal `1.2f`, which is `5033165 / 2^22`. -/
noncomputable def R_edge : ℝ := 5033165 / 4194304

/-- The start waypoint `(0, 0, 0)` with course `0`. -/
def wp_edge_s : waypoint_s ℝ := mkwp 0 0 0 0 true

/-- The end waypoint `(0, 4 · R_edge, 0)` with course `0`; its second coordinate is the
single-precision value of `4.8f`. -/
noncomputable def wp_edge_e : waypoint_s ℝ := mkwp 0 (5033165 / 1048576) 0 0 true

/-- Two waypoints 1 apart with heading constraints, the Dubins manager in `FIRST`, the
stored record holding `d`: the constructor does not write the record, and no solver call has
written it before the first tick. -/
def state_first_with (d : dubinspath_s ℝ) : path_manager_example ℝ :=
  { waypoints_ := [wp_near_s, wp_near_e],
    num_waypoints_ := 2, idx_a_ := 0, temp_waypoint_ := false, update_marker_ := true,
    fil_state_ := fillet_state.STRAIGHT, dub_state_ := dubin_state.FIRST,
    dubinspath_ := d, orbit_dir := 0, R_min := 50, orbit_last := false,
    default_altitude := 50, default_airspeed := 15, published_ := [] }

/-! # Theorems -/

/-! ## Index sequencer: basic facts -/

lemma wp_some {F : Type} (s : path_manager_example F) (i : Int)
    (hlen : s.num_waypoints_ = s.waypoints_.length) (h0 : 0 ≤ i) (h1 : i < s.num_waypoints_) :
    ∃ w, s.wp i = some w := by
  have hi : i.toNat < s.waypoints_.length := by omega
  refine ⟨s.waypoints_[i.toNat], ?_⟩
  unfold path_manager_example.wp
  rw [if_neg (by omega)]
  exact List.getElem?_eq_getElem hi

lemma publish_if_marked_some {F : Type} (s : path_manager_example F) (i : Int)
    (hlen : s.num_waypoints_ = s.waypoints_.length) (h0 : 0 ≤ i) (h1 : i < s.num_waypoints_) :
    ∃ pl, publish_if_marked s i = some { s with update_marker_ := false, published_ := pl } := by
  obtain ⟨w, hw⟩ := wp_some s i hlen h0 h1
  unfold publish_if_marked publish_target_wp
  by_cases hm : s.update_marker_ = true
  · simp [hm, hw]
  · simp only [hm]
    refine ⟨s.published_, ?_⟩
    simp at hm
    simp
    cases s
    simp_all

/-- The wrapped successor indices. -/
lemma increment_indices_plain {F : Type} [LinearOrderedField F] [Libm F]
    (s : path_manager_example F) (input : input_s F) (output : output_s F)
    (hlen : s.num_waypoints_ = s.waypoints_.length) (hN : 2 ≤ s.num_waypoints_)
    (h0 : 0 ≤ s.idx_a_) (h1 : s.idx_a_ < s.num_waypoints_)
    (htemp : ¬ (s.temp_waypoint_ = true ∧ s.idx_a_ = 1))
    (hlast : ¬ (s.orbit_last = true ∧ s.idx_a_ = s.num_waypoints_ - 1)) :
    ∃ pl, increment_indices s input output =
      some ({ s with update_marker_ := false, published_ := pl },
        (s.idx_a_ + 1) % s.num_waypoints_, (s.idx_a_ + 2) % s.num_waypoints_, output) := by
  unfold increment_indices
  rw [if_neg htemp]
  by_cases hA : s.idx_a_ = s.num_waypoints_ - 1
  · have hol : ¬ s.orbit_last = true := fun h => hlast ⟨h, hA⟩
    rw [if_pos hA, if_neg hol]
    obtain ⟨pl, hpl⟩ := publish_if_marked_some s 0 hlen (by omega) (by omega)
    refine ⟨pl, ?_⟩
    rw [hpl]
    have e1 : (s.idx_a_ + 1) % s.num_waypoints_ = 0 := by
      rw [hA]; simp
    have e2 : (s.idx_a_ + 2) % s.num_waypoints_ = 1 := by
      rw [hA]
      have : s.num_waypoints_ - 1 + 2 = 1 + s.num_waypoints_ := by ring
      rw [this, Int.add_emod_self]
      exact Int.emod_eq_of_lt (by omega) (by omega)
    simp [e1, e2]
  · rw [if_neg hA]
    by_cases hB : s.idx_a_ = s.num_waypoints_ - 2
    · rw [if_pos hB]
      obtain ⟨pl, hpl⟩ := publish_if_marked_some s (s.num_waypoints_ - 1) hlen (by omega) (by omega)
      refine ⟨pl, ?_⟩
      rw [hpl]
      have e1 : (s.idx_a_ + 1) % s.num_waypoints_ = s.num_waypoints_ - 1 := by
        have h3 : s.idx_a_ + 1 = s.num_waypoints_ - 1 := by omega
        rw [h3]
        exact Int.emod_eq_of_lt (by omega) (by omega)
      have e2 : (s.idx_a_ + 2) % s.num_waypoints_ = 0 := by
        rw [hB]; simp
      simp [e1, e2]
    · rw [if_neg hB]
      obtain ⟨pl, hpl⟩ := publish_if_marked_some s (s.idx_a_ + 1) hlen (by omega) (by omega)
      refine ⟨pl, ?_⟩
      rw [hpl]
      have e1 : (s.idx_a_ + 1) % s.num_waypoints_ = s.idx_a_ + 1 :=
        Int.emod_eq_of_lt (by omega) (by omega)
      have e2 : (s.idx_a_ + 2) % s.num_waypoints_ = s.idx_a_ + 2 :=
        Int.emod_eq_of_lt (by omega) (by omega)
      simp [e1, e2]
      ring


lemma publish_if_marked_eq {F : Type} (s s1 : path_manager_example F) (i : Int)
    (h : publish_if_marked s i = some s1) :
    s1 = { s with update_marker_ := s1.update_marker_, published_ := s1.published_ } := by
  unfold publish_if_marked publish_target_wp at h
  by_cases hm : s.update_marker_ = true
  · cases hw : s.wp i with
    | none => simp [hm, hw] at h
    | some t =>
      simp [hm, hw] at h
      subst h
      rfl
  · simp [hm] at h
    subst h
    rfl

lemma orbit_direction_eq {F : Type} [LinearOrderedField F] [Libm F]
    (s : path_manager_example F) (pn pe chi c_n c_e : F) :
    (orbit_direction s pn pe chi c_n c_e).2
      = { s with orbit_dir := (orbit_direction s pn pe chi c_n c_e).2.orbit_dir } := by
  unfold orbit_direction
  dsimp only
  split_ifs <;> rfl

lemma increment_indices_frame {F : Type} [LinearOrderedField F] [Libm F]
    (s s1 : path_manager_example F) (input : input_s F) (output o1 : output_s F) (b c : Int)
    (h : increment_indices s input output = some (s1, b, c, o1)) :
    s1.fil_state_ = s.fil_state_ ∧ s1.orbit_last = s.orbit_last ∧ s1.R_min = s.R_min
      ∧ s1.dub_state_ = s.dub_state_ ∧ s1.dubinspath_ = s.dubinspath_ := by
  unfold increment_indices at h
  by_cases h1 : s.temp_waypoint_ = true ∧ s.idx_a_ = 1
  · rw [if_pos h1] at h
    cases hl : s.waypoints_ with
    | nil => simp [hl] at h
    | cons a rest =>
      simp [hl] at h
      obtain ⟨rfl, -⟩ := h
      simp
  · rw [if_neg h1] at h
    have key : ∀ (t : path_manager_example F) (i : Int) (bb cc : Int) (oo : output_s F),
        (match publish_if_marked t i with
          | none => none
          | some s2 => some (s2, bb, cc, oo)) = some (s1, b, c, o1) →
        s1.fil_state_ = t.fil_state_ ∧ s1.orbit_last = t.orbit_last ∧ s1.R_min = t.R_min
          ∧ s1.dub_state_ = t.dub_state_ ∧ s1.dubinspath_ = t.dubinspath_ := by
      intro t i bb cc oo ht
      cases hp : publish_if_marked t i with
      | none => simp [hp] at ht
      | some s2 =>
        simp [hp] at ht
        obtain ⟨rfl, -⟩ := ht
        have e := publish_if_marked_eq _ _ _ hp
        rw [e]
        simp
    split_ifs at h with h2 h3 h4
    · cases hw : s.wp s.idx_a_ with
      | none => simp [hw] at h
      | some wa =>
        simp only [hw] at h
        have k := key _ _ _ _ _ h
        have e := orbit_direction_eq s input.pn input.pe input.chi wa.w.x wa.w.y
        rw [e] at k
        simpa using k
    · exact key _ _ _ _ _ h
    · exact key _ _ _ _ _ h
    · exact key _ _ _ _ _ h

lemma manage_line_frame {F : Type} [LinearOrderedField F] [Libm F]
    (s s1 : path_manager_example F) (input : input_s F) (output o1 : output_s F)
    (h : manage_line s input output = some (s1, o1)) :
    s1.fil_state_ = s.fil_state_ := by
  unfold manage_line at h
  dsimp only at h
  cases hi : increment_indices s input output with
  | none => simp [hi] at h
  | some r =>
    obtain ⟨s2, b, c, o2⟩ := r
    have f := increment_indices_frame _ _ _ _ _ _ _ hi
    simp only [hi] at h
    split_ifs at h with h1
    · simp at h
      rw [← h.1]; exact f.1
    · cases ha : s2.wp s2.idx_a_ <;> cases hb : s2.wp b <;> cases hc : s2.wp c <;>
        simp only [ha, hb, hc] at h <;> try simp at h
      split_ifs at h <;> simp at h <;> rw [← h.1] <;> exact f.1

/-! ## Dubins manager: transitions -/

/-- In `BEFORE_H3_WRONG_SIDE` a tick of `manage_dubins` writes the end-arc orbit, and on
`(p - w3)·q3 < 0` it sets `dub_state_` to `BEFORE_H1`. -/
lemma manage_dubins_before_h3_wrong_side {F : Type} [LinearOrderedField F] [Libm F]
    (s : path_manager_example F) (input : input_s F) (output : output_s F) (wa : waypoint_s F)
    (hst : s.dub_state_ = dubin_state.BEFORE_H3_WRONG_SIDE) (hwa : s.wp s.idx_a_ = some wa)
    (hp : (Vec3.sub ⟨input.pn, input.pe, -input.h⟩ s.dubinspath_.w3).dot s.dubinspath_.q3 < 0) :
    manage_dubins s input output =
      some ({ s with dub_state_ := dubin_state.BEFORE_H1 },
            dubins_end_orbit s.dubinspath_
              { output with va_d := wa.va_d, r := ⟨0, 0, 0⟩, q := ⟨0, 0, 0⟩, c := ⟨0, 0, 0⟩ }) := by
  simp only [manage_dubins, hwa, hst]
  rw [if_pos hp]

/-- C1, at the failing input: in state `BEFORE_H3_WRONG_SIDE` with `(p - w3)·q3 = -1 < 0`, one
tick of `manage_dubins` emits the end-arc orbit `(ce, R, lame)` and sets `dub_state_` to
`BEFORE_H1`, not to `BEFORE_H3`. -/
theorem manage_dubins_h3_wrong_side_exit_goes_to_before_h1 :
    ∃ s1 out, manage_dubins state_h3_wrong_side ⟨201, 0, 50, 0⟩ out_zero = some (s1, out)
      ∧ out.flag = false ∧ out.c = path_arrival.ce ∧ out.rho = path_arrival.R ∧ out.lamda = path_arrival.lame
      ∧ s1.dub_state_ = dubin_state.BEFORE_H1
      ∧ s1.dub_state_ ≠ dubin_state.BEFORE_H3 := by
  refine ⟨_, _, manage_dubins_before_h3_wrong_side state_h3_wrong_side ⟨201, 0, 50, 0⟩ out_zero
    (mkwp 0 0 (-50) 0 true) rfl ?_ ?_, ?_⟩
  · simp [state_h3_wrong_side, path_manager_example.wp]
  · simp [state_h3_wrong_side, path_arrival, Vec3.sub, Vec3.dot]
    norm_num
  · simp [dubins_end_orbit, state_h3_wrong_side]

/-! ## Fillet manager: state transitions -/

lemma publish_if_marked_unmarked {F : Type} (s : path_manager_example F) (i : Int)
    (h : s.update_marker_ = false) : publish_if_marked s i = some s := by
  unfold publish_if_marked
  simp [h]

lemma increment_indices_publish {F : Type} [LinearOrderedField F] [Libm F]
    (s : path_manager_example F) (input : input_s F) (output : output_s F)
    (hN : 2 ≤ s.num_waypoints_)
    (h0 : 0 ≤ s.idx_a_) (h1 : s.idx_a_ < s.num_waypoints_)
    (htemp : ¬ (s.temp_waypoint_ = true ∧ s.idx_a_ = 1))
    (hlast : ¬ (s.orbit_last = true ∧ s.idx_a_ = s.num_waypoints_ - 1)) :
    increment_indices s input output =
      match publish_if_marked s ((s.idx_a_ + 1) % s.num_waypoints_) with
      | none => none
      | some s2 =>
        some (s2, (s.idx_a_ + 1) % s.num_waypoints_, (s.idx_a_ + 2) % s.num_waypoints_, output) := by
  unfold increment_indices
  rw [if_neg htemp]
  by_cases hA : s.idx_a_ = s.num_waypoints_ - 1
  · have hol : ¬ s.orbit_last = true := fun h => hlast ⟨h, hA⟩
    rw [if_pos hA, if_neg hol]
    have e1 : (s.idx_a_ + 1) % s.num_waypoints_ = 0 := by
      rw [hA]; simp
    have e2 : (s.idx_a_ + 2) % s.num_waypoints_ = 1 := by
      rw [hA]
      have : s.num_waypoints_ - 1 + 2 = 1 + s.num_waypoints_ := by ring
      rw [this, Int.add_emod_self]
      exact Int.emod_eq_of_lt (by omega) (by omega)
    rw [e1, e2]
  · rw [if_neg hA]
    by_cases hB : s.idx_a_ = s.num_waypoints_ - 2
    · rw [if_pos hB]
      have e1 : (s.idx_a_ + 1) % s.num_waypoints_ = s.num_waypoints_ - 1 := by
        have h3 : s.idx_a_ + 1 = s.num_waypoints_ - 1 := by omega
        rw [h3]
        exact Int.emod_eq_of_lt (by omega) (by omega)
      have e2 : (s.idx_a_ + 2) % s.num_waypoints_ = 0 := by
        rw [hB]; simp
      rw [e1, e2]
    · rw [if_neg hB]
      have e1 : (s.idx_a_ + 1) % s.num_waypoints_ = s.idx_a_ + 1 :=
        Int.emod_eq_of_lt (by omega) (by omega)
      have e2 : (s.idx_a_ + 2) % s.num_waypoints_ = s.idx_a_ + 2 :=
        Int.emod_eq_of_lt (by omega) (by omega)
      rw [e1, e2]
      have e3 : s.idx_a_ + 1 + 1 = s.idx_a_ + 2 := by ring
      rw [e3]

lemma wrap_idx_range (a N : Int) (hN : 0 < N) (k : Int) :
    0 ≤ (a + k) % N ∧ (a + k) % N < N :=
  ⟨Int.emod_nonneg _ (by omega), Int.emod_lt_of_pos _ hN⟩

/-- When the corner is feasible and the last-waypoint orbit is not engaged, `manage_fillet`
runs its state machine on the sequenced state. -/
lemma manage_fillet_eq_switch {F : Type} [LinearOrderedField F] [Libm F]
    (s : path_manager_example F) (input : input_s F) (output : output_s F)
    (wa wb wc : waypoint_s F)
    (hN : 3 ≤ s.num_waypoints_)
    (h0 : 0 ≤ s.idx_a_) (h1 : s.idx_a_ < s.num_waypoints_)
    (htemp : ¬ (s.temp_waypoint_ = true ∧ s.idx_a_ = 1))
    (hlast : ¬ (s.orbit_last = true ∧ s.idx_a_ = s.num_waypoints_ - 1))
    (hwa : s.wp s.idx_a_ = some wa)
    (hwb : s.wp ((s.idx_a_ + 1) % s.num_waypoints_) = some wb)
    (hwc : s.wp ((s.idx_a_ + 2) % s.num_waypoints_) = some wc)
    (hac : ¬ (s.R_min > fillet_max_r wa.w wb.w wc.w)) :
    ∃ s1, publish_if_marked s ((s.idx_a_ + 1) % s.num_waypoints_) = some s1 ∧
      manage_fillet s input output =
        some (fillet_switch s1 { output with va_d := wa.va_d, r := wa.w }
          ⟨input.pn, input.pe, -input.h⟩ wb.w (wb.w.sub wa.w).normalized
          (wc.w.sub wb.w).normalized (fillet_varrho wa.w wb.w wc.w)) := by
  have hi := increment_indices_publish s input output (by omega) h0 h1 htemp hlast
  cases hp : publish_if_marked s ((s.idx_a_ + 1) % s.num_waypoints_) with
  | none =>
    unfold publish_if_marked publish_target_wp at hp
    by_cases hm : s.update_marker_ = true
    · simp [hm, hwb] at hp
    · simp [hm] at hp
  | some s1 =>
    refine ⟨s1, rfl, ?_⟩
    rw [hp] at hi
    have e := publish_if_marked_eq _ _ _ hp
    have hwa2 : s1.wp s1.idx_a_ = some wa := by rw [e]; exact hwa
    have hwb2 : s1.wp ((s.idx_a_ + 1) % s.num_waypoints_) = some wb := by rw [e]; exact hwb
    have hwc2 : s1.wp ((s.idx_a_ + 2) % s.num_waypoints_) = some wc := by rw [e]; exact hwc
    have hlast2 : ¬ (s.orbit_last = true ∧ s1.idx_a_ = s1.num_waypoints_ - 1) := by
      rw [e]; exact hlast
    unfold manage_fillet
    rw [if_neg (by omega)]
    simp only [hi]
    rw [if_neg hlast2]
    simp only [hwa2, hwb2, hwc2]
    rw [if_neg hac]


lemma increment_indices_last {F : Type} [LinearOrderedField F] [Libm F]
    (s : path_manager_example F) (input : input_s F) (output : output_s F)
    (hlen : s.num_waypoints_ = s.waypoints_.length)
    (h0 : 0 ≤ s.idx_a_) (hA : s.idx_a_ = s.num_waypoints_ - 1) (hol : s.orbit_last = true)
    (htemp : ¬ (s.temp_waypoint_ = true ∧ s.idx_a_ = 1)) :
    ∃ wa pl od, s.wp s.idx_a_ = some wa ∧ increment_indices s input output =
      some ({ s with update_marker_ := false, published_ := pl, orbit_dir := od }, 0, 1,
        { flag := false, va_d := wa.va_d, c := wa.w, r := ⟨0, 0, 0⟩, q := ⟨0, 0, 0⟩,
          rho := s.R_min,
          lamda := (orbit_direction s input.pn input.pe input.chi wa.w.x wa.w.y).1 }) := by
  obtain ⟨wa, hwa⟩ := wp_some s s.idx_a_ hlen h0 (by omega)
  have e := orbit_direction_eq s input.pn input.pe input.chi wa.w.x wa.w.y
  obtain ⟨pl, hpl⟩ := publish_if_marked_some
    (orbit_direction s input.pn input.pe input.chi wa.w.x wa.w.y).2 s.idx_a_
    (by rw [e]; exact hlen) h0 (by rw [e]; simp; omega)
  refine ⟨wa, pl, (orbit_direction s input.pn input.pe input.chi wa.w.x wa.w.y).2.orbit_dir,
    hwa, ?_⟩
  unfold increment_indices
  rw [if_neg htemp, if_pos hA, if_pos hol]
  simp only [hwa, hpl]
  congr 2
  conv_lhs => rw [e]

lemma manage_line_total {F : Type} [LinearOrderedField F] [Libm F]
    (s : path_manager_example F) (input : input_s F) (output : output_s F)
    (hlen : s.num_waypoints_ = s.waypoints_.length) (hN : 2 ≤ s.num_waypoints_)
    (h0 : 0 ≤ s.idx_a_) (h1 : s.idx_a_ < s.num_waypoints_)
    (htemp : ¬ (s.temp_waypoint_ = true ∧ s.idx_a_ = 1)) :
    ∃ s1 o1, manage_line s input output = some (s1, o1) := by
  unfold manage_line
  dsimp only
  by_cases hlast : s.orbit_last = true ∧ s.idx_a_ = s.num_waypoints_ - 1
  · obtain ⟨wa, pl, od, -, hi⟩ := increment_indices_last s input output hlen h0 hlast.2 hlast.1 htemp
    rw [hi]
    simp only
    rw [if_pos ⟨hlast.1, Or.inl hlast.2⟩]
    exact ⟨_, _, rfl⟩
  · obtain ⟨pl, hi⟩ := increment_indices_plain s input output hlen hN h0 h1 htemp hlast
    rw [hi]
    simp only
    split_ifs with h2
    · exact ⟨_, _, rfl⟩
    · have hb0 := Int.emod_nonneg (s.idx_a_ + 1) (by omega : s.num_waypoints_ ≠ 0)
      have hb1 := Int.emod_lt_of_pos (s.idx_a_ + 1) (by omega : 0 < s.num_waypoints_)
      have hc0 := Int.emod_nonneg (s.idx_a_ + 2) (by omega : s.num_waypoints_ ≠ 0)
      have hc1 := Int.emod_lt_of_pos (s.idx_a_ + 2) (by omega : 0 < s.num_waypoints_)
      obtain ⟨wa, hwa⟩ := wp_some s s.idx_a_ hlen h0 h1
      obtain ⟨wb, hwb⟩ := wp_some s _ hlen hb0 hb1
      obtain ⟨wc, hwc⟩ := wp_some s _ hlen hc0 hc1
      have hwa2 : path_manager_example.wp
        { s with update_marker_ := false, published_ := pl } s.idx_a_ = some wa := hwa
      have hwb2 : path_manager_example.wp
        { s with update_marker_ := false, published_ := pl }
        ((s.idx_a_ + 1) % s.num_waypoints_) = some wb := hwb
      have hwc2 : path_manager_example.wp
        { s with update_marker_ := false, published_ := pl }
        ((s.idx_a_ + 2) % s.num_waypoints_) = some wc := hwc
      simp only [hwa2, hwb2, hwc2]
      split_ifs <;> exact ⟨_, _, rfl⟩

lemma fillet_switch_edge {F : Type} [LinearOrderedField F] [Libm F]
    (s : path_manager_example F) (output : output_s F) (p w_i q_im1 q_i : Vec3 F) (varrho : F) :
    fillet_edge s (fillet_switch s output p w_i q_im1 q_i varrho).1 := by
  unfold fillet_edge fillet_switch
  cases hs : s.fil_state_ <;> dsimp only <;> split_ifs <;> simp_all

/-- C2 (amended): for a waypoint list with `N ≥ 3`, `0 ≤ idx_a < N` and no temporary waypoint to
consume, every configuration and every pose, one tick of `manage_fillet` returns and either
leaves `fil_state_` unchanged or moves it along one of `STRAIGHT → TRANSITION`,
`TRANSITION → ORBIT`, `ORBIT → STRAIGHT`, or, only when `orbit_last` is set and
`idx_a = N - 2`, along `TRANSITION → STRAIGHT`. -/
theorem manage_fillet_state_edges {F : Type} [LinearOrderedField F] [Libm F]
    (s : path_manager_example F) (input : input_s F) (output : output_s F)
    (hN : 3 ≤ s.num_waypoints_) (hlen : s.num_waypoints_ = s.waypoints_.length)
    (h0 : 0 ≤ s.idx_a_) (h1 : s.idx_a_ < s.num_waypoints_)
    (htemp : ¬ (s.temp_waypoint_ = true ∧ s.idx_a_ = 1)) :
    ∃ s1 o1, manage_fillet s input output = some (s1, o1) ∧ fillet_edge s s1 := by
  unfold manage_fillet
  rw [if_neg (by omega)]
  dsimp only
  by_cases hlast : s.orbit_last = true ∧ s.idx_a_ = s.num_waypoints_ - 1
  · obtain ⟨wa, pl, od, -, hi⟩ := increment_indices_last s input output hlen h0 hlast.2 hlast.1 htemp
    rw [hi]
    simp only
    rw [if_pos hlast]
    exact ⟨_, _, rfl, Or.inl rfl⟩
  · obtain ⟨pl, hi⟩ := increment_indices_plain s input output hlen (by omega) h0 h1 htemp hlast
    rw [hi]
    simp only
    rw [if_neg hlast]
    have hb0 := Int.emod_nonneg (s.idx_a_ + 1) (by omega : s.num_waypoints_ ≠ 0)
    have hb1 := Int.emod_lt_of_pos (s.idx_a_ + 1) (by omega : 0 < s.num_waypoints_)
    have hc0 := Int.emod_nonneg (s.idx_a_ + 2) (by omega : s.num_waypoints_ ≠ 0)
    have hc1 := Int.emod_lt_of_pos (s.idx_a_ + 2) (by omega : 0 < s.num_waypoints_)
    obtain ⟨wa, hwa⟩ := wp_some s s.idx_a_ hlen h0 h1
    obtain ⟨wb, hwb⟩ := wp_some s _ hlen hb0 hb1
    obtain ⟨wc, hwc⟩ := wp_some s _ hlen hc0 hc1
    have hwa2 : path_manager_example.wp
      { s with update_marker_ := false, published_ := pl } s.idx_a_ = some wa := hwa
    have hwb2 : path_manager_example.wp
      { s with update_marker_ := false, published_ := pl }
      ((s.idx_a_ + 1) % s.num_waypoints_) = some wb := hwb
    have hwc2 : path_manager_example.wp
      { s with update_marker_ := false, published_ := pl }
      ((s.idx_a_ + 2) % s.num_waypoints_) = some wc := hwc
    simp only [hwa2, hwb2, hwc2]
    split_ifs with hac
    · obtain ⟨s2, o2, h2⟩ := manage_line_total
        { s with update_marker_ := false, published_ := pl } input
        { output with va_d := wa.va_d, r := wa.w } hlen (by simpa using (by omega : 2 ≤ s.num_waypoints_)) h0 h1 htemp
      have hf := manage_line_frame _ _ _ _ _ h2
      exact ⟨s2, o2, h2, Or.inl hf⟩
    · refine ⟨_, _, rfl, ?_⟩
      have := fillet_switch_edge { s with update_marker_ := false, published_ := pl }
        { output with va_d := wa.va_d, r := wa.w }
        ⟨input.pn, input.pe, -input.h⟩ wb.w (wb.w.sub wa.w).normalized
        (wc.w.sub wb.w).normalized (fillet_varrho wa.w wb.w wc.w)
      exact this

/-! ## The real model: evaluation lemmas -/

@[simp] lemma sqrtf_real (x : ℝ) : (Libm.sqrtf x : ℝ) = Real.sqrt x := rfl
@[simp] lemma sinf_real (x : ℝ) : (Libm.sinf x : ℝ) = Real.sin x := rfl
@[simp] lemma cosf_real (x : ℝ) : (Libm.cosf x : ℝ) = Real.cos x := rfl
@[simp] lemma tanf_real (x : ℝ) : (Libm.tanf x : ℝ) = Real.tan x := rfl
@[simp] lemma asinf_real (x : ℝ) : (Libm.asinf x : ℝ) = Real.arcsin x := rfl
@[simp] lemma acosf_real (x : ℝ) : (Libm.acosf x : ℝ) = Real.arccos x := rfl
@[simp] lemma atan2f_real (y x : ℝ) : (Libm.atan2f y x : ℝ) = Complex.arg ⟨x, y⟩ := rfl
@[simp] lemma floorf_real (x : ℝ) : (Libm.floorf x : ℝ) = ((⌊x⌋ : ℤ) : ℝ) := rfl
@[simp] lemma pi_real : (Libm.M_PI_F : ℝ) = Real.pi := rfl
@[simp] lemma pi_2_real : (Libm.M_PI_2_F : ℝ) = Real.pi / 2 := rfl
lemma fillet_max_r_square_corner :
    fillet_max_r (⟨100, 100, -50⟩ : Vec3 ℝ) ⟨0, 100, -50⟩ ⟨0, 0, -50⟩ = 100 * (Real.sqrt 2 / 2) := by
  simp [fillet_max_r, fillet_varrho, Vec3.sub, Vec3.norm, Vec3.normalized, Vec3.squaredNorm,
    Vec3.divs, Vec3.dot]
  rw [show Real.pi / 2 / 2 = Real.pi / 4 by ring, Real.sin_pi_div_four]

lemma sqrt_two_ge_one : (1 : ℝ) ≤ Real.sqrt 2 := by
  rw [show (1 : ℝ) = Real.sqrt 1 by simp]
  exact Real.sqrt_le_sqrt (by norm_num)

/-- C2, counterexample: with four waypoints, `orbit_last` set, `idx_a_ = N - 2` and a feasible
corner, one tick of `manage_fillet` takes `fil_state_` from `TRANSITION` directly to
`STRAIGHT`. -/
theorem manage_fillet_transition_to_straight_under_orbit_last :
    ∃ s1 o1, manage_fillet state_square_transition ⟨0, 100, 50, 0⟩ out_zero = some (s1, o1)
      ∧ state_square_transition.num_waypoints_ = 4 ∧ state_square_transition.orbit_last = true
      ∧ state_square_transition.fil_state_ = fillet_state.TRANSITION
      ∧ s1.fil_state_ = fillet_state.STRAIGHT := by
  obtain ⟨s1, hp, hm⟩ := manage_fillet_eq_switch state_square_transition ⟨0, 100, 50, 0⟩ out_zero
    (mkwp 100 100 (-50) 0 false) (mkwp 0 100 (-50) 0 false) (mkwp 0 0 (-50) 0 false)
    (by simp [state_square_transition]) (by simp [state_square_transition]) (by simp [state_square_transition]) (by simp [state_square_transition])
    (by simp [state_square_transition]) (by simp [state_square_transition, square_wps, path_manager_example.wp])
    (by simp [state_square_transition, square_wps, path_manager_example.wp])
    (by simp [state_square_transition, square_wps, path_manager_example.wp])
    (by
      have h := fillet_max_r_square_corner
      simp only [mkwp]
      rw [h]
      have := sqrt_two_ge_one
      simp [state_square_transition]
      linarith)
  rw [publish_if_marked_unmarked _ _ rfl] at hp
  simp only [Option.some.injEq] at hp
  subst hp
  refine ⟨_, _, hm, rfl, rfl, rfl, ?_⟩
  simp [fillet_switch, state_square_transition]

/-- C2, witness: the hypotheses of `manage_fillet_state_edges` hold for the state `state_square_transition`. -/
theorem manage_fillet_state_edges_witness :
    ∃ s1 o1, manage_fillet state_square_transition ⟨0, 100, 50, 0⟩ out_zero = some (s1, o1)
      ∧ fillet_edge state_square_transition s1 :=
  manage_fillet_state_edges state_square_transition ⟨0, 100, 50, 0⟩ out_zero (by simp [state_square_transition])
    (by simp [state_square_transition, square_wps]) (by simp [state_square_transition]) (by simp [state_square_transition])
    (by simp [state_square_transition])

/-! ## Index sequencer: bounds -/

/-- Without consumption of a temporary waypoint, or with at least four waypoints, the indices
`idx_b` and `idx_c` that `increment_indices` produces lie in `[0, N')`, `N'` the count after
the call. -/
lemma increment_indices_bounds {F : Type} [LinearOrderedField F] [Libm F]
    (s : path_manager_example F) (input : input_s F) (output : output_s F)
    (hlen : s.num_waypoints_ = s.waypoints_.length) (hN : 2 ≤ s.num_waypoints_)
    (h0 : 0 ≤ s.idx_a_) (h1 : s.idx_a_ < s.num_waypoints_)
    (htemp : s.temp_waypoint_ = true ∧ s.idx_a_ = 1 → 4 ≤ s.num_waypoints_) :
    ∃ s1 b c o1, increment_indices s input output = some (s1, b, c, o1)
      ∧ 0 ≤ b ∧ b < s1.num_waypoints_ ∧ 0 ≤ c ∧ c < s1.num_waypoints_ := by
  by_cases ht : s.temp_waypoint_ = true ∧ s.idx_a_ = 1
  · have h4 := htemp ht
    unfold increment_indices
    rw [if_pos ht]
    cases hl : s.waypoints_ with
    | nil => rw [hl] at hlen; simp at hlen; omega
    | cons a rest =>
      refine ⟨_, 1, 2, output, rfl, by norm_num, ?_, by norm_num, ?_⟩ <;> simp <;> omega
  · by_cases hlast : s.orbit_last = true ∧ s.idx_a_ = s.num_waypoints_ - 1
    · obtain ⟨wa, pl, od, -, hi⟩ :=
        increment_indices_last s input output hlen h0 hlast.2 hlast.1 ht
      refine ⟨_, 0, 1, _, hi, le_refl _, ?_, by norm_num, ?_⟩ <;> simp <;> omega
    · obtain ⟨pl, hi⟩ := increment_indices_plain s input output hlen hN h0 h1 ht hlast
      have hb := wrap_idx_range s.idx_a_ s.num_waypoints_ (by omega) 1
      have hc := wrap_idx_range s.idx_a_ s.num_waypoints_ (by omega) 2
      exact ⟨_, _, _, _, hi, hb.1, hb.2, hc.1, hc.2⟩

/-- C3, at the failing input: with two waypoints of which the first is temporary and
`idx_a_ = 1`, `increment_indices` erases the first waypoint and returns `idx_b = 1`, `idx_c = 2`
with one waypoint left, so neither index is below the new count, and the read
`waypoints_[idx_b]` of `manage_line` is outside the vector. -/
theorem increment_indices_temp_waypoint_out_of_range :
    ∃ s1 o1, increment_indices state_temp_pair ⟨0, 0, 50, 0⟩ out_zero = some (s1, 1, 2, o1)
      ∧ s1.num_waypoints_ = 1 ∧ s1.waypoints_.length = 1
      ∧ ¬ ((1 : Int) < s1.num_waypoints_) ∧ ¬ ((2 : Int) < s1.num_waypoints_)
      ∧ s1.wp 1 = none
      ∧ manage_line state_temp_pair ⟨0, 0, 50, 0⟩ out_zero = none := by
  have hi : increment_indices state_temp_pair ⟨0, 0, 50, 0⟩ out_zero =
      some ({ state_temp_pair with
                waypoints_ := [mkwp 100 0 (-50) 0 false], num_waypoints_ := 1,
                idx_a_ := 0, temp_waypoint_ := false, update_marker_ := true }, 1, 2, out_zero) := by
    simp [increment_indices, state_temp_pair]
  refine ⟨_, _, hi, by simp [state_temp_pair], by simp, by simp [state_temp_pair], by simp [state_temp_pair],
    by simp [path_manager_example.wp], ?_⟩
  unfold manage_line
  simp only [hi]
  simp [state_temp_pair, path_manager_example.wp]

/-! ## Line manager: primitive and transition -/

lemma vec3_ext {F : Type} (a b : Vec3 F) (hx : a.x = b.x) (hy : a.y = b.y) (hz : a.z = b.z) :
    a = b := by
  cases a; cases b; simp_all

lemma squaredNorm_nonneg (v : Vec3 ℝ) : 0 ≤ v.squaredNorm := by
  unfold Vec3.squaredNorm
  nlinarith [mul_self_nonneg v.x, mul_self_nonneg v.y, mul_self_nonneg v.z]

lemma squaredNorm_eq_zero (v : Vec3 ℝ) : v.squaredNorm = 0 ↔ v = ⟨0, 0, 0⟩ := by
  constructor
  · intro h
    unfold Vec3.squaredNorm at h
    have hx : v.x = 0 := by nlinarith [mul_self_nonneg v.x, mul_self_nonneg v.y, mul_self_nonneg v.z]
    have hy : v.y = 0 := by nlinarith [mul_self_nonneg v.x, mul_self_nonneg v.y, mul_self_nonneg v.z]
    have hz : v.z = 0 := by nlinarith [mul_self_nonneg v.x, mul_self_nonneg v.y, mul_self_nonneg v.z]
    exact vec3_ext _ _ hx hy hz
  · intro h
    rw [h]
    simp [Vec3.squaredNorm]

lemma normalized_zero : (⟨0, 0, 0⟩ : Vec3 ℝ).normalized = ⟨0, 0, 0⟩ := by
  simp [Vec3.normalized, Vec3.squaredNorm]

/-- Over the reals a normalised non-zero vector has squared norm one. -/
lemma normalized_squaredNorm (v : Vec3 ℝ) (hv : v ≠ ⟨0, 0, 0⟩) :
    v.normalized.squaredNorm = 1 := by
  have hpos : 0 < v.squaredNorm := by
    rcases (squaredNorm_nonneg v).lt_or_eq with h | h
    · exact h
    · exact absurd ((squaredNorm_eq_zero v).1 h.symm) hv
  have hs : Real.sqrt v.squaredNorm * Real.sqrt v.squaredNorm = v.squaredNorm :=
    Real.mul_self_sqrt hpos.le
  have hs0 : Real.sqrt v.squaredNorm ≠ 0 := (Real.sqrt_pos.2 hpos).ne'
  unfold Vec3.normalized
  rw [if_pos hpos]
  simp only [Vec3.divs, sqrtf_real]
  generalize Real.sqrt v.squaredNorm = r at hs hs0
  unfold Vec3.squaredNorm at hs ⊢
  simp only
  have e : v.x / r * (v.x / r) + v.y / r * (v.y / r) + v.z / r * (v.z / r)
      = (v.x * v.x + v.y * v.y + v.z * v.z) / (r * r) := by
    field_simp
  rw [e, hs]
  exact div_self (by rw [← hs]; exact mul_ne_zero hs0 hs0)

/-- When neither the temporary-waypoint rule nor the `orbit_last` guard applies, `manage_line`
writes the line primitive and advances on the half-plane test with the normal the code
computes. -/
lemma manage_line_eq {F : Type} [LinearOrderedField F] [Libm F]
    (s : path_manager_example F) (input : input_s F) (output : output_s F)
    (wa wb wc : waypoint_s F)
    (hN : 2 ≤ s.num_waypoints_)
    (h0 : 0 ≤ s.idx_a_) (h1 : s.idx_a_ < s.num_waypoints_)
    (htemp : ¬ (s.temp_waypoint_ = true ∧ s.idx_a_ = 1))
    (hguard : ¬ (s.orbit_last = true ∧
      (s.idx_a_ = s.num_waypoints_ - 1 ∨ s.idx_a_ = s.num_waypoints_ - 2)))
    (hwa : s.wp s.idx_a_ = some wa)
    (hwb : s.wp ((s.idx_a_ + 1) % s.num_waypoints_) = some wb)
    (hwc : s.wp ((s.idx_a_ + 2) % s.num_waypoints_) = some wc) :
    ∃ s1, publish_if_marked s ((s.idx_a_ + 1) % s.num_waypoints_) = some s1 ∧
      manage_line s input output =
        some (
          if (Vec3.sub ⟨input.pn, input.pe, -input.h⟩ wb.w).dot
              (if ((wb.w.sub wa.w).normalized.add (wc.w.sub wb.w).normalized).normalized.isZero
                then (wb.w.sub wa.w).normalized
                else ((wb.w.sub wa.w).normalized.add (wc.w.sub wb.w).normalized).normalized) > 0
          then { s1 with idx_a_ := advance_idx_a s1, update_marker_ := true } else s1,
          { output with flag := true, va_d := wa.va_d, r := wa.w,
                        q := (wb.w.sub wa.w).normalized }) := by
  have hlast : ¬ (s.orbit_last = true ∧ s.idx_a_ = s.num_waypoints_ - 1) :=
    fun h => hguard ⟨h.1, Or.inl h.2⟩
  have hi := increment_indices_publish s input output hN h0 h1 htemp hlast
  cases hp : publish_if_marked s ((s.idx_a_ + 1) % s.num_waypoints_) with
  | none =>
    unfold publish_if_marked publish_target_wp at hp
    by_cases hm : s.update_marker_ = true
    · simp [hm, hwb] at hp
    · simp [hm] at hp
  | some s1 =>
    refine ⟨s1, rfl, ?_⟩
    rw [hp] at hi
    have e := publish_if_marked_eq _ _ _ hp
    have hwa2 : s1.wp s1.idx_a_ = some wa := by rw [e]; exact hwa
    have hwb2 : s1.wp ((s.idx_a_ + 1) % s.num_waypoints_) = some wb := by rw [e]; exact hwb
    have hwc2 : s1.wp ((s.idx_a_ + 2) % s.num_waypoints_) = some wc := by rw [e]; exact hwc
    have hg2 : ¬ (s.orbit_last = true ∧
        (s1.idx_a_ = s1.num_waypoints_ - 1 ∨ s1.idx_a_ = s1.num_waypoints_ - 2)) := by
      rw [e]; exact hguard
    unfold manage_line
    simp only [hi]
    rw [if_neg hg2]
    simp only [hwa2, hwb2, hwc2]
    split_ifs <;> rfl

lemma sqrt_10000 : Real.sqrt 10000 = 100 := by
  rw [show (10000 : ℝ) = 100 ^ 2 by norm_num]
  exact Real.sqrt_sq (by norm_num)

lemma normalized_100_0_0 : (⟨100, 0, 0⟩ : Vec3 ℝ).normalized = ⟨1, 0, 0⟩ := by
  simp [Vec3.normalized, Vec3.squaredNorm, Vec3.divs, sqrt_10000]

lemma normalized_0_100_0 : (⟨0, 100, 0⟩ : Vec3 ℝ).normalized = ⟨0, 1, 0⟩ := by
  simp [Vec3.normalized, Vec3.squaredNorm, Vec3.divs, sqrt_10000]

lemma fillet_varrho_right_angle :
    fillet_varrho (⟨0, 0, -50⟩ : Vec3 ℝ) ⟨100, 0, -50⟩ ⟨100, 100, -50⟩ = Real.pi / 2 := by
  have e1 : (Vec3.sub (⟨100, 0, -50⟩ : Vec3 ℝ) ⟨0, 0, -50⟩) = ⟨100, 0, 0⟩ := by
    simp [Vec3.sub]
  have e2 : (Vec3.sub (⟨100, 100, -50⟩ : Vec3 ℝ) ⟨100, 0, -50⟩) = ⟨0, 100, 0⟩ := by
    simp [Vec3.sub]
  unfold fillet_varrho
  rw [e1, e2, normalized_100_0_0, normalized_0_100_0]
  simp [Vec3.dot]

lemma fillet_max_r_right_angle :
    fillet_max_r (⟨0, 0, -50⟩ : Vec3 ℝ) ⟨100, 0, -50⟩ ⟨100, 100, -50⟩
      = 100 * (Real.sqrt 2 / 2) := by
  have e1 : (Vec3.sub (⟨100, 0, -50⟩ : Vec3 ℝ) ⟨0, 0, -50⟩) = ⟨100, 0, 0⟩ := by
    simp [Vec3.sub]
  have e2 : (Vec3.sub (⟨100, 100, -50⟩ : Vec3 ℝ) ⟨100, 0, -50⟩) = ⟨0, 100, 0⟩ := by
    simp [Vec3.sub]
  unfold fillet_max_r
  rw [fillet_varrho_right_angle, e1, e2]
  simp [Vec3.norm, Vec3.squaredNorm, sqrt_10000]
  rw [show Real.pi / 2 / 2 = Real.pi / 4 by ring, Real.sin_pi_div_four]


lemma normalized_1_m1_0 :
    (⟨1, -1, 0⟩ : Vec3 ℝ).normalized = ⟨1 / Real.sqrt 2, -1 / Real.sqrt 2, 0⟩ := by
  simp [Vec3.normalized, Vec3.squaredNorm, Vec3.divs]
  norm_num

/-- The orbit written in `TRANSITION` and `ORBIT` at the right-angle corner. -/
lemma fillet_orbit_output_right_angle (output : output_s ℝ) :
    fillet_orbit_output 25 output ⟨100, 0, -50⟩ ⟨1, 0, 0⟩ ⟨0, 1, 0⟩ (Real.pi / 2)
      = { output with flag := false, q := ⟨0, 1, 0⟩, c := ⟨75, 25, -50⟩, rho := 25, lamda := 1 } := by
  have e1 : (Vec3.sub (⟨1, 0, 0⟩ : Vec3 ℝ) ⟨0, 1, 0⟩) = ⟨1, -1, 0⟩ := by
    simp [Vec3.sub]
  have h2 : Real.sqrt 2 ≠ 0 := by
    have := sqrt_two_ge_one
    intro h
    rw [h] at this
    linarith
  unfold fillet_orbit_output
  rw [e1, normalized_1_m1_0]
  rw [show Real.pi / 2 / 2 = Real.pi / 4 by ring]
  simp only [sinf_real, Real.sin_pi_div_four, Vec3.scale, Vec3.sub]
  have c1 : 1 / Real.sqrt 2 * (25 / (Real.sqrt 2 / 2)) = 25 := by
    field_simp
  have c2 : -1 / Real.sqrt 2 * (25 / (Real.sqrt 2 / 2)) = -25 := by
    field_simp
  rw [c1, c2]
  norm_num

/-- C6: with waypoints `(0,0,-50)`, `(100,0,-50)`, `(100,100,-50)`, `use_chi = false`,
`R_min = 25`, `orbit_last = false`, `idx_a = 0` and `fil_state = STRAIGHT`, a tick of
`manage_fillet` at pose `(99, 0, 50)` emits `flag = LINE`, `r = (0,0,-50)`, `q = (1,0,0)` and
moves `fil_state` to `TRANSITION`, the entry point being `(75,0,-50)`; the following tick, at
any pose, emits `flag = ORBIT` with `c = (75,25,-50)`, `rho = 25`, `lamda = +1`. -/
theorem manage_fillet_right_angle_scenario :
    ∃ s1 o1, manage_fillet state_right_angle ⟨99, 0, 50, 0⟩ out_zero = some (s1, o1)
      ∧ o1.flag = true ∧ o1.r = ⟨0, 0, -50⟩ ∧ o1.q = ⟨1, 0, 0⟩
      ∧ s1.fil_state_ = fillet_state.TRANSITION
      ∧ Vec3.sub (⟨100, 0, -50⟩ : Vec3 ℝ) (Vec3.scale ⟨1, 0, 0⟩
          (state_right_angle.R_min / Libm.tanf
            (fillet_varrho (⟨0, 0, -50⟩ : Vec3 ℝ) ⟨100, 0, -50⟩ ⟨100, 100, -50⟩ / 2)))
          = ⟨75, 0, -50⟩
      ∧ ∀ (input2 : input_s ℝ) (output2 : output_s ℝ),
          ∃ s2 o2, manage_fillet s1 input2 output2 = some (s2, o2)
            ∧ o2.flag = false ∧ o2.c = ⟨75, 25, -50⟩ ∧ o2.rho = 25 ∧ o2.lamda = 1 := by
  have hw0 : ∀ t : path_manager_example ℝ, t.waypoints_ = state_right_angle.waypoints_ →
      t.wp 0 = some (mkwp 0 0 (-50) 0 false) := by
    intro t ht
    simp [path_manager_example.wp, ht, state_right_angle]
  have hw1 : ∀ t : path_manager_example ℝ, t.waypoints_ = state_right_angle.waypoints_ →
      t.wp 1 = some (mkwp 100 0 (-50) 0 false) := by
    intro t ht
    simp [path_manager_example.wp, ht, state_right_angle]
  have hw2 : ∀ t : path_manager_example ℝ, t.waypoints_ = state_right_angle.waypoints_ →
      t.wp 2 = some (mkwp 100 100 (-50) 0 false) := by
    intro t ht
    simp [path_manager_example.wp, ht, state_right_angle]
  have hmax : ¬ ((25 : ℝ) > fillet_max_r (mkwp 0 0 (-50) 0 false).w
      (mkwp 100 0 (-50) 0 false).w (mkwp 100 100 (-50) 0 false).w) := by
    simp only [mkwp]
    rw [fillet_max_r_right_angle]
    have := sqrt_two_ge_one
    linarith
  have e1 : (Vec3.sub (⟨100, 0, -50⟩ : Vec3 ℝ) ⟨0, 0, -50⟩) = ⟨100, 0, 0⟩ := by
    simp [Vec3.sub]
  have e2 : (Vec3.sub (⟨100, 100, -50⟩ : Vec3 ℝ) ⟨100, 0, -50⟩) = ⟨0, 100, 0⟩ := by
    simp [Vec3.sub]
  have htan : Real.tan (Real.pi / 2 / 2) = 1 := by
    rw [show Real.pi / 2 / 2 = Real.pi / 4 by ring, Real.tan_pi_div_four]
  -- first tick
  obtain ⟨t1, hp1, hm1⟩ := manage_fillet_eq_switch state_right_angle ⟨99, 0, 50, 0⟩ out_zero
    (mkwp 0 0 (-50) 0 false) (mkwp 100 0 (-50) 0 false) (mkwp 100 100 (-50) 0 false)
    (by simp [state_right_angle]) (by simp [state_right_angle]) (by simp [state_right_angle]) (by simp [state_right_angle])
    (by simp [state_right_angle]) (hw0 _ rfl) (hw1 _ rfl) (hw2 _ rfl) hmax
  have et1 := publish_if_marked_eq _ _ _ hp1
  simp only [mkwp] at hm1
  rw [fillet_varrho_right_angle, e1, e2, normalized_100_0_0, normalized_0_100_0] at hm1
  have hsw : fillet_switch t1
      { out_zero with va_d := 15, r := ⟨0, 0, -50⟩ } ⟨99, 0, -50⟩ ⟨100, 0, -50⟩
      ⟨1, 0, 0⟩ ⟨0, 1, 0⟩ (Real.pi / 2)
      = ({ t1 with fil_state_ := fillet_state.TRANSITION },
          { out_zero with va_d := 15, r := ⟨0, 0, -50⟩, flag := true, q := ⟨1, 0, 0⟩,
                          c := ⟨1, 1, 1⟩, rho := 1, lamda := 1 }) := by
    have hst : t1.fil_state_ = fillet_state.STRAIGHT := by rw [et1]; rfl
    have hR : t1.R_min = 25 := by rw [et1]; rfl
    unfold fillet_switch
    simp only [hst, hR, tanf_real, htan]
    simp [Vec3.sub, Vec3.scale, Vec3.dot, Vec3.eqv]
    norm_num
  rw [hsw] at hm1
  refine ⟨_, _, hm1, rfl, rfl, rfl, rfl, ?_, ?_⟩
  · rw [fillet_varrho_right_angle]
    simp only [tanf_real, htan]
    simp [Vec3.sub, Vec3.scale, state_right_angle]
    norm_num
  · intro input2 output2
    have hwp : ({ t1 with fil_state_ := fillet_state.TRANSITION } :
        path_manager_example ℝ).waypoints_ = state_right_angle.waypoints_ := by
      rw [et1]
    obtain ⟨t2, hp2, hm2⟩ := manage_fillet_eq_switch
      { t1 with fil_state_ := fillet_state.TRANSITION } input2 output2
      (mkwp 0 0 (-50) 0 false) (mkwp 100 0 (-50) 0 false) (mkwp 100 100 (-50) 0 false)
      (by rw [et1]; simp [state_right_angle]) (by rw [et1]; simp [state_right_angle])
      (by rw [et1]; simp [state_right_angle]) (by rw [et1]; simp [state_right_angle])
      (by rw [et1]; simp [state_right_angle])
      (by
        have : ({ t1 with fil_state_ := fillet_state.TRANSITION } :
          path_manager_example ℝ).idx_a_ = 0 := by rw [et1]; rfl
        rw [this]
        exact hw0 _ hwp)
      (by
        have : (({ t1 with fil_state_ := fillet_state.TRANSITION } :
          path_manager_example ℝ).idx_a_ + 1) %
          ({ t1 with fil_state_ := fillet_state.TRANSITION } :
          path_manager_example ℝ).num_waypoints_ = 1 := by rw [et1]; rfl
        rw [this]
        exact hw1 _ hwp)
      (by
        have : (({ t1 with fil_state_ := fillet_state.TRANSITION } :
          path_manager_example ℝ).idx_a_ + 2) %
          ({ t1 with fil_state_ := fillet_state.TRANSITION } :
          path_manager_example ℝ).num_waypoints_ = 2 := by rw [et1]; rfl
        rw [this]
        exact hw2 _ hwp)
      (by
        have : ({ t1 with fil_state_ := fillet_state.TRANSITION } :
          path_manager_example ℝ).R_min = 25 := by rw [et1]; rfl
        rw [this]
        exact hmax)
    have et2 := publish_if_marked_eq _ _ _ hp2
    simp only [mkwp] at hm2
    rw [fillet_varrho_right_angle, e1, e2, normalized_100_0_0, normalized_0_100_0] at hm2
    have hst : t2.fil_state_ = fillet_state.TRANSITION := by rw [et2]
    have hR : t2.R_min = 25 := by rw [et2, et1]; rfl
    generalize hr : fillet_switch t2 { output2 with va_d := 15, r := ⟨0, 0, -50⟩ }
        ⟨input2.pn, input2.pe, -input2.h⟩ ⟨100, 0, -50⟩ ⟨1, 0, 0⟩ ⟨0, 1, 0⟩ (Real.pi / 2) = r at hm2
    have hout : r.2 = fillet_orbit_output 25 { output2 with va_d := 15, r := ⟨0, 0, -50⟩ }
            ⟨100, 0, -50⟩ ⟨1, 0, 0⟩ ⟨0, 1, 0⟩ (Real.pi / 2) := by
      rw [← hr]
      unfold fillet_switch
      simp only [hst, hR]
      split_ifs <;> rfl
    rw [fillet_orbit_output_right_angle] at hout
    refine ⟨r.1, r.2, hm2, ?_, ?_, ?_, ?_⟩ <;> rw [hout]

/-! ## Dubins solver: selection -/

/-- The selected length is the least of the four candidate lengths. -/
lemma dubins_select_min {F : Type} [LinearOrderedField F] (L1 L2 L3 L4 : F) :
    (dubins_select L1 L2 L3 L4).2 = min (min (min L1 L2) L3) L4 := by
  unfold dubins_select
  dsimp only
  split_ifs with h2 h3 h4 h4 h3 h4 h4
  · rw [min_eq_right h2.le, min_eq_right h3.le, min_eq_right h4.le]
  · rw [min_eq_right h2.le, min_eq_right h3.le, min_eq_left (not_lt.1 h4)]
  · rw [min_eq_right h2.le, min_eq_left (not_lt.1 h3), min_eq_right h4.le]
  · rw [min_eq_right h2.le, min_eq_left (not_lt.1 h3), min_eq_left (not_lt.1 h4)]
  · rw [min_eq_left (not_lt.1 h2), min_eq_right h3.le, min_eq_right h4.le]
  · rw [min_eq_left (not_lt.1 h2), min_eq_right h3.le, min_eq_left (not_lt.1 h4)]
  · rw [min_eq_left (not_lt.1 h2), min_eq_left (not_lt.1 h3), min_eq_right h4.le]
  · rw [min_eq_left (not_lt.1 h2), min_eq_left (not_lt.1 h3), min_eq_left (not_lt.1 h4)]

/-- A later candidate is selected only when strictly shorter than all earlier ones. -/
lemma dubins_select_first {F : Type} [LinearOrderedField F] (L1 L2 L3 L4 : F) :
    ((dubins_select L1 L2 L3 L4).1 = 1 ∧ (dubins_select L1 L2 L3 L4).2 = L1)
      ∨ ((dubins_select L1 L2 L3 L4).1 = 2 ∧ (dubins_select L1 L2 L3 L4).2 = L2 ∧ L2 < L1)
      ∨ ((dubins_select L1 L2 L3 L4).1 = 3 ∧ (dubins_select L1 L2 L3 L4).2 = L3
          ∧ L3 < L1 ∧ L3 < L2)
      ∨ ((dubins_select L1 L2 L3 L4).1 = 4 ∧ (dubins_select L1 L2 L3 L4).2 = L4
          ∧ L4 < L1 ∧ L4 < L2 ∧ L4 < L3) := by
  unfold dubins_select
  dsimp only
  split_ifs with h2 h3 h4 h4 h3 h4 h4
  · exact Or.inr (Or.inr (Or.inr ⟨rfl, rfl, by linarith, by linarith, h4⟩))
  · exact Or.inr (Or.inr (Or.inl ⟨rfl, rfl, by linarith, h3⟩))
  · exact Or.inr (Or.inr (Or.inr ⟨rfl, rfl, by linarith, h4, by linarith⟩))
  · exact Or.inr (Or.inl ⟨rfl, rfl, h2⟩)
  · exact Or.inr (Or.inr (Or.inr ⟨rfl, rfl, by linarith, by linarith, h4⟩))
  · exact Or.inr (Or.inr (Or.inl ⟨rfl, rfl, h3, by linarith⟩))
  · exact Or.inr (Or.inr (Or.inr ⟨rfl, rfl, h4, by linarith, by linarith⟩))
  · exact Or.inl ⟨rfl, rfl⟩

/-- C10: for an input accepted by the solver, the stored `L` is the minimum of the four
candidate lengths (so `L ≤` each of them), the selected case is the first in the order RSR,
RSL, LSR, LSL that attains it (a later one is selected only when strictly shorter than every
earlier one), and the stored `cs`, `ce`, `lams`, `lame` are those of the selected case. -/
theorem dubinsParameters_selects_minimum {F : Type} [LinearOrderedField F] [Libm F]
    (d : dubinspath_s F) (sn en : waypoint_s F) (R : F)
    (hacc : ¬ (dubins_ell sn en < 2 * R)) :
    (dubinsParameters d sn en R).L
        = min (min (min (dubins_cand1 sn en R) (dubins_cand2 sn en R)) (dubins_cand3 sn en R))
            (dubins_cand4 sn en R)
      ∧ (dubinsParameters d sn en R).L ≤ dubins_cand1 sn en R
      ∧ (dubinsParameters d sn en R).L ≤ dubins_cand2 sn en R
      ∧ (dubinsParameters d sn en R).L ≤ dubins_cand3 sn en R
      ∧ (dubinsParameters d sn en R).L ≤ dubins_cand4 sn en R
      ∧ ((dubins_idx sn en R = 1
            ∧ (dubinsParameters d sn en R).L = dubins_cand1 sn en R
            ∧ (dubinsParameters d sn en R).cs = circle_right sn.w sn.chi_d R
            ∧ (dubinsParameters d sn en R).ce = circle_right en.w en.chi_d R
            ∧ (dubinsParameters d sn en R).lams = 1 ∧ (dubinsParameters d sn en R).lame = 1)
        ∨ (dubins_idx sn en R = 2
            ∧ (dubinsParameters d sn en R).L = dubins_cand2 sn en R
            ∧ dubins_cand2 sn en R < dubins_cand1 sn en R
            ∧ (dubinsParameters d sn en R).cs = circle_right sn.w sn.chi_d R
            ∧ (dubinsParameters d sn en R).ce = circle_left en.w en.chi_d R
            ∧ (dubinsParameters d sn en R).lams = 1 ∧ (dubinsParameters d sn en R).lame = -1)
        ∨ (dubins_idx sn en R = 3
            ∧ (dubinsParameters d sn en R).L = dubins_cand3 sn en R
            ∧ dubins_cand3 sn en R < dubins_cand1 sn en R
            ∧ dubins_cand3 sn en R < dubins_cand2 sn en R
            ∧ (dubinsParameters d sn en R).cs = circle_left sn.w sn.chi_d R
            ∧ (dubinsParameters d sn en R).ce = circle_right en.w en.chi_d R
            ∧ (dubinsParameters d sn en R).lams = -1 ∧ (dubinsParameters d sn en R).lame = 1)
        ∨ (dubins_idx sn en R = 4
            ∧ (dubinsParameters d sn en R).L = dubins_cand4 sn en R
            ∧ dubins_cand4 sn en R < dubins_cand1 sn en R
            ∧ dubins_cand4 sn en R < dubins_cand2 sn en R
            ∧ dubins_cand4 sn en R < dubins_cand3 sn en R
            ∧ (dubinsParameters d sn en R).cs = circle_left sn.w sn.chi_d R
            ∧ (dubinsParameters d sn en R).ce = circle_left en.w en.chi_d R
            ∧ (dubinsParameters d sn en R).lams = -1
            ∧ (dubinsParameters d sn en R).lame = -1)) := by
  have hmin := dubins_select_min (dubins_cand1 sn en R) (dubins_cand2 sn en R)
    (dubins_cand3 sn en R) (dubins_cand4 sn en R)
  have hfirst := dubins_select_first (dubins_cand1 sn en R) (dubins_cand2 sn en R)
    (dubins_cand3 sn en R) (dubins_cand4 sn en R)
  have hL : (dubinsParameters d sn en R).L
      = (dubins_select (dubins_cand1 sn en R) (dubins_cand2 sn en R)
          (dubins_cand3 sn en R) (dubins_cand4 sn en R)).2 := by
    unfold dubinsParameters
    rw [if_neg hacc]
    dsimp only
    split <;> rfl
  have hidx : dubins_idx sn en R
      = (dubins_select (dubins_cand1 sn en R) (dubins_cand2 sn en R)
          (dubins_cand3 sn en R) (dubins_cand4 sn en R)).1 := rfl
  have hle := hmin
  refine ⟨hL.trans hmin, ?_, ?_, ?_, ?_, ?_⟩
  · rw [hL, hmin]
    exact le_trans (min_le_left _ _) (le_trans (min_le_left _ _) (min_le_left _ _))
  · rw [hL, hmin]
    exact le_trans (min_le_left _ _) (le_trans (min_le_left _ _) (min_le_right _ _))
  · rw [hL, hmin]
    exact le_trans (min_le_left _ _) (min_le_right _ _)
  · rw [hL, hmin]
    exact min_le_right _ _
  · rw [hidx, hL]
    rcases hfirst with ⟨h1, h2⟩ | ⟨h1, h2, h3⟩ | ⟨h1, h2, h3, h4⟩ | ⟨h1, h2, h3, h4, h5⟩
    · refine Or.inl ⟨h1, h2, ?_⟩
      unfold dubinsParameters
      rw [if_neg hacc]
      dsimp only
      unfold dubins_cand1 dubins_cand2 dubins_cand3 dubins_cand4 at h1
      rw [h1]
      exact ⟨rfl, rfl, rfl, rfl⟩
    · refine Or.inr (Or.inl ⟨h1, h2, h3, ?_⟩)
      unfold dubinsParameters
      rw [if_neg hacc]
      dsimp only
      unfold dubins_cand1 dubins_cand2 dubins_cand3 dubins_cand4 at h1
      rw [h1]
      exact ⟨rfl, rfl, rfl, rfl⟩
    · refine Or.inr (Or.inr (Or.inl ⟨h1, h2, h3, h4, ?_⟩))
      unfold dubinsParameters
      rw [if_neg hacc]
      dsimp only
      unfold dubins_cand1 dubins_cand2 dubins_cand3 dubins_cand4 at h1
      rw [h1]
      exact ⟨rfl, rfl, rfl, rfl⟩
    · refine Or.inr (Or.inr (Or.inr ⟨h1, h2, h3, h4, h5, ?_⟩))
      unfold dubinsParameters
      rw [if_neg hacc]
      dsimp only
      unfold dubins_cand1 dubins_cand2 dubins_cand3 dubins_cand4 at h1
      rw [h1]
      exact ⟨rfl, rfl, rfl, rfl⟩

lemma sqrt_160000 : Real.sqrt 160000 = 400 := by
  rw [show (160000 : ℝ) = 400 ^ 2 by norm_num]
  exact Real.sqrt_sq (by norm_num)

lemma dubins_ell_far : dubins_ell wp_far_s wp_far_e = 400 := by
  simp [dubins_ell, wp_far_s, wp_far_e, mkwp, sqrt_160000]

/-- C10, witness: the pair `wp_far_s`, `wp_far_e` with `R = 50` is accepted by the solver. -/
theorem dubinsParameters_selects_minimum_witness :
    ¬ (dubins_ell wp_far_s wp_far_e < 2 * 50) ∧
    ((dubinsParameters path_arrival wp_far_s wp_far_e 50).L
        = min (min (min (dubins_cand1 wp_far_s wp_far_e 50) (dubins_cand2 wp_far_s wp_far_e 50)) (dubins_cand3 wp_far_s wp_far_e 50))
            (dubins_cand4 wp_far_s wp_far_e 50)
      ∧ (dubinsParameters path_arrival wp_far_s wp_far_e 50).L ≤ dubins_cand1 wp_far_s wp_far_e 50
      ∧ (dubinsParameters path_arrival wp_far_s wp_far_e 50).L ≤ dubins_cand2 wp_far_s wp_far_e 50
      ∧ (dubinsParameters path_arrival wp_far_s wp_far_e 50).L ≤ dubins_cand3 wp_far_s wp_far_e 50
      ∧ (dubinsParameters path_arrival wp_far_s wp_far_e 50).L ≤ dubins_cand4 wp_far_s wp_far_e 50
      ∧ ((dubins_idx wp_far_s wp_far_e 50 = 1
            ∧ (dubinsParameters path_arrival wp_far_s wp_far_e 50).L = dubins_cand1 wp_far_s wp_far_e 50
            ∧ (dubinsParameters path_arrival wp_far_s wp_far_e 50).cs = circle_right wp_far_s.w wp_far_s.chi_d 50
            ∧ (dubinsParameters path_arrival wp_far_s wp_far_e 50).ce = circle_right wp_far_e.w wp_far_e.chi_d 50
            ∧ (dubinsParameters path_arrival wp_far_s wp_far_e 50).lams = 1 ∧ (dubinsParameters path_arrival wp_far_s wp_far_e 50).lame = 1)
        ∨ (dubins_idx wp_far_s wp_far_e 50 = 2
            ∧ (dubinsParameters path_arrival wp_far_s wp_far_e 50).L = dubins_cand2 wp_far_s wp_far_e 50
            ∧ dubins_cand2 wp_far_s wp_far_e 50 < dubins_cand1 wp_far_s wp_far_e 50
            ∧ (dubinsParameters path_arrival wp_far_s wp_far_e 50).cs = circle_right wp_far_s.w wp_far_s.chi_d 50
            ∧ (dubinsParameters path_arrival wp_far_s wp_far_e 50).ce = circle_left wp_far_e.w wp_far_e.chi_d 50
            ∧ (dubinsParameters path_arrival wp_far_s wp_far_e 50).lams = 1 ∧ (dubinsParameters path_arrival wp_far_s wp_far_e 50).lame = -1)
        ∨ (dubins_idx wp_far_s wp_far_e 50 = 3
            ∧ (dubinsParameters path_arrival wp_far_s wp_far_e 50).L = dubins_cand3 wp_far_s wp_far_e 50
            ∧ dubins_cand3 wp_far_s wp_far_e 50 < dubins_cand1 wp_far_s wp_far_e 50
            ∧ dubins_cand3 wp_far_s wp_far_e 50 < dubins_cand2 wp_far_s wp_far_e 50
            ∧ (dubinsParameters path_arrival wp_far_s wp_far_e 50).cs = circle_left wp_far_s.w wp_far_s.chi_d 50
            ∧ (dubinsParameters path_arrival wp_far_s wp_far_e 50).ce = circle_right wp_far_e.w wp_far_e.chi_d 50
            ∧ (dubinsParameters path_arrival wp_far_s wp_far_e 50).lams = -1 ∧ (dubinsParameters path_arrival wp_far_s wp_far_e 50).lame = 1)
        ∨ (dubins_idx wp_far_s wp_far_e 50 = 4
            ∧ (dubinsParameters path_arrival wp_far_s wp_far_e 50).L = dubins_cand4 wp_far_s wp_far_e 50
            ∧ dubins_cand4 wp_far_s wp_far_e 50 < dubins_cand1 wp_far_s wp_far_e 50
            ∧ dubins_cand4 wp_far_s wp_far_e 50 < dubins_cand2 wp_far_s wp_far_e 50
            ∧ dubins_cand4 wp_far_s wp_far_e 50 < dubins_cand3 wp_far_s wp_far_e 50
            ∧ (dubinsParameters path_arrival wp_far_s wp_far_e 50).cs = circle_left wp_far_s.w wp_far_s.chi_d 50
            ∧ (dubinsParameters path_arrival wp_far_s wp_far_e 50).ce = circle_left wp_far_e.w wp_far_e.chi_d 50
            ∧ (dubinsParameters path_arrival wp_far_s wp_far_e 50).lams = -1
            ∧ (dubinsParameters path_arrival wp_far_s wp_far_e 50).lame = -1))) :=
  ⟨by rw [dubins_ell_far]; norm_num,
   dubinsParameters_selects_minimum path_arrival wp_far_s wp_far_e 50
    (by rw [dubins_ell_far]; norm_num)⟩

/-- The fields stored by `dubinsParameters` for an accepted pair, by selected case. -/
lemma dubinsParameters_fields {F : Type} [LinearOrderedField F] [Libm F]
    (d : dubinspath_s F) (sn en : waypoint_s F) (R : F)
    (hacc : ¬ (dubins_ell sn en < 2 * R)) :
    (dubins_idx sn en R = 1
        ∧ dubinsParameters d sn en R =
          { ps := sn.w, chis := sn.chi_d, pe := en.w, chie := en.chi_d,
            cs := circle_right sn.w sn.chi_d R, lams := 1,
            ce := circle_right en.w en.chi_d R, lame := 1,
            L := (dubinsParameters d sn en R).L,
            q1 := ((circle_right en.w en.chi_d R).sub (circle_right sn.w sn.chi_d R)).normalized,
            w1 := (circle_right sn.w sn.chi_d R).add (((rotz (-Libm.M_PI_2_F)).mulVec
              ((circle_right en.w en.chi_d R).sub (circle_right sn.w sn.chi_d R)).normalized).scale R),
            w2 := (circle_right en.w en.chi_d R).add (((rotz (-Libm.M_PI_2_F)).mulVec
              ((circle_right en.w en.chi_d R).sub (circle_right sn.w sn.chi_d R)).normalized).scale R),
            w3 := en.w, q3 := (rotz en.chi_d).mulVec ⟨1, 0, 0⟩, R := R })
      ∨ (dubins_idx sn en R = 2
        ∧ dubinsParameters d sn en R =
          { ps := sn.w, chis := sn.chi_d, pe := en.w, chie := en.chi_d,
            cs := circle_right sn.w sn.chi_d R, lams := 1,
            ce := circle_left en.w en.chi_d R, lame := -1,
            L := (dubinsParameters d sn en R).L,
            q1 := (rotz (dubins_theta2_rsl (circle_right sn.w sn.chi_d R)
              (circle_left en.w en.chi_d R) R + Libm.M_PI_2_F)).mulVec ⟨1, 0, 0⟩,
            w1 := (circle_right sn.w sn.chi_d R).add (((rotz (dubins_theta2_rsl
              (circle_right sn.w sn.chi_d R) (circle_left en.w en.chi_d R) R)).mulVec
              ⟨1, 0, 0⟩).scale R),
            w2 := (circle_left en.w en.chi_d R).add (((rotz (dubins_theta2_rsl
              (circle_right sn.w sn.chi_d R) (circle_left en.w en.chi_d R) R
              + Libm.M_PI_F)).mulVec ⟨1, 0, 0⟩).scale R),
            w3 := en.w, q3 := (rotz en.chi_d).mulVec ⟨1, 0, 0⟩, R := R })
      ∨ (dubins_idx sn en R = 3
        ∧ dubinsParameters d sn en R =
          { ps := sn.w, chis := sn.chi_d, pe := en.w, chie := en.chi_d,
            cs := circle_left sn.w sn.chi_d R, lams := -1,
            ce := circle_right en.w en.chi_d R, lame := 1,
            L := (dubinsParameters d sn en R).L,
            q1 := (rotz (dubins_theta_lsr (circle_left sn.w sn.chi_d R)
              (circle_right en.w en.chi_d R) R - Libm.M_PI_2_F)).mulVec ⟨1, 0, 0⟩,
            w1 := (circle_left sn.w sn.chi_d R).add (((rotz (dubins_theta_lsr
              (circle_left sn.w sn.chi_d R) (circle_right en.w en.chi_d R) R)).mulVec
              ⟨1, 0, 0⟩).scale R),
            w2 := (circle_right en.w en.chi_d R).add (((rotz (dubins_theta_lsr
              (circle_left sn.w sn.chi_d R) (circle_right en.w en.chi_d R) R
              - Libm.M_PI_F)).mulVec ⟨1, 0, 0⟩).scale R),
            w3 := en.w, q3 := (rotz en.chi_d).mulVec ⟨1, 0, 0⟩, R := R })
      ∨ (dubins_idx sn en R = 4
        ∧ dubinsParameters d sn en R =
          { ps := sn.w, chis := sn.chi_d, pe := en.w, chie := en.chi_d,
            cs := circle_left sn.w sn.chi_d R, lams := -1,
            ce := circle_left en.w en.chi_d R, lame := -1,
            L := (dubinsParameters d sn en R).L,
            q1 := ((circle_left en.w en.chi_d R).sub (circle_left sn.w sn.chi_d R)).normalized,
            w1 := (circle_left sn.w sn.chi_d R).add (((rotz Libm.M_PI_2_F).mulVec
              ((circle_left en.w en.chi_d R).sub (circle_left sn.w sn.chi_d R)).normalized).scale R),
            w2 := (circle_left en.w en.chi_d R).add (((rotz Libm.M_PI_2_F).mulVec
              ((circle_left en.w en.chi_d R).sub (circle_left sn.w sn.chi_d R)).normalized).scale R),
            w3 := en.w, q3 := (rotz en.chi_d).mulVec ⟨1, 0, 0⟩, R := R }) := by
  have hfirst := dubins_select_first (dubins_cand1 sn en R) (dubins_cand2 sn en R)
    (dubins_cand3 sn en R) (dubins_cand4 sn en R)
  have hidx : dubins_idx sn en R
      = (dubins_select (dubins_cand1 sn en R) (dubins_cand2 sn en R)
          (dubins_cand3 sn en R) (dubins_cand4 sn en R)).1 := rfl
  rw [hidx]
  rcases hfirst with ⟨h1, -⟩ | ⟨h1, -⟩ | ⟨h1, -⟩ | ⟨h1, -⟩
  · refine Or.inl ⟨h1, ?_⟩
    unfold dubinsParameters
    rw [if_neg hacc]
    dsimp only
    unfold dubins_cand1 dubins_cand2 dubins_cand3 dubins_cand4 at h1
    rw [h1]
  · refine Or.inr (Or.inl ⟨h1, ?_⟩)
    unfold dubinsParameters
    rw [if_neg hacc]
    dsimp only
    unfold dubins_cand1 dubins_cand2 dubins_cand3 dubins_cand4 at h1
    rw [h1]
  · refine Or.inr (Or.inr (Or.inl ⟨h1, ?_⟩))
    unfold dubinsParameters
    rw [if_neg hacc]
    dsimp only
    unfold dubins_cand1 dubins_cand2 dubins_cand3 dubins_cand4 at h1
    rw [h1]
  · refine Or.inr (Or.inr (Or.inr ⟨h1, ?_⟩))
    unfold dubinsParameters
    rw [if_neg hacc]
    dsimp only
    unfold dubins_cand1 dubins_cand2 dubins_cand3 dubins_cand4 at h1
    rw [h1]

/-! ## Dubins solver: tangent-circle centres -/

lemma rotz_mulVec_e1 {F : Type} [LinearOrderedField F] [Libm F] (theta : F) :
    (rotz theta).mulVec ⟨1, 0, 0⟩ = ⟨Libm.cosf theta, Libm.sinf theta, 0⟩ := by
  simp [rotz, Mat3.mulVec, Vec3.dot]

/-- Over the reals the centre `crs` (`cre`) of the code is `p + R · rotz(chi + π/2) · ê₁`. -/
lemma circle_right_eq (p : Vec3 ℝ) (chi R : ℝ) :
    circle_right p chi R = tangent_center p chi R (Real.pi / 2) := by
  unfold circle_right tangent_center
  rw [rotz_mulVec_e1]
  simp [Vec3.add, Vec3.scale, Real.cos_add_pi_div_two, Real.sin_add_pi_div_two]
  constructor <;> ring

/-- Over the reals the centre `cls` (`cle`) of the code is `p + R · rotz(chi - π/2) · ê₁`. -/
lemma circle_left_eq (p : Vec3 ℝ) (chi R : ℝ) :
    circle_left p chi R = tangent_center p chi R (-(Real.pi / 2)) := by
  unfold circle_left tangent_center
  rw [rotz_mulVec_e1]
  simp [Vec3.add, Vec3.scale, ← sub_eq_add_neg, Real.cos_sub_pi_div_two,
    Real.sin_sub_pi_div_two]
  constructor <;> ring

/-- C8 (amended): for an input accepted by the solver, with the exact functions, the right
centres are `crs = ps + R·rotz(chi_s + π/2)·ê₁`, `cre = pe + R·rotz(chi_e + π/2)·ê₁` and the left
centres `cls = ps + R·rotz(chi_s - π/2)·ê₁`, `cle = pe + R·rotz(chi_e - π/2)·ê₁`; `lams` and
`lame` are `+1` or `-1`, the stored `cs` is `crs` when `lams = +1` and `cls` when `lams = -1`,
and the stored `ce` is `cre` when `lame = +1` and `cle` when `lame = -1`. -/
theorem dubinsParameters_centers (d : dubinspath_s ℝ) (sn en : waypoint_s ℝ) (R : ℝ)
    (hacc : ¬ (dubins_ell sn en < 2 * R)) :
    ((dubinsParameters d sn en R).lams = 1 ∨ (dubinsParameters d sn en R).lams = -1)
      ∧ ((dubinsParameters d sn en R).lame = 1 ∨ (dubinsParameters d sn en R).lame = -1)
      ∧ ((dubinsParameters d sn en R).lams = 1 →
          (dubinsParameters d sn en R).cs = tangent_center sn.w sn.chi_d R (Real.pi / 2))
      ∧ ((dubinsParameters d sn en R).lams = -1 →
          (dubinsParameters d sn en R).cs = tangent_center sn.w sn.chi_d R (-(Real.pi / 2)))
      ∧ ((dubinsParameters d sn en R).lame = 1 →
          (dubinsParameters d sn en R).ce = tangent_center en.w en.chi_d R (Real.pi / 2))
      ∧ ((dubinsParameters d sn en R).lame = -1 →
          (dubinsParameters d sn en R).ce = tangent_center en.w en.chi_d R (-(Real.pi / 2))) := by
  rcases dubinsParameters_fields d sn en R hacc with ⟨-, h⟩ | ⟨-, h⟩ | ⟨-, h⟩ | ⟨-, h⟩
  all_goals
    rw [h]
    simp [circle_right_eq, circle_left_eq]

/-- C8, witness: the pair `wp_far_s`, `wp_far_e` with `R = 50` is accepted by the solver. -/
theorem dubinsParameters_centers_witness :
    ¬ (dubins_ell wp_far_s wp_far_e < 2 * 50) ∧
    (((dubinsParameters path_arrival wp_far_s wp_far_e 50).lams = 1
        ∨ (dubinsParameters path_arrival wp_far_s wp_far_e 50).lams = -1)
      ∧ ((dubinsParameters path_arrival wp_far_s wp_far_e 50).lame = 1
        ∨ (dubinsParameters path_arrival wp_far_s wp_far_e 50).lame = -1)
      ∧ ((dubinsParameters path_arrival wp_far_s wp_far_e 50).lams = 1 →
          (dubinsParameters path_arrival wp_far_s wp_far_e 50).cs
            = tangent_center wp_far_s.w wp_far_s.chi_d 50 (Real.pi / 2))
      ∧ ((dubinsParameters path_arrival wp_far_s wp_far_e 50).lams = -1 →
          (dubinsParameters path_arrival wp_far_s wp_far_e 50).cs
            = tangent_center wp_far_s.w wp_far_s.chi_d 50 (-(Real.pi / 2)))
      ∧ ((dubinsParameters path_arrival wp_far_s wp_far_e 50).lame = 1 →
          (dubinsParameters path_arrival wp_far_s wp_far_e 50).ce
            = tangent_center wp_far_e.w wp_far_e.chi_d 50 (Real.pi / 2))
      ∧ ((dubinsParameters path_arrival wp_far_s wp_far_e 50).lame = -1 →
          (dubinsParameters path_arrival wp_far_s wp_far_e 50).ce
            = tangent_center wp_far_e.w wp_far_e.chi_d 50 (-(Real.pi / 2)))) :=
  ⟨by rw [dubins_ell_far]; norm_num,
   dubinsParameters_centers path_arrival wp_far_s wp_far_e 50 (by rw [dubins_ell_far]; norm_num)⟩

/-- C8, counterexample: for the accepted pair `wp_far_s`, `wp_far_e` (start `(0,0,-50)` with
course `0`) and `R = 50`, the stored `cs` is not given by the formulas of the claim,
`ps + R·rotz(chi_s - π/2)·ê₁` when `lams = +1` and `ps + R·rotz(chi_s + π/2)·ê₁` when
`lams = -1`: the code has the two signs the other way round. -/
theorem dubinsParameters_centers_not_as_claimed :
    ¬ (dubins_ell wp_far_s wp_far_e < 2 * 50)
      ∧ ¬ (((dubinsParameters path_arrival wp_far_s wp_far_e 50).lams = 1 →
              (dubinsParameters path_arrival wp_far_s wp_far_e 50).cs
                = tangent_center wp_far_s.w wp_far_s.chi_d 50 (-(Real.pi / 2)))
            ∧ ((dubinsParameters path_arrival wp_far_s wp_far_e 50).lams = -1 →
              (dubinsParameters path_arrival wp_far_s wp_far_e 50).cs
                = tangent_center wp_far_s.w wp_far_s.chi_d 50 (Real.pi / 2))) := by
  have hacc : ¬ (dubins_ell wp_far_s wp_far_e < 2 * 50) := by
    rw [dubins_ell_far]; norm_num
  have hr : tangent_center wp_far_s.w wp_far_s.chi_d 50 (Real.pi / 2) = ⟨0, 50, -50⟩ := by
    unfold tangent_center
    rw [rotz_mulVec_e1]
    simp [wp_far_s, mkwp, Vec3.add, Vec3.scale]
  have hl : tangent_center wp_far_s.w wp_far_s.chi_d 50 (-(Real.pi / 2)) = ⟨0, -50, -50⟩ := by
    unfold tangent_center
    rw [rotz_mulVec_e1]
    simp [wp_far_s, mkwp, Vec3.add, Vec3.scale]
  refine ⟨hacc, ?_⟩
  rintro ⟨c1, c2⟩
  rcases dubinsParameters_fields path_arrival wp_far_s wp_far_e 50 hacc
    with ⟨-, h⟩ | ⟨-, h⟩ | ⟨-, h⟩ | ⟨-, h⟩
  · rw [h] at c1
    have := c1 rfl
    simp only [circle_right_eq, hr, hl] at this
    have := congrArg Vec3.y this
    norm_num at this
  · rw [h] at c1
    have := c1 rfl
    simp only [circle_right_eq, hr, hl] at this
    have := congrArg Vec3.y this
    norm_num at this
  · rw [h] at c2
    have := c2 rfl
    simp only [circle_left_eq, hr, hl] at this
    have := congrArg Vec3.y this
    norm_num at this
  · rw [h] at c2
    have := c2 rfl
    simp only [circle_left_eq, hr, hl] at this
    have := congrArg Vec3.y this
    norm_num at this

/-! ## Dubins solver: output geometry -/

lemma norm_rotz_e1 (theta : ℝ) : ((rotz theta).mulVec (⟨1, 0, 0⟩ : Vec3 ℝ)).norm = 1 := by
  rw [rotz_mulVec_e1]
  simp only [Vec3.norm, Vec3.squaredNorm, sqrtf_real, cosf_real, sinf_real]
  have : Real.cos theta * Real.cos theta + Real.sin theta * Real.sin theta + 0 * 0 = 1 := by
    nlinarith [Real.sin_sq_add_cos_sq theta]
  rw [this, Real.sqrt_one]

lemma norm_normalized (v : Vec3 ℝ) (hv : v ≠ ⟨0, 0, 0⟩) : v.normalized.norm = 1 := by
  unfold Vec3.norm
  rw [normalized_squaredNorm v hv]
  simp

lemma dot_normalized_nonneg (v : Vec3 ℝ) : 0 ≤ v.dot v.normalized := by
  unfold Vec3.normalized
  split_ifs with h
  · simp only [Vec3.dot, Vec3.divs, sqrtf_real]
    have hr : 0 < Real.sqrt v.squaredNorm := Real.sqrt_pos.2 h
    have e : v.x * (v.x / Real.sqrt v.squaredNorm) + v.y * (v.y / Real.sqrt v.squaredNorm)
        + v.z * (v.z / Real.sqrt v.squaredNorm)
        = (v.x * v.x + v.y * v.y + v.z * v.z) / Real.sqrt v.squaredNorm := by
      field_simp
    rw [e]
    exact div_nonneg (squaredNorm_nonneg v) hr.le
  · exact squaredNorm_nonneg v

/-- The planar part of a vector in polar form, with the angle `atan2f`. -/
lemma polar_form (x y : ℝ) :
    Complex.abs ⟨x, y⟩ * Real.cos (Libm.atan2f y x) = x
      ∧ Complex.abs ⟨x, y⟩ * Real.sin (Libm.atan2f y x) = y := by
  simp only [atan2f_real]
  exact ⟨Complex.abs_mul_cos_arg ⟨x, y⟩, Complex.abs_mul_sin_arg ⟨x, y⟩⟩

/-- Right-straight-left: `(w2 - w1)·q1 ≥ 0`. -/
lemma rsl_dot_nonneg (crs cle : Vec3 ℝ) (R : ℝ) :
    0 ≤ (((cle.add (((rotz (dubins_theta2_rsl crs cle R + Libm.M_PI_F)).mulVec
          ⟨1, 0, 0⟩).scale R)).sub
        (crs.add (((rotz (dubins_theta2_rsl crs cle R)).mulVec ⟨1, 0, 0⟩).scale R))).dot
      ((rotz (dubins_theta2_rsl crs cle R + Libm.M_PI_2_F)).mulVec ⟨1, 0, 0⟩)) := by
  obtain ⟨hx, hy⟩ := polar_form (cle.x - crs.x) (cle.y - crs.y)
  have hrho : 0 ≤ Complex.abs ⟨cle.x - crs.x, cle.y - crs.y⟩ := by positivity
  have hcos := Real.cos_arcsin_nonneg (2 * R / (cle.sub crs).norm)
  have e : dubins_theta2_rsl crs cle R
      = (Libm.atan2f (cle.y - crs.y) (cle.x - crs.x)
          + Real.arcsin (2 * R / (cle.sub crs).norm)) - Real.pi / 2 := by
    simp only [dubins_theta2_rsl, pi_2_real, asinf_real]
    ring
  have hs := Real.sin_sq_add_cos_sq (Libm.atan2f (cle.y - crs.y) (cle.x - crs.x))
  simp only [rotz_mulVec_e1, pi_real, pi_2_real, cosf_real, sinf_real, Real.cos_add_pi,
    Real.sin_add_pi, Real.cos_add_pi_div_two, Real.sin_add_pi_div_two, Vec3.add, Vec3.sub,
    Vec3.scale, Vec3.dot]
  rw [e, Real.sin_sub_pi_div_two, Real.cos_sub_pi_div_two, Real.cos_add, Real.sin_add]
  generalize Libm.atan2f (cle.y - crs.y) (cle.x - crs.x) = th at hx hy hs ⊢
  generalize Complex.abs ⟨cle.x - crs.x, cle.y - crs.y⟩ = rho at hx hy hrho ⊢
  generalize Real.arcsin (2 * R / (cle.sub crs).norm) = al at hcos ⊢
  have main : rho * Real.cos al =
      (cle.x - crs.x) * (Real.cos th * Real.cos al - Real.sin th * Real.sin al)
      + (cle.y - crs.y) * (Real.sin th * Real.cos al + Real.cos th * Real.sin al) := by
    rw [← hx, ← hy]
    linear_combination (-(rho * Real.cos al)) * hs
  have hnn : 0 ≤ rho * Real.cos al := mul_nonneg hrho hcos
  rw [main] at hnn
  linarith

/-- Left-straight-right: `(w2 - w1)·q1 ≥ 0`. -/
lemma lsr_dot_nonneg (cls cre : Vec3 ℝ) (R : ℝ) :
    0 ≤ (((cre.add (((rotz (dubins_theta_lsr cls cre R - Libm.M_PI_F)).mulVec
          ⟨1, 0, 0⟩).scale R)).sub
        (cls.add (((rotz (dubins_theta_lsr cls cre R)).mulVec ⟨1, 0, 0⟩).scale R))).dot
      ((rotz (dubins_theta_lsr cls cre R - Libm.M_PI_2_F)).mulVec ⟨1, 0, 0⟩)) := by
  obtain ⟨hx, hy⟩ := polar_form (cre.x - cls.x) (cre.y - cls.y)
  have hrho : 0 ≤ Complex.abs ⟨cre.x - cls.x, cre.y - cls.y⟩ := by positivity
  have hsin : 0 ≤ Real.sin (Real.arccos (2 * R / (cre.sub cls).norm)) :=
    Real.sin_nonneg_of_nonneg_of_le_pi (Real.arccos_nonneg _) (Real.arccos_le_pi _)
  have e : dubins_theta_lsr cls cre R
      = Libm.atan2f (cre.y - cls.y) (cre.x - cls.x)
          + Real.arccos (2 * R / (cre.sub cls).norm) := by
    simp only [dubins_theta_lsr, acosf_real]
  have hs := Real.sin_sq_add_cos_sq (Libm.atan2f (cre.y - cls.y) (cre.x - cls.x))
  simp only [rotz_mulVec_e1, pi_real, pi_2_real, cosf_real, sinf_real, Real.cos_sub_pi,
    Real.sin_sub_pi, Real.cos_sub_pi_div_two, Real.sin_sub_pi_div_two, Vec3.add, Vec3.sub,
    Vec3.scale, Vec3.dot]
  rw [e, Real.cos_add, Real.sin_add]
  generalize Libm.atan2f (cre.y - cls.y) (cre.x - cls.x) = th at hx hy hs ⊢
  generalize Complex.abs ⟨cre.x - cls.x, cre.y - cls.y⟩ = rho at hx hy hrho ⊢
  generalize Real.arccos (2 * R / (cre.sub cls).norm) = al at hsin ⊢
  have main : rho * Real.sin al =
      (cre.x - cls.x) * (Real.sin th * Real.cos al + Real.cos th * Real.sin al)
      - (cre.y - cls.y) * (Real.cos th * Real.cos al - Real.sin th * Real.sin al) := by
    rw [← hx, ← hy]
    linear_combination (-(rho * Real.sin al)) * hs
  have hnn : 0 ≤ rho * Real.sin al := mul_nonneg hrho hsin
  rw [main] at hnn
  linarith

/-! ## Angle normalisation over the reals -/

/-- Over the reals `mo x` is `x` minus the multiple of `2π` given by the floor of the
quotient. -/
lemma mo_eq_floor (x : ℝ) : mo x = x - 2 * Real.pi * ((⌊x / (2 * Real.pi)⌋ : ℤ) : ℝ) := by
  have hpi := Real.pi_pos
  unfold mo
  split_ifs with h
  · have hq : 0 ≤ x / (2 * Libm.M_PI_F) := by
      simp only [pi_real]
      positivity
    show x - 2 * Libm.M_PI_F * (if 0 ≤ x / (2 * Libm.M_PI_F) then
      ((⌊x / (2 * Libm.M_PI_F)⌋ : ℤ) : ℝ) else ((⌈x / (2 * Libm.M_PI_F)⌉ : ℤ) : ℝ)) = _
    rw [if_pos hq]
    simp only [pi_real]
  · simp only [pi_real, floorf_real]
    rw [div_div]
    ring

/-- A value `y` in `[0, 2π)` shifted by a whole number of turns normalises to `y`. -/
lemma mo_eq_of (x y : ℝ) (k : ℤ) (h0 : 0 ≤ y) (h1 : y < 2 * Real.pi)
    (hx : x = y + 2 * Real.pi * k) : mo x = y := by
  have hpi := Real.pi_pos
  have hfl : ⌊x / (2 * Real.pi)⌋ = k := by
    rw [Int.floor_eq_iff]
    constructor
    · rw [le_div_iff₀ (by positivity)]
      rw [hx]
      nlinarith
    · rw [div_lt_iff₀ (by positivity)]
      rw [hx]
      nlinarith
  rw [mo_eq_floor, hfl, hx]
  ring

lemma mo_nonneg (x : ℝ) : 0 ≤ mo x := by
  have hpi := Real.pi_pos
  rw [mo_eq_floor]
  have h := Int.floor_le (x / (2 * Real.pi))
  rw [le_div_iff₀ (by positivity)] at h
  linarith

/-! ## Dubins solver: a degenerate pair -/

lemma sqrt_4 : Real.sqrt 4 = 2 := by
  rw [show (4 : ℝ) = 2 ^ 2 by norm_num]
  exact Real.sqrt_sq (by norm_num)

lemma dubins_ell_deg : dubins_ell wp_deg_s wp_deg_e = 2 := by
  simp [dubins_ell, wp_deg_s, wp_deg_e]

lemma crs_deg : circle_right wp_deg_s.w wp_deg_s.chi_d 1 = ⟨1, 0, 0⟩ := by
  simp [circle_right, wp_deg_s]

lemma cre_deg : circle_right wp_deg_e.w wp_deg_e.chi_d 1 = ⟨1, 0, 0⟩ := by
  simp [circle_right, wp_deg_e]
  norm_num

lemma cls_deg : circle_left wp_deg_s.w wp_deg_s.chi_d 1 = ⟨-1, 0, 0⟩ := by
  simp [circle_left, wp_deg_s]

lemma cle_deg : circle_left wp_deg_e.w wp_deg_e.chi_d 1 = ⟨3, 0, 0⟩ := by
  simp [circle_left, wp_deg_e]
  norm_num

lemma atan2f_pos_x (x : ℝ) (hx : 0 ≤ x) : (Libm.atan2f 0 x : ℝ) = 0 := by
  simp only [atan2f_real]
  have : (⟨x, 0⟩ : ℂ) = ((x : ℝ) : ℂ) := by
    apply Complex.ext <;> simp
  rw [this]
  exact Complex.arg_ofReal_of_nonneg hx

lemma mo_zero : mo (0 : ℝ) = 0 :=
  mo_eq_of 0 0 0 le_rfl (by positivity) (by simp)

lemma mo_neg_pi : mo (-Real.pi) = Real.pi :=
  mo_eq_of _ Real.pi (-1) Real.pi_pos.le (by linarith [Real.pi_pos]) (by push_cast; ring)

lemma mo_neg_pi_div_two : mo (-(Real.pi / 2)) = 3 * Real.pi / 2 :=
  mo_eq_of _ (3 * Real.pi / 2) (-1) (by positivity) (by linarith [Real.pi_pos])
    (by push_cast; ring)

lemma mo_pi : mo Real.pi = Real.pi :=
  mo_eq_of _ Real.pi 0 Real.pi_pos.le (by linarith [Real.pi_pos]) (by simp)

lemma mo_pi_div_two : mo (Real.pi / 2) = Real.pi / 2 :=
  mo_eq_of _ (Real.pi / 2) 0 (by positivity) (by linarith [Real.pi_pos]) (by simp)

lemma mo_five_pi_div_two : mo (5 * Real.pi / 2) = Real.pi / 2 :=
  mo_eq_of _ (Real.pi / 2) 1 (by positivity) (by linarith [Real.pi_pos]) (by push_cast; ring)

lemma L1_deg : dubins_cand1 wp_deg_s wp_deg_e 1 = Real.pi := by
  unfold dubins_cand1
  rw [crs_deg, cre_deg]
  unfold dubins_L1
  simp only [sub_self, atan2f_pos_x 0 le_rfl, pi_real, pi_2_real, zero_sub]
  have e1 : wp_deg_s.chi_d - Real.pi / 2 = -Real.pi := by
    simp only [wp_deg_s]; ring
  have e2 : wp_deg_e.chi_d - Real.pi / 2 = 0 := by
    simp only [wp_deg_e]; ring
  rw [e1, e2, mo_neg_pi_div_two, mo_neg_pi, mo_zero]
  have e3 : 2 * Real.pi + 3 * Real.pi / 2 - Real.pi = 5 * Real.pi / 2 := by ring
  have e4 : 2 * Real.pi + 0 - 3 * Real.pi / 2 = Real.pi / 2 := by ring
  rw [e3, e4, mo_five_pi_div_two, mo_pi_div_two]
  simp [Vec3.sub, Vec3.norm, Vec3.squaredNorm]

lemma L2_deg : Real.pi ≤ dubins_cand2 wp_deg_s wp_deg_e 1 := by
  unfold dubins_cand2
  rw [crs_deg, cle_deg]
  have hn : (Vec3.sub (⟨3, 0, 0⟩ : Vec3 ℝ) ⟨1, 0, 0⟩).norm = 2 := by
    simp [Vec3.sub, Vec3.norm, Vec3.squaredNorm]
    norm_num [sqrt_4]
  have ht : dubins_theta2_rsl (⟨1, 0, 0⟩ : Vec3 ℝ) ⟨3, 0, 0⟩ 1 = 0 := by
    unfold dubins_theta2_rsl
    rw [hn]
    simp only [sub_self, pi_2_real, asinf_real]
    rw [atan2f_pos_x _ (by norm_num)]
    norm_num
  unfold dubins_L2
  rw [hn, ht]
  simp only [pi_real, pi_2_real]
  rw [if_neg (by norm_num)]
  have e1 : wp_deg_s.chi_d - Real.pi / 2 = -Real.pi := by
    simp only [wp_deg_s]; ring
  rw [e1, mo_zero, mo_neg_pi]
  have e3 : 2 * Real.pi + 0 - Real.pi = Real.pi := by ring
  rw [e3, mo_pi]
  have key : ∀ a b : ℝ, 0 ≤ a → 0 ≤ b → Real.pi ≤ a + 1 * Real.pi + 1 * b := by
    intro a b ha hb
    linarith
  exact key _ _ (Real.sqrt_nonneg _) (mo_nonneg _)

lemma L3_deg : Real.pi ≤ dubins_cand3 wp_deg_s wp_deg_e 1 := by
  unfold dubins_cand3
  rw [cls_deg, cre_deg]
  have hn : (Vec3.sub (⟨1, 0, 0⟩ : Vec3 ℝ) ⟨-1, 0, 0⟩).norm = 2 := by
    simp [Vec3.sub, Vec3.norm, Vec3.squaredNorm]
    norm_num [sqrt_4]
  have ht : dubins_theta_lsr (⟨-1, 0, 0⟩ : Vec3 ℝ) ⟨1, 0, 0⟩ 1 = 0 := by
    unfold dubins_theta_lsr
    rw [hn]
    simp only [sub_self, acosf_real]
    rw [atan2f_pos_x _ (by norm_num)]
    norm_num
  unfold dubins_L3
  rw [hn, ht]
  simp only [pi_real, pi_2_real]
  rw [if_neg (by norm_num)]
  have e1 : wp_deg_e.chi_d - Real.pi / 2 = 0 := by
    simp only [wp_deg_e]; ring
  rw [e1, mo_zero, zero_sub, mo_neg_pi]
  have e3 : 2 * Real.pi + 0 - Real.pi = Real.pi := by ring
  rw [e3, mo_pi]
  have key : ∀ a b : ℝ, 0 ≤ a → 0 ≤ b → Real.pi ≤ a + 1 * b + 1 * Real.pi := by
    intro a b ha hb
    linarith
  exact key _ _ (Real.sqrt_nonneg _) (mo_nonneg _)

lemma L4_deg : Real.pi ≤ dubins_cand4 wp_deg_s wp_deg_e 1 := by
  unfold dubins_cand4
  rw [cls_deg, cle_deg]
  have hn : (Vec3.sub (⟨-1, 0, 0⟩ : Vec3 ℝ) ⟨3, 0, 0⟩).norm = 4 := by
    simp [Vec3.sub, Vec3.norm, Vec3.squaredNorm]
    norm_num
    rw [show (16 : ℝ) = 4 ^ 2 by norm_num]
    exact Real.sqrt_sq (by norm_num)
  unfold dubins_L4
  rw [hn]
  have h1 := mo_nonneg (2 * Libm.M_PI_F + mo (wp_deg_s.chi_d + Libm.M_PI_2_F)
    - mo (Libm.atan2f ((⟨3, 0, 0⟩ : Vec3 ℝ).y - (⟨-1, 0, 0⟩ : Vec3 ℝ).y)
        ((⟨3, 0, 0⟩ : Vec3 ℝ).x - (⟨-1, 0, 0⟩ : Vec3 ℝ).x) + Libm.M_PI_2_F))
  have h2 := mo_nonneg (2 * Libm.M_PI_F
    + mo (Libm.atan2f ((⟨3, 0, 0⟩ : Vec3 ℝ).y - (⟨-1, 0, 0⟩ : Vec3 ℝ).y)
        ((⟨3, 0, 0⟩ : Vec3 ℝ).x - (⟨-1, 0, 0⟩ : Vec3 ℝ).x) + Libm.M_PI_2_F)
    - mo (wp_deg_e.chi_d + Libm.M_PI_2_F))
  have := Real.pi_lt_four
  simp only [one_mul]
  linarith

lemma dubins_idx_deg : dubins_idx wp_deg_s wp_deg_e 1 = 1 := by
  have hidx : dubins_idx wp_deg_s wp_deg_e 1
      = (dubins_select (dubins_cand1 wp_deg_s wp_deg_e 1) (dubins_cand2 wp_deg_s wp_deg_e 1)
          (dubins_cand3 wp_deg_s wp_deg_e 1) (dubins_cand4 wp_deg_s wp_deg_e 1)).1 := rfl
  have h1 := L1_deg
  have h2 := L2_deg
  have h3 := L3_deg
  have h4 := L4_deg
  rw [hidx]
  rcases dubins_select_first (dubins_cand1 wp_deg_s wp_deg_e 1)
    (dubins_cand2 wp_deg_s wp_deg_e 1) (dubins_cand3 wp_deg_s wp_deg_e 1)
    (dubins_cand4 wp_deg_s wp_deg_e 1) with ⟨h, -⟩ | ⟨-, -, h⟩ | ⟨-, -, h, -⟩ | ⟨-, -, h, -⟩
  · exact h
  · linarith
  · linarith
  · linarith

/-! ## Dubins solver: the minimum-selection scenario -/

lemma sqrt_40000 : Real.sqrt 40000 = 200 := by
  rw [show (40000 : ℝ) = 200 ^ 2 by norm_num]
  exact Real.sqrt_sq (by norm_num)

lemma sqrt_30000 : Real.sqrt 30000 = 100 * Real.sqrt 3 := by
  rw [show (30000 : ℝ) = 100 ^ 2 * 3 by norm_num, Real.sqrt_mul (by norm_num),
    Real.sqrt_sq (by norm_num)]

lemma arcsin_half : Real.arcsin (1 / 2) = Real.pi / 6 := by
  rw [← Real.sin_pi_div_six]
  exact Real.arcsin_sin (by linarith [Real.pi_pos]) (by linarith [Real.pi_pos])

lemma arccos_half : Real.arccos (1 / 2) = Real.pi / 3 := by
  rw [← Real.cos_pi_div_three]
  exact Real.arccos_cos (by linarith [Real.pi_pos]) (by linarith [Real.pi_pos])

lemma dubins_ell_sel : dubins_ell wp_sel_s wp_sel_e = 200 := by
  simp [dubins_ell, wp_sel_s, wp_sel_e]

lemma crs_sel : circle_right wp_sel_s.w wp_sel_s.chi_d 50 = ⟨0, 50, -50⟩ := by
  simp [circle_right, wp_sel_s]

lemma cls_sel : circle_left wp_sel_s.w wp_sel_s.chi_d 50 = ⟨0, -50, -50⟩ := by
  simp [circle_left, wp_sel_s]

lemma cre_sel : circle_right wp_sel_e.w wp_sel_e.chi_d 50 = ⟨200, -50, -50⟩ := by
  simp [circle_right, wp_sel_e]

lemma cle_sel : circle_left wp_sel_e.w wp_sel_e.chi_d 50 = ⟨200, 50, -50⟩ := by
  simp [circle_left, wp_sel_e]

/-- The angle of a vector pointing forward and to the left lies in `(-π/2, 0)`. -/
lemma atan2f_fourth (x y : ℝ) (hx : 0 < x) (hy : y < 0) :
    -(Real.pi / 2) < (Libm.atan2f y x : ℝ) ∧ (Libm.atan2f y x : ℝ) < 0 := by
  simp only [atan2f_real]
  exact ⟨Complex.neg_pi_div_two_lt_arg_iff.2 (Or.inl hx), Complex.arg_neg_iff.2 hy⟩

/-- The angle of a vector pointing forward and to the right lies in `(0, π/2)`. -/
lemma atan2f_first (x y : ℝ) (hx : 0 < x) (hy : 0 < y) :
    0 < (Libm.atan2f y x : ℝ) ∧ (Libm.atan2f y x : ℝ) < Real.pi / 2 := by
  simp only [atan2f_real]
  refine ⟨?_, Complex.arg_lt_pi_div_two_iff.2 (Or.inl hx)⟩
  rcases (Complex.arg_nonneg_iff.2 (le_of_lt hy : (0 : ℝ) ≤ (⟨x, y⟩ : ℂ).im)).lt_or_eq with h | h
  · exact h
  · exfalso
    have h0 := Complex.arg_eq_zero_iff.1 h.symm
    have : (⟨x, y⟩ : ℂ).im = 0 := h0.2
    simp at this
    linarith

lemma L1_sel : 150 * Real.pi ≤ dubins_cand1 wp_sel_s wp_sel_e 50 := by
  have hpi := Real.pi_pos
  unfold dubins_cand1
  rw [crs_sel, cre_sel]
  unfold dubins_L1
  obtain ⟨ha, hb⟩ := atan2f_fourth ((⟨200, -50, -50⟩ : Vec3 ℝ).x - (⟨0, 50, -50⟩ : Vec3 ℝ).x)
    ((⟨200, -50, -50⟩ : Vec3 ℝ).y - (⟨0, 50, -50⟩ : Vec3 ℝ).y) (by norm_num) (by norm_num)
  simp only [pi_real, pi_2_real]
  generalize Libm.atan2f ((⟨200, -50, -50⟩ : Vec3 ℝ).y - (⟨0, 50, -50⟩ : Vec3 ℝ).y)
    ((⟨200, -50, -50⟩ : Vec3 ℝ).x - (⟨0, 50, -50⟩ : Vec3 ℝ).x) = th at ha hb ⊢
  have m1 : mo (th - Real.pi / 2) = th + 3 * Real.pi / 2 :=
    mo_eq_of _ _ (-1) (by linarith) (by linarith) (by push_cast; ring)
  have m2 : mo (wp_sel_s.chi_d - Real.pi / 2) = 3 * Real.pi / 2 :=
    mo_eq_of _ _ (-1) (by linarith) (by linarith) (by simp only [wp_sel_s]; push_cast; ring)
  have m3 : mo (wp_sel_e.chi_d - Real.pi / 2) = Real.pi / 2 :=
    mo_eq_of _ _ 0 (by linarith) (by linarith) (by simp only [wp_sel_e]; push_cast; ring)
  rw [m1, m2, m3]
  have m4 : mo (2 * Real.pi + (th + 3 * Real.pi / 2) - 3 * Real.pi / 2) = 2 * Real.pi + th :=
    mo_eq_of _ _ 0 (by linarith) (by linarith) (by push_cast; ring)
  have m5 : mo (2 * Real.pi + Real.pi / 2 - (th + 3 * Real.pi / 2)) = Real.pi - th :=
    mo_eq_of _ _ 0 (by linarith) (by linarith) (by push_cast; ring)
  rw [m4, m5]
  have key : ∀ a : ℝ, 0 ≤ a →
      150 * Real.pi ≤ a + 50 * (2 * Real.pi + th) + 50 * (Real.pi - th) := by
    intro a h
    linarith
  exact key _ (Real.sqrt_nonneg _)

lemma L4_sel : 150 * Real.pi ≤ dubins_cand4 wp_sel_s wp_sel_e 50 := by
  have hpi := Real.pi_pos
  unfold dubins_cand4
  rw [cls_sel, cle_sel]
  unfold dubins_L4
  obtain ⟨ha, hb⟩ := atan2f_first ((⟨200, 50, -50⟩ : Vec3 ℝ).x - (⟨0, -50, -50⟩ : Vec3 ℝ).x)
    ((⟨200, 50, -50⟩ : Vec3 ℝ).y - (⟨0, -50, -50⟩ : Vec3 ℝ).y) (by norm_num) (by norm_num)
  simp only [pi_real, pi_2_real]
  generalize Libm.atan2f ((⟨200, 50, -50⟩ : Vec3 ℝ).y - (⟨0, -50, -50⟩ : Vec3 ℝ).y)
    ((⟨200, 50, -50⟩ : Vec3 ℝ).x - (⟨0, -50, -50⟩ : Vec3 ℝ).x) = th at ha hb ⊢
  have m1 : mo (th + Real.pi / 2) = th + Real.pi / 2 :=
    mo_eq_of _ _ 0 (by linarith) (by linarith) (by push_cast; ring)
  have m2 : mo (wp_sel_s.chi_d + Real.pi / 2) = Real.pi / 2 :=
    mo_eq_of _ _ 0 (by linarith) (by linarith) (by simp only [wp_sel_s]; push_cast; ring)
  have m3 : mo (wp_sel_e.chi_d + Real.pi / 2) = 3 * Real.pi / 2 :=
    mo_eq_of _ _ 0 (by linarith) (by linarith) (by simp only [wp_sel_e]; push_cast; ring)
  rw [m1, m2, m3]
  have m4 : mo (2 * Real.pi + Real.pi / 2 - (th + Real.pi / 2)) = 2 * Real.pi - th :=
    mo_eq_of _ _ 0 (by linarith) (by linarith) (by push_cast; ring)
  have m5 : mo (2 * Real.pi + (th + Real.pi / 2) - 3 * Real.pi / 2) = Real.pi + th :=
    mo_eq_of _ _ 0 (by linarith) (by linarith) (by push_cast; ring)
  rw [m4, m5]
  have key : ∀ a : ℝ, 0 ≤ a →
      150 * Real.pi ≤ a + 50 * (2 * Real.pi - th) + 50 * (Real.pi + th) := by
    intro a h
    linarith
  exact key _ (Real.sqrt_nonneg _)

lemma norm_200 : (⟨200, 0, 0⟩ : Vec3 ℝ).norm = 200 := by
  simp [Vec3.norm, Vec3.squaredNorm, sqrt_40000]

lemma theta2_sel :
    dubins_theta2_rsl (⟨0, 50, -50⟩ : Vec3 ℝ) ⟨200, 50, -50⟩ 50 = -(Real.pi / 3) := by
  have e : Vec3.sub (⟨200, 50, -50⟩ : Vec3 ℝ) ⟨0, 50, -50⟩ = ⟨200, 0, 0⟩ := by
    simp [Vec3.sub]
  unfold dubins_theta2_rsl
  rw [e, norm_200]
  simp only [sub_self, pi_2_real, asinf_real]
  rw [atan2f_pos_x _ (by norm_num), show (2 : ℝ) * 50 / 200 = 1 / 2 by norm_num, arcsin_half]
  ring

lemma theta_lsr_sel :
    dubins_theta_lsr (⟨0, -50, -50⟩ : Vec3 ℝ) ⟨200, -50, -50⟩ 50 = Real.pi / 3 := by
  have e : Vec3.sub (⟨200, -50, -50⟩ : Vec3 ℝ) ⟨0, -50, -50⟩ = ⟨200, 0, 0⟩ := by
    simp [Vec3.sub]
  unfold dubins_theta_lsr
  rw [e, norm_200]
  simp only [sub_self, acosf_real]
  rw [atan2f_pos_x _ (by norm_num), show (2 : ℝ) * 50 / 200 = 1 / 2 by norm_num, arccos_half]
  ring

lemma L2_sel :
    dubins_cand2 wp_sel_s wp_sel_e 50 = 100 * Real.sqrt 3 + 200 * Real.pi / 3 := by
  have hpi := Real.pi_pos
  have e : Vec3.sub (⟨200, 50, -50⟩ : Vec3 ℝ) ⟨0, 50, -50⟩ = ⟨200, 0, 0⟩ := by
    simp [Vec3.sub]
  unfold dubins_cand2
  rw [crs_sel, cle_sel]
  unfold dubins_L2
  rw [theta2_sel, e, norm_200]
  simp only [pi_real, pi_2_real, sqrtf_real]
  rw [if_neg (by norm_num)]
  have m1 : mo (-(Real.pi / 3)) = 5 * Real.pi / 3 :=
    mo_eq_of _ _ (-1) (by linarith) (by linarith) (by push_cast; ring)
  have m2 : mo (wp_sel_s.chi_d - Real.pi / 2) = 3 * Real.pi / 2 :=
    mo_eq_of _ _ (-1) (by linarith) (by linarith) (by simp only [wp_sel_s]; push_cast; ring)
  have m3 : mo (-(Real.pi / 3) + Real.pi) = 2 * Real.pi / 3 :=
    mo_eq_of _ _ 0 (by linarith) (by linarith) (by push_cast; ring)
  have m4 : mo (wp_sel_e.chi_d + Real.pi / 2) = 3 * Real.pi / 2 :=
    mo_eq_of _ _ 0 (by linarith) (by linarith) (by simp only [wp_sel_e]; push_cast; ring)
  rw [m1, m2, m3, m4]
  have m5 : mo (2 * Real.pi + 5 * Real.pi / 3 - 3 * Real.pi / 2) = Real.pi / 6 :=
    mo_eq_of _ _ 1 (by linarith) (by linarith) (by push_cast; ring)
  have m6 : mo (2 * Real.pi + 2 * Real.pi / 3 - 3 * Real.pi / 2) = 7 * Real.pi / 6 :=
    mo_eq_of _ _ 0 (by linarith) (by linarith) (by push_cast; ring)
  rw [m5, m6, show (200 : ℝ) * 200 - 4 * 50 * 50 = 30000 by norm_num, sqrt_30000]
  ring

lemma L3_sel :
    dubins_cand3 wp_sel_s wp_sel_e 50 = 100 * Real.sqrt 3 + 200 * Real.pi / 3 := by
  have hpi := Real.pi_pos
  have e : Vec3.sub (⟨200, -50, -50⟩ : Vec3 ℝ) ⟨0, -50, -50⟩ = ⟨200, 0, 0⟩ := by
    simp [Vec3.sub]
  unfold dubins_cand3
  rw [cls_sel, cre_sel]
  unfold dubins_L3
  rw [theta_lsr_sel, e, norm_200]
  simp only [pi_real, pi_2_real, sqrtf_real]
  rw [if_neg (by norm_num)]
  have m1 : mo (Real.pi / 3) = Real.pi / 3 :=
    mo_eq_of _ _ 0 (by linarith) (by linarith) (by push_cast; ring)
  have m2 : mo (wp_sel_s.chi_d + Real.pi / 2) = Real.pi / 2 :=
    mo_eq_of _ _ 0 (by linarith) (by linarith) (by simp only [wp_sel_s]; push_cast; ring)
  have m3 : mo (Real.pi / 3 - Real.pi) = 4 * Real.pi / 3 :=
    mo_eq_of _ _ (-1) (by linarith) (by linarith) (by push_cast; ring)
  have m4 : mo (wp_sel_e.chi_d - Real.pi / 2) = Real.pi / 2 :=
    mo_eq_of _ _ 0 (by linarith) (by linarith) (by simp only [wp_sel_e]; push_cast; ring)
  rw [m1, m2, m3, m4]
  have m5 : mo (2 * Real.pi + Real.pi / 2 - Real.pi / 3) = Real.pi / 6 :=
    mo_eq_of _ _ 1 (by linarith) (by linarith) (by push_cast; ring)
  have m6 : mo (2 * Real.pi + Real.pi / 2 - 4 * Real.pi / 3) = 7 * Real.pi / 6 :=
    mo_eq_of _ _ 0 (by linarith) (by linarith) (by push_cast; ring)
  rw [m5, m6, show (200 : ℝ) * 200 - 4 * 50 * 50 = 30000 by norm_num, sqrt_30000]
  ring

lemma sqrt_three_lt_two : Real.sqrt 3 < 2 := by
  rw [show (2 : ℝ) = Real.sqrt 4 by rw [sqrt_4]]
  exact Real.sqrt_lt_sqrt (by norm_num) (by norm_num)

lemma L2_lt_150_pi : 100 * Real.sqrt 3 + 200 * Real.pi / 3 < 150 * Real.pi := by
  have h1 := sqrt_three_lt_two
  have h2 := Real.pi_gt_three
  linarith

lemma dubins_select_sel :
    dubins_select (dubins_cand1 wp_sel_s wp_sel_e 50) (dubins_cand2 wp_sel_s wp_sel_e 50)
      (dubins_cand3 wp_sel_s wp_sel_e 50) (dubins_cand4 wp_sel_s wp_sel_e 50)
      = (2, 100 * Real.sqrt 3 + 200 * Real.pi / 3) := by
  have h1 := L1_sel
  have h4 := L4_sel
  have hlt := L2_lt_150_pi
  rw [L2_sel, L3_sel]
  generalize dubins_cand1 wp_sel_s wp_sel_e 50 = a at h1 ⊢
  generalize dubins_cand4 wp_sel_s wp_sel_e 50 = b at h4 ⊢
  have c1 : 100 * Real.sqrt 3 + 200 * Real.pi / 3 < a := by linarith
  have c4 : ¬ (b < 100 * Real.sqrt 3 + 200 * Real.pi / 3) := by linarith
  simp only [dubins_select, c1, c4, if_true, if_false, lt_irrefl]

lemma dubins_idx_sel : dubins_idx wp_sel_s wp_sel_e 50 = 2 := by
  have hidx : dubins_idx wp_sel_s wp_sel_e 50
      = (dubins_select (dubins_cand1 wp_sel_s wp_sel_e 50) (dubins_cand2 wp_sel_s wp_sel_e 50)
          (dubins_cand3 wp_sel_s wp_sel_e 50) (dubins_cand4 wp_sel_s wp_sel_e 50)).1 := rfl
  rw [hidx, dubins_select_sel]

/-- The record stored by `dubinsParameters` in the minimum-selection scenario, with the
angle `theta2 = -π/3` not yet evaluated in `q1`, `w1`, `w2`. -/
lemma dubinsParameters_sel (d : dubinspath_s ℝ) :
    dubinsParameters d wp_sel_s wp_sel_e 50 =
      { ps := ⟨0, 0, -50⟩, chis := 0, pe := ⟨200, 0, -50⟩, chie := Real.pi,
        cs := ⟨0, 50, -50⟩, lams := 1, ce := ⟨200, 50, -50⟩, lame := -1,
        L := 100 * Real.sqrt 3 + 200 * Real.pi / 3,
        q1 := (rotz (-(Real.pi / 3) + Real.pi / 2)).mulVec ⟨1, 0, 0⟩,
        w1 := Vec3.add ⟨0, 50, -50⟩ (((rotz (-(Real.pi / 3))).mulVec ⟨1, 0, 0⟩).scale 50),
        w2 := Vec3.add ⟨200, 50, -50⟩
          (((rotz (-(Real.pi / 3) + Real.pi)).mulVec ⟨1, 0, 0⟩).scale 50),
        w3 := ⟨200, 0, -50⟩, q3 := (rotz Real.pi).mulVec ⟨1, 0, 0⟩, R := 50 } := by
  have hacc : ¬ (dubins_ell wp_sel_s wp_sel_e < 2 * 50) := by
    rw [dubins_ell_sel]; norm_num
  have hL : (dubinsParameters d wp_sel_s wp_sel_e 50).L
      = (dubins_select (dubins_cand1 wp_sel_s wp_sel_e 50) (dubins_cand2 wp_sel_s wp_sel_e 50)
          (dubins_cand3 wp_sel_s wp_sel_e 50) (dubins_cand4 wp_sel_s wp_sel_e 50)).2 := by
    unfold dubinsParameters
    rw [if_neg hacc]
    dsimp only
    split <;> rfl
  rw [dubins_select_sel] at hL
  rcases dubinsParameters_fields d wp_sel_s wp_sel_e 50 hacc
    with ⟨hi, -⟩ | ⟨-, h⟩ | ⟨hi, -⟩ | ⟨hi, -⟩
  · rw [dubins_idx_sel] at hi
    norm_num at hi
  · rw [h, hL, crs_sel, cle_sel, theta2_sel]
    simp only [pi_real, pi_2_real]
    rfl
  · rw [dubins_idx_sel] at hi
    norm_num at hi
  · rw [dubins_idx_sel] at hi
    norm_num at hi

/-- C9 (amended): for `ps = (0,0,-50)`, `chi_s = 0`, `pe = (200,0,-50)`, `chi_e = π`, `R = 50`,
with the exact functions, the candidates RSL and LSR tie at `100√3 + 200π/3`, below RSR and
LSL, and `dubinsParameters` selects index 2 (RSL), storing `cs = (0,50,-50)`,
`ce = (200,50,-50)`, `lams = +1`, `lame = -1`, `q1 = (√3/2, 1/2, 0)`,
`w1 = (25, 50 - 25√3, -50)`, `w2 = (175, 50 + 25√3, -50)`, `w3 = (200,0,-50)`,
`q3 = (-1,0,0)` and `L = 100√3 + 200π/3`. -/
theorem dubinsParameters_minimum_selection_scenario (d : dubinspath_s ℝ) :
    dubins_idx wp_sel_s wp_sel_e 50 = 2
      ∧ dubins_cand2 wp_sel_s wp_sel_e 50 = dubins_cand3 wp_sel_s wp_sel_e 50
      ∧ dubins_cand2 wp_sel_s wp_sel_e 50 < dubins_cand1 wp_sel_s wp_sel_e 50
      ∧ dubins_cand2 wp_sel_s wp_sel_e 50 < dubins_cand4 wp_sel_s wp_sel_e 50
      ∧ (dubinsParameters d wp_sel_s wp_sel_e 50).cs = ⟨0, 50, -50⟩
      ∧ (dubinsParameters d wp_sel_s wp_sel_e 50).ce = ⟨200, 50, -50⟩
      ∧ (dubinsParameters d wp_sel_s wp_sel_e 50).lams = 1
      ∧ (dubinsParameters d wp_sel_s wp_sel_e 50).lame = -1
      ∧ (dubinsParameters d wp_sel_s wp_sel_e 50).q1 = ⟨Real.sqrt 3 / 2, 1 / 2, 0⟩
      ∧ (dubinsParameters d wp_sel_s wp_sel_e 50).w1 = ⟨25, 50 - 25 * Real.sqrt 3, -50⟩
      ∧ (dubinsParameters d wp_sel_s wp_sel_e 50).w2 = ⟨175, 50 + 25 * Real.sqrt 3, -50⟩
      ∧ (dubinsParameters d wp_sel_s wp_sel_e 50).w3 = ⟨200, 0, -50⟩
      ∧ (dubinsParameters d wp_sel_s wp_sel_e 50).q3 = ⟨-1, 0, 0⟩
      ∧ (dubinsParameters d wp_sel_s wp_sel_e 50).L
          = 100 * Real.sqrt 3 + 200 * Real.pi / 3 := by
  have hlt := L2_lt_150_pi
  have c1 : Real.cos (-(Real.pi / 3) + Real.pi / 2) = Real.sqrt 3 / 2 := by
    rw [show -(Real.pi / 3) + Real.pi / 2 = Real.pi / 6 by ring, Real.cos_pi_div_six]
  have s1 : Real.sin (-(Real.pi / 3) + Real.pi / 2) = 1 / 2 := by
    rw [show -(Real.pi / 3) + Real.pi / 2 = Real.pi / 6 by ring, Real.sin_pi_div_six]
  have c2 : Real.cos (-(Real.pi / 3)) = 1 / 2 := by
    rw [Real.cos_neg, Real.cos_pi_div_three]
  have s2 : Real.sin (-(Real.pi / 3)) = -(Real.sqrt 3 / 2) := by
    rw [Real.sin_neg, Real.sin_pi_div_three]
  have c3 : Real.cos (-(Real.pi / 3) + Real.pi) = -(1 / 2) := by
    rw [Real.cos_add_pi, c2]
  have s3 : Real.sin (-(Real.pi / 3) + Real.pi) = Real.sqrt 3 / 2 := by
    rw [Real.sin_add_pi, s2, neg_neg]
  refine ⟨dubins_idx_sel, by rw [L2_sel, L3_sel], ?_, ?_, ?_⟩
  · have := L1_sel
    rw [L2_sel]
    linarith
  · have := L4_sel
    rw [L2_sel]
    linarith
  · rw [dubinsParameters_sel d]
    simp only [rotz_mulVec_e1, cosf_real, sinf_real, c1, s1, c2, s2, c3, s3, Real.cos_pi,
      Real.sin_pi, Vec3.add, Vec3.scale]
    simp only [true_and, and_true]
    constructor
    · exact vec3_ext _ _ (by norm_num) (by ring) (by norm_num)
    · exact vec3_ext _ _ (by norm_num) (by ring) (by norm_num)

/-- C9, counterexample: in the scenario of the claim the solver does not select index 1, and
the stored `cs`, `ce`, `lame`, `q1` and `L` are not `(0,-50,-50)`, `(200,-50,-50)`, `+1`,
`(1,0,0)` and `200`. -/
theorem dubinsParameters_scenario_not_rsr :
    dubins_idx wp_sel_s wp_sel_e 50 ≠ 1
      ∧ (dubinsParameters path_arrival wp_sel_s wp_sel_e 50).cs ≠ ⟨0, -50, -50⟩
      ∧ (dubinsParameters path_arrival wp_sel_s wp_sel_e 50).ce ≠ ⟨200, -50, -50⟩
      ∧ (dubinsParameters path_arrival wp_sel_s wp_sel_e 50).lame ≠ 1
      ∧ (dubinsParameters path_arrival wp_sel_s wp_sel_e 50).q1 ≠ ⟨1, 0, 0⟩
      ∧ (dubinsParameters path_arrival wp_sel_s wp_sel_e 50).L ≠ 200 := by
  rw [dubinsParameters_sel path_arrival, dubins_idx_sel]
  refine ⟨by norm_num, ?_, ?_, by norm_num, ?_, ?_⟩
  · intro h
    have := congrArg Vec3.y h
    norm_num at this
  · intro h
    have := congrArg Vec3.y h
    norm_num at this
  · intro h
    have h2 := congrArg Vec3.y h
    simp only [rotz_mulVec_e1, sinf_real] at h2
    rw [show -(Real.pi / 3) + Real.pi / 2 = Real.pi / 6 by ring, Real.sin_pi_div_six] at h2
    norm_num at h2
  · simp only
    have h1 : (0 : ℝ) ≤ Real.sqrt 3 := Real.sqrt_nonneg 3
    have h2 := Real.pi_gt_three
    intro h
    linarith

/-! ## Witnesses on concrete inputs -/

lemma cre_far : circle_right wp_far_e.w wp_far_e.chi_d 50 = ⟨400, 50, -50⟩ := by
  simp [circle_right, wp_far_e, mkwp]

lemma cle_far : circle_left wp_far_e.w wp_far_e.chi_d 50 = ⟨400, -50, -50⟩ := by
  simp [circle_left, wp_far_e, mkwp]

/-! ## Dubins solver: failure and overwrite -/

/-- For an accepted pair the record stored by `dubinsParameters` does not depend on the
record it replaces. -/
lemma dubinsParameters_overwrites {F : Type} [LinearOrderedField F] [Libm F]
    (d d2 : dubinspath_s F) (sn en : waypoint_s F) (R : F)
    (hacc : ¬ (dubins_ell sn en < 2 * R)) :
    dubinsParameters d sn en R = dubinsParameters d2 sn en R := by
  have hfirst := dubins_select_first (dubins_cand1 sn en R) (dubins_cand2 sn en R)
    (dubins_cand3 sn en R) (dubins_cand4 sn en R)
  unfold dubins_cand1 dubins_cand2 dubins_cand3 dubins_cand4 at hfirst
  unfold dubinsParameters
  rw [if_neg hacc, if_neg hacc]
  dsimp only
  rcases hfirst with ⟨h1, -⟩ | ⟨h1, -⟩ | ⟨h1, -⟩ | ⟨h1, -⟩ <;> rw [h1]

/-- A rejected pair leaves the record as it is. -/
lemma dubinsParameters_rejected {F : Type} [LinearOrderedField F] [Libm F]
    (d : dubinspath_s F) (sn en : waypoint_s F) (R : F)
    (hrej : dubins_ell sn en < 2 * R) :
    dubinsParameters d sn en R = d := by
  unfold dubinsParameters
  rw [if_pos hrej]

/-- C11: when `‖end_xy - start_xy‖ < 2R`, `dubinsParameters` leaves every field of
`dubinspath_` equal to its value before the call; when `‖end_xy - start_xy‖ ≥ 2R`, equality
included, it overwrites every field: the record after the call is the same for every record
before the call, with `ps`, `chis`, `pe`, `chie`, `w3`, `R` those of the arguments. -/
theorem dubinsParameters_failure_atomic {F : Type} [LinearOrderedField F] [Libm F]
    (d : dubinspath_s F) (sn en : waypoint_s F) (R : F) :
    (dubins_ell sn en < 2 * R → dubinsParameters d sn en R = d)
      ∧ (2 * R ≤ dubins_ell sn en →
          (∀ d2 : dubinspath_s F, dubinsParameters d2 sn en R = dubinsParameters d sn en R)
          ∧ (dubinsParameters d sn en R).ps = sn.w
          ∧ (dubinsParameters d sn en R).chis = sn.chi_d
          ∧ (dubinsParameters d sn en R).pe = en.w
          ∧ (dubinsParameters d sn en R).chie = en.chi_d
          ∧ (dubinsParameters d sn en R).w3 = en.w
          ∧ (dubinsParameters d sn en R).R = R) := by
  refine ⟨dubinsParameters_rejected d sn en R, ?_⟩
  intro h
  have hacc : ¬ (dubins_ell sn en < 2 * R) := not_lt.2 h
  refine ⟨fun d2 => dubinsParameters_overwrites d2 d sn en R hacc, ?_⟩
  rcases dubinsParameters_fields d sn en R hacc with ⟨-, hf⟩ | ⟨-, hf⟩ | ⟨-, hf⟩ | ⟨-, hf⟩ <;>
    rw [hf] <;> exact ⟨rfl, rfl, rfl, rfl, rfl, rfl⟩

lemma dubins_ell_near : dubins_ell wp_near_s wp_near_e = 1 := by
  simp [dubins_ell, wp_near_s, wp_near_e, mkwp]

/-- C11, witness: the pair `wp_near_s`, `wp_near_e` (distance `1`) is rejected for `R = 50` and
the record is left as it is; the pair `wp_deg_s`, `wp_deg_e` (distance `2`) is accepted for
`R = 1`, the case of equality, and the record is overwritten. -/
theorem dubinsParameters_failure_atomic_witness :
    dubins_ell wp_near_s wp_near_e < 2 * 50
      ∧ dubinsParameters path_arrival wp_near_s wp_near_e 50 = path_arrival
      ∧ 2 * 1 ≤ dubins_ell wp_deg_s wp_deg_e
      ∧ (∀ d2 : dubinspath_s ℝ, dubinsParameters d2 wp_deg_s wp_deg_e 1
          = dubinsParameters path_arrival wp_deg_s wp_deg_e 1)
      ∧ (dubinsParameters path_arrival wp_deg_s wp_deg_e 1).ps = wp_deg_s.w
      ∧ (dubinsParameters path_arrival wp_deg_s wp_deg_e 1).R = 1 := by
  have h1 : dubins_ell wp_near_s wp_near_e < 2 * 50 := by
    rw [dubins_ell_near]; norm_num
  have h2 : (2 : ℝ) * 1 ≤ dubins_ell wp_deg_s wp_deg_e := by
    rw [dubins_ell_deg]; norm_num
  have a := (dubinsParameters_failure_atomic path_arrival wp_near_s wp_near_e 50).1 h1
  have b := (dubinsParameters_failure_atomic path_arrival wp_deg_s wp_deg_e 1).2 h2
  exact ⟨h1, a, h2, b.1, b.2.1, b.2.2.2.2.2.2⟩

/-! ## Dubins manager: solver calls -/

/-- The tick of `manage_dubins` in state `FIRST`. -/
lemma manage_dubins_first {F : Type} [LinearOrderedField F] [Libm F]
    (s : path_manager_example F) (input : input_s F) (output : output_s F)
    (wa w0 w1 : waypoint_s F)
    (hst : s.dub_state_ = dubin_state.FIRST) (hwa : s.wp s.idx_a_ = some wa)
    (hw0 : s.wp 0 = some w0) (hw1 : s.wp 1 = some w1) :
    manage_dubins s input output =
      some ({ s with
              dubinspath_ := dubinsParameters s.dubinspath_ w0 w1 s.R_min
              dub_state_ := dubins_entry_state (dubinsParameters s.dubinspath_ w0 w1 s.R_min)
                ⟨input.pn, input.pe, -input.h⟩ },
            dubins_start_orbit (dubinsParameters s.dubinspath_ w0 w1 s.R_min)
              { output with va_d := wa.va_d, r := ⟨0, 0, 0⟩, q := ⟨0, 0, 0⟩, c := ⟨0, 0, 0⟩ }) := by
  simp only [manage_dubins, hwa, hst, hw0, hw1]

/-- The index `idx_a_` after the advance out of `BEFORE_H3`. -/
lemma dubins_next_a {F : Type} (s : path_manager_example F)
    (h0 : 0 ≤ s.idx_a_) (h1 : s.idx_a_ < s.num_waypoints_) :
    (if s.idx_a_ = s.num_waypoints_ - 1 then (0 : Int) else s.idx_a_ + 1)
      = (s.idx_a_ + 1) % s.num_waypoints_ := by
  split_ifs with h
  · rw [h]; simp
  · exact (Int.emod_eq_of_lt (by omega) (by omega)).symm

/-- The index `idx_b` of the advance out of `BEFORE_H3`. -/
lemma dubins_next_b {F : Type} (s : path_manager_example F)
    (hN : 2 ≤ s.num_waypoints_) (h0 : 0 ≤ s.idx_a_) (h1 : s.idx_a_ < s.num_waypoints_) :
    (if s.idx_a_ = s.num_waypoints_ - 1 then (1 : Int)
      else if s.idx_a_ = s.num_waypoints_ - 2 then 0 else s.idx_a_ + 1 + 1)
      = ((s.idx_a_ + 1) % s.num_waypoints_ + 1) % s.num_waypoints_ := by
  split_ifs with h h2
  · rw [h]
    simp
    exact (Int.emod_eq_of_lt (by omega) (by omega)).symm
  · have e : (s.idx_a_ + 1) % s.num_waypoints_ = s.num_waypoints_ - 1 := by
      have h3 : s.idx_a_ + 1 = s.num_waypoints_ - 1 := by omega
      rw [h3]
      exact Int.emod_eq_of_lt (by omega) (by omega)
    rw [e]
    simp
  · have e : (s.idx_a_ + 1) % s.num_waypoints_ = s.idx_a_ + 1 :=
      Int.emod_eq_of_lt (by omega) (by omega)
    rw [e]
    exact (Int.emod_eq_of_lt (by omega) (by omega)).symm

/-- The tick of `manage_dubins` in state `BEFORE_H3` when the pose is in `H3`: the index
advances with wraparound and the solver is called on the next pair. -/
lemma manage_dubins_advance {F : Type} [LinearOrderedField F] [Libm F]
    (s : path_manager_example F) (input : input_s F) (output : output_s F)
    (wa na nb : waypoint_s F)
    (hN : 2 ≤ s.num_waypoints_) (h0 : 0 ≤ s.idx_a_) (h1 : s.idx_a_ < s.num_waypoints_)
    (hst : s.dub_state_ = dubin_state.BEFORE_H3) (hwa : s.wp s.idx_a_ = some wa)
    (hcross : (Vec3.sub ⟨input.pn, input.pe, -input.h⟩ s.dubinspath_.w3).dot
      s.dubinspath_.q3 ≥ 0)
    (hna : s.wp ((s.idx_a_ + 1) % s.num_waypoints_) = some na)
    (hnb : s.wp (((s.idx_a_ + 1) % s.num_waypoints_ + 1) % s.num_waypoints_) = some nb) :
    manage_dubins s input output =
      some ({ s with
              idx_a_ := (s.idx_a_ + 1) % s.num_waypoints_
              update_marker_ := true
              dubinspath_ := dubinsParameters s.dubinspath_ na nb s.R_min
              dub_state_ := dubins_entry_state (dubinsParameters s.dubinspath_ na nb s.R_min)
                ⟨input.pn, input.pe, -input.h⟩ },
            dubins_end_orbit s.dubinspath_
              { output with va_d := wa.va_d, r := ⟨0, 0, 0⟩, q := ⟨0, 0, 0⟩, c := ⟨0, 0, 0⟩ }) := by
  have ea := dubins_next_a s h0 h1
  have eb := dubins_next_b s hN h0 h1
  simp only [manage_dubins, hwa, hst]
  rw [if_pos hcross, ea, eb]
  simp only [hna, hnb]

lemma wp_near_reads (t : path_manager_example ℝ) (ht : t.waypoints_ = [wp_near_s, wp_near_e]) :
    t.wp 0 = some wp_near_s ∧ t.wp 1 = some wp_near_e := by
  simp [path_manager_example.wp, ht]

/-! ## Dubins manager: the pair passed to the solver -/

lemma dubinsParameters_ps {F : Type} [LinearOrderedField F] [Libm F]
    (d : dubinspath_s F) (sn en : waypoint_s F) (R : F)
    (hacc : ¬ (dubins_ell sn en < 2 * R)) :
    (dubinsParameters d sn en R).ps = sn.w := by
  rcases dubinsParameters_fields d sn en R hacc with ⟨-, hf⟩ | ⟨-, hf⟩ | ⟨-, hf⟩ | ⟨-, hf⟩ <;>
    rw [hf]

/-- C13 (amended): for `N ≥ 2` and `0 ≤ idx_a < N`, in state `FIRST` a tick of `manage_dubins`
stores the solver's result for the pair `(waypoints[0], waypoints[1])` whatever `idx_a` is,
which is `(waypoints[a], waypoints[(a+1) mod N])` when `idx_a = 0`; on the advance out of
`BEFORE_H3` it stores the solver's result for `(waypoints[a], waypoints[(a+1) mod N])` with
`a = (idx_a + 1) mod N` the advanced index. -/
theorem manage_dubins_solver_pair {F : Type} [LinearOrderedField F] [Libm F]
    (s : path_manager_example F) (input : input_s F) (output : output_s F)
    (hlen : s.num_waypoints_ = s.waypoints_.length) (hN : 2 ≤ s.num_waypoints_)
    (h0 : 0 ≤ s.idx_a_) (h1 : s.idx_a_ < s.num_waypoints_) :
    (s.dub_state_ = dubin_state.FIRST →
        ∃ w0 w1 s1 o1, s.wp 0 = some w0 ∧ s.wp 1 = some w1
          ∧ manage_dubins s input output = some (s1, o1)
          ∧ s1.idx_a_ = s.idx_a_
          ∧ s1.dubinspath_ = dubinsParameters s.dubinspath_ w0 w1 s.R_min
          ∧ (s.idx_a_ = 0 → s.wp s.idx_a_ = some w0
              ∧ s.wp ((s.idx_a_ + 1) % s.num_waypoints_) = some w1))
      ∧ (s.dub_state_ = dubin_state.BEFORE_H3 →
        (Vec3.sub ⟨input.pn, input.pe, -input.h⟩ s.dubinspath_.w3).dot s.dubinspath_.q3 ≥ 0 →
        ∃ na nb s1 o1, manage_dubins s input output = some (s1, o1)
          ∧ s1.idx_a_ = (s.idx_a_ + 1) % s.num_waypoints_
          ∧ s1.wp s1.idx_a_ = some na
          ∧ s1.wp ((s1.idx_a_ + 1) % s1.num_waypoints_) = some nb
          ∧ s1.dubinspath_ = dubinsParameters s.dubinspath_ na nb s.R_min) := by
  obtain ⟨wa, hwa⟩ := wp_some s s.idx_a_ hlen h0 h1
  constructor
  · intro hst
    obtain ⟨w0, hw0⟩ := wp_some s 0 hlen le_rfl (by omega)
    obtain ⟨w1, hw1⟩ := wp_some s 1 hlen (by norm_num) (by omega)
    refine ⟨w0, w1, _, _, hw0, hw1, manage_dubins_first s input output wa w0 w1 hst hwa hw0 hw1,
      rfl, rfl, ?_⟩
    intro ha
    rw [ha]
    have e : ((0 : Int) + 1) % s.num_waypoints_ = 1 := by
      rw [zero_add]
      exact Int.emod_eq_of_lt (by norm_num) (by omega)
    rw [e]
    exact ⟨hw0, hw1⟩
  · intro hst hcross
    have ha := wrap_idx_range s.idx_a_ s.num_waypoints_ (by omega) 1
    have hb := wrap_idx_range ((s.idx_a_ + 1) % s.num_waypoints_) s.num_waypoints_ (by omega) 1
    obtain ⟨na, hna⟩ := wp_some s _ hlen ha.1 ha.2
    obtain ⟨nb, hnb⟩ := wp_some s _ hlen hb.1 hb.2
    exact ⟨na, nb, _, _,
      manage_dubins_advance s input output wa na nb hN h0 h1 hst hwa hcross hna hnb,
      rfl, hna, hnb, rfl⟩

/-- C13, witness: the hypotheses of `manage_dubins_solver_pair` hold for the state
`state_first_near`, which is in `FIRST` with `idx_a_ = 0`. -/
theorem manage_dubins_solver_pair_witness :
    ∃ w0 w1 s1 o1, state_first_near.wp 0 = some w0 ∧ state_first_near.wp 1 = some w1
      ∧ manage_dubins state_first_near ⟨201, 0, 50, 0⟩ out_zero = some (s1, o1)
      ∧ s1.idx_a_ = state_first_near.idx_a_
      ∧ s1.dubinspath_ = dubinsParameters state_first_near.dubinspath_ w0 w1
          state_first_near.R_min
      ∧ (state_first_near.idx_a_ = 0 → state_first_near.wp state_first_near.idx_a_ = some w0
          ∧ state_first_near.wp
              ((state_first_near.idx_a_ + 1) % state_first_near.num_waypoints_) = some w1) :=
  (manage_dubins_solver_pair state_first_near ⟨201, 0, 50, 0⟩ out_zero
    (by simp [state_first_near]) (by simp [state_first_near]) (by simp [state_first_near])
    (by simp [state_first_near])).1 rfl

lemma dubins_ell_far_3 : dubins_ell wp_far_e wp_far_3 = 400 := by
  simp [dubins_ell, wp_far_e, wp_far_3, mkwp]
  norm_num [sqrt_160000]

/-- C13, counterexample: with three waypoints 400 apart, `idx_a_ = 1` and the manager in
`FIRST`, the tick stores the path of the pair `(waypoints[0], waypoints[1])`, whose start point
is `(0,0,-50)`, not the path of `(waypoints[1], waypoints[2])`, whose start point is
`(400,0,-50)`. -/
theorem manage_dubins_first_ignores_idx_a :
    ∃ s1 o1, manage_dubins state_first_late ⟨0, 0, 50, 0⟩ out_zero = some (s1, o1)
      ∧ state_first_late.idx_a_ = 1
      ∧ state_first_late.wp state_first_late.idx_a_ = some wp_far_e
      ∧ state_first_late.wp ((state_first_late.idx_a_ + 1) % state_first_late.num_waypoints_)
          = some wp_far_3
      ∧ s1.dubinspath_.ps = ⟨0, 0, -50⟩
      ∧ (dubinsParameters state_first_late.dubinspath_ wp_far_e wp_far_3
          state_first_late.R_min).ps = ⟨400, 0, -50⟩
      ∧ s1.dubinspath_ ≠ dubinsParameters state_first_late.dubinspath_ wp_far_e wp_far_3
          state_first_late.R_min := by
  have hw0 : state_first_late.wp 0 = some wp_far_s := by
    simp [path_manager_example.wp, state_first_late]
  have hw1 : state_first_late.wp 1 = some wp_far_e := by
    simp [path_manager_example.wp, state_first_late]
  have hw2 : state_first_late.wp 2 = some wp_far_3 := by
    simp [path_manager_example.wp, state_first_late]
  have hacc1 : ¬ (dubins_ell wp_far_s wp_far_e < 2 * (50 : ℝ)) := by
    rw [dubins_ell_far]; norm_num
  have hacc2 : ¬ (dubins_ell wp_far_e wp_far_3 < 2 * (50 : ℝ)) := by
    rw [dubins_ell_far_3]; norm_num
  have hm := manage_dubins_first state_first_late ⟨0, 0, 50, 0⟩ out_zero wp_far_e
    wp_far_s wp_far_e rfl hw1 hw0 hw1
  have hR : state_first_late.R_min = 50 := rfl
  have p1 := dubinsParameters_ps state_first_late.dubinspath_ wp_far_s wp_far_e 50 hacc1
  have p2 := dubinsParameters_ps state_first_late.dubinspath_ wp_far_e wp_far_3 50 hacc2
  rw [hR] at hm ⊢
  refine ⟨_, _, hm, rfl, hw1, hw2, ?_, ?_, ?_⟩
  · exact p1
  · exact p2
  · intro h
    have h2 := congrArg dubinspath_s.ps h
    simp only at h2
    rw [p1, p2] at h2
    have h3 := congrArg Vec3.x h2
    simp [wp_far_s, wp_far_e, mkwp] at h3

/-! ## Dispatcher -/

/-- With two or more waypoints `manage` engages the Dubins manager when the waypoint at
`idx_a_` has `use_chi` set, else the fillet manager. -/
lemma manage_dispatch {F : Type} [LinearOrderedField F] [Libm F]
    (s : path_manager_example F) (elapsed : F) (input : input_s F) (output : output_s F)
    (wa : waypoint_s F) (hN : 2 ≤ s.num_waypoints_) (hwa : s.wp s.idx_a_ = some wa) :
    manage s elapsed input output =
      if wa.use_chi = true then manage_dubins s input output
      else manage_fillet s input output := by
  unfold manage
  rw [if_neg (by omega), if_neg (by omega)]
  simp only [hwa]

/-- The value returned by `orbit_direction` when the cache holds `-1`, `0` or `+1`. -/
lemma orbit_direction_value {F : Type} [LinearOrderedField F] [Libm F]
    (s : path_manager_example F) (pn pe chi c_n c_e : F)
    (hdir : s.orbit_dir = -1 ∨ s.orbit_dir = 0 ∨ s.orbit_dir = 1) :
    ((orbit_direction s pn pe chi c_n c_e).1 = 1 ∨ (orbit_direction s pn pe chi c_n c_e).1 = -1)
      ∧ (orbit_direction s pn pe chi c_n c_e).2.orbit_dir
          = (orbit_direction s pn pe chi c_n c_e).1 := by
  unfold orbit_direction
  dsimp only
  split_ifs with h1 h2
  · rcases hdir with h | h | h
    · exact ⟨Or.inr h, rfl⟩
    · exact absurd h h1
    · exact ⟨Or.inl h, rfl⟩
  · exact ⟨Or.inl rfl, rfl⟩
  · exact ⟨Or.inr rfl, rfl⟩

/-- With `orbit_last` set and `idx_a_` the last index, `manage_fillet` returns what
`increment_indices` wrote: the orbit about the last waypoint. -/
lemma manage_fillet_last {F : Type} [LinearOrderedField F] [Libm F]
    (s : path_manager_example F) (input : input_s F) (output : output_s F)
    (hlen : s.num_waypoints_ = s.waypoints_.length)
    (h0 : 0 ≤ s.idx_a_) (hA : s.idx_a_ = s.num_waypoints_ - 1) (hol : s.orbit_last = true)
    (htemp : ¬ (s.temp_waypoint_ = true ∧ s.idx_a_ = 1)) :
    ∃ wa pl od, s.wp s.idx_a_ = some wa ∧ manage_fillet s input output =
      some ({ s with update_marker_ := false, published_ := pl, orbit_dir := od },
        { flag := false, va_d := wa.va_d, c := wa.w, r := ⟨0, 0, 0⟩, q := ⟨0, 0, 0⟩,
          rho := s.R_min,
          lamda := (orbit_direction s input.pn input.pe input.chi wa.w.x wa.w.y).1 }) := by
  obtain ⟨wa, pl, od, hwa, hi⟩ := increment_indices_last s input output hlen h0 hA hol htemp
  refine ⟨wa, pl, od, hwa, ?_⟩
  unfold manage_fillet
  split_ifs with h3
  · unfold manage_line
    simp only [hi]
    rw [if_pos ⟨hol, Or.inl hA⟩]
  · simp only [hi]
    rw [if_pos ⟨hol, hA⟩]

/-- C14: for `N ≥ 2`, `orbit_last = true`, no temporary waypoint, `idx_a = N - 1`,
`waypoints[idx_a].use_chi = false` and a cached direction in `{-1, 0, +1}`, one tick of
`manage` produces `flag = ORBIT`, `c = waypoints[N-1].w`, `rho = R_min`,
`va_d = waypoints[N-1].va_d` and `lamda = orbit_direction(pn, pe, chi, c[0], c[1])`, which is
`+1` or `-1`, and leaves `idx_a` and `fil_state` unchanged. -/
theorem manage_orbit_last_override {F : Type} [LinearOrderedField F] [Libm F]
    (s : path_manager_example F) (elapsed : F) (input : input_s F) (output : output_s F)
    (wa : waypoint_s F)
    (hlen : s.num_waypoints_ = s.waypoints_.length) (hN : 2 ≤ s.num_waypoints_)
    (hol : s.orbit_last = true) (htemp : s.temp_waypoint_ = false)
    (hA : s.idx_a_ = s.num_waypoints_ - 1)
    (hwa : s.wp s.idx_a_ = some wa) (huse : wa.use_chi = false)
    (hdir : s.orbit_dir = -1 ∨ s.orbit_dir = 0 ∨ s.orbit_dir = 1) :
    ∃ s1 o1, manage s elapsed input output = some (s1, o1)
      ∧ o1.flag = false ∧ o1.c = wa.w ∧ o1.rho = s.R_min ∧ o1.va_d = wa.va_d
      ∧ o1.lamda = (orbit_direction s input.pn input.pe input.chi o1.c.x o1.c.y).1
      ∧ (o1.lamda = 1 ∨ o1.lamda = -1)
      ∧ s1.idx_a_ = s.idx_a_ ∧ s1.fil_state_ = s.fil_state_ := by
  obtain ⟨wa2, pl, od, hwa2, hm⟩ := manage_fillet_last s input output hlen (by omega) hA hol
    (by simp [htemp])
  rw [hwa] at hwa2
  simp only [Option.some.injEq] at hwa2
  subst hwa2
  have hd := manage_dispatch s elapsed input output wa hN hwa
  rw [if_neg (by simp [huse]), hm] at hd
  exact ⟨_, _, hd, rfl, rfl, rfl, rfl, rfl,
    (orbit_direction_value s input.pn input.pe input.chi wa.w.x wa.w.y hdir).1, rfl, rfl⟩

/-- C14, witness: the hypotheses of `manage_orbit_last_override` hold for the state
`state_last_orbit` (three waypoints, `idx_a_ = 2`). -/
theorem manage_orbit_last_override_witness :
    ∃ s1 o1, manage state_last_orbit 0 ⟨90, 90, 50, 0⟩ out_zero = some (s1, o1)
      ∧ o1.flag = false ∧ o1.c = (mkwp 100 100 (-50) 0 false).w
      ∧ o1.rho = state_last_orbit.R_min ∧ o1.va_d = (mkwp 100 100 (-50) 0 false).va_d
      ∧ o1.lamda = (orbit_direction state_last_orbit 90 90 0 o1.c.x o1.c.y).1
      ∧ (o1.lamda = 1 ∨ o1.lamda = -1)
      ∧ s1.idx_a_ = state_last_orbit.idx_a_ ∧ s1.fil_state_ = state_last_orbit.fil_state_ :=
  manage_orbit_last_override state_last_orbit 0 ⟨90, 90, 50, 0⟩ out_zero
    (mkwp 100 100 (-50) 0 false)
    (by simp [state_last_orbit]) (by simp [state_last_orbit]) (by simp [state_last_orbit])
    (by simp [state_last_orbit]) (by simp [state_last_orbit])
    (by simp [state_last_orbit, path_manager_example.wp]) (by simp [mkwp])
    (by simp [state_last_orbit])

/-! ## Dispatcher: the last waypoint under `orbit_last` -/

/-- With `orbit_last` set, two waypoints of which the first is temporary and `idx_a_ = 1`,
`manage_fillet` consumes the temporary waypoint and returns with `idx_a_ = 0`, the last index
of the one-element list. -/
lemma manage_fillet_last_temp {F : Type} [LinearOrderedField F] [Libm F]
    (s : path_manager_example F) (input : input_s F) (output : output_s F)
    (hlen : s.num_waypoints_ = s.waypoints_.length)
    (hA : s.idx_a_ = s.num_waypoints_ - 1) (hol : s.orbit_last = true)
    (htemp : s.temp_waypoint_ = true ∧ s.idx_a_ = 1) :
    ∃ s1 o1, manage_fillet s input output = some (s1, o1)
      ∧ s1.idx_a_ = s1.num_waypoints_ - 1 := by
  have hN2 : s.num_waypoints_ = 2 := by omega
  cases hl : s.waypoints_ with
  | nil => rw [hl] at hlen; simp at hlen; omega
  | cons a rest =>
    have hi : increment_indices s input output =
        some ({ s with
                waypoints_ := rest, num_waypoints_ := s.num_waypoints_ - 1, idx_a_ := 0,
                temp_waypoint_ := false, update_marker_ := true }, 1, 2, output) := by
      unfold increment_indices
      rw [if_pos htemp]
      simp only [hl]
    unfold manage_fillet
    rw [if_pos (by omega)]
    unfold manage_line
    simp only [hi]
    rw [if_pos ⟨hol, Or.inl (by omega)⟩]
    exact ⟨_, _, rfl, by simp; omega⟩

/-- C15 (amended): for `N ≥ 2` with `orbit_last = true` and `idx_a = N - 1`, when the
dispatcher engages the fillet or line manager (`waypoints[idx_a].use_chi = false`), `idx_a` is
the last index again after the tick, for every pose; `idx_a` and `N` are unchanged unless a
temporary waypoint is consumed on the tick. -/
theorem manage_orbit_last_keeps_last_index {F : Type} [LinearOrderedField F] [Libm F]
    (s : path_manager_example F) (elapsed : F) (input : input_s F) (output : output_s F)
    (wa : waypoint_s F)
    (hlen : s.num_waypoints_ = s.waypoints_.length) (hN : 2 ≤ s.num_waypoints_)
    (hol : s.orbit_last = true) (hA : s.idx_a_ = s.num_waypoints_ - 1)
    (hwa : s.wp s.idx_a_ = some wa) (huse : wa.use_chi = false) :
    ∃ s1 o1, manage s elapsed input output = some (s1, o1)
      ∧ s1.idx_a_ = s1.num_waypoints_ - 1
      ∧ (¬ (s.temp_waypoint_ = true ∧ s.idx_a_ = 1) →
          s1.idx_a_ = s.idx_a_ ∧ s1.num_waypoints_ = s.num_waypoints_) := by
  have hd := manage_dispatch s elapsed input output wa hN hwa
  rw [if_neg (by simp [huse])] at hd
  rw [hd]
  by_cases htemp : s.temp_waypoint_ = true ∧ s.idx_a_ = 1
  · obtain ⟨s1, o1, hm, hidx⟩ := manage_fillet_last_temp s input output hlen hA hol htemp
    exact ⟨s1, o1, hm, hidx, fun h => absurd htemp h⟩
  · obtain ⟨wa2, pl, od, -, hm⟩ := manage_fillet_last s input output hlen (by omega) hA hol
      htemp
    exact ⟨_, _, hm, hA, fun _ => ⟨rfl, rfl⟩⟩

/-- C15, witness: the hypotheses of `manage_orbit_last_keeps_last_index` hold for the state
`state_last_orbit`. -/
theorem manage_orbit_last_keeps_last_index_witness :
    ∃ s1 o1, manage state_last_orbit 0 ⟨90, 90, 50, 0⟩ out_zero = some (s1, o1)
      ∧ s1.idx_a_ = s1.num_waypoints_ - 1
      ∧ (¬ (state_last_orbit.temp_waypoint_ = true ∧ state_last_orbit.idx_a_ = 1) →
          s1.idx_a_ = state_last_orbit.idx_a_
            ∧ s1.num_waypoints_ = state_last_orbit.num_waypoints_) :=
  manage_orbit_last_keeps_last_index state_last_orbit 0 ⟨90, 90, 50, 0⟩ out_zero
    (mkwp 100 100 (-50) 0 false)
    (by simp [state_last_orbit]) (by simp [state_last_orbit]) (by simp [state_last_orbit])
    (by simp [state_last_orbit])
    (by simp [state_last_orbit, path_manager_example.wp]) (by simp [mkwp])

/-- C15, counterexample: with two heading-constrained waypoints, `orbit_last = true`,
`idx_a_ = N - 1 = 1` and the Dubins manager in `BEFORE_H3` with the pose in `H3`, the
dispatcher tick takes `idx_a_` to `0`. -/
theorem manage_dubins_wraps_under_orbit_last :
    ∃ s1 o1, manage state_h3_last 0 ⟨199, 0, 50, 0⟩ out_zero = some (s1, o1)
      ∧ state_h3_last.orbit_last = true
      ∧ state_h3_last.idx_a_ = state_h3_last.num_waypoints_ - 1
      ∧ s1.num_waypoints_ = 2 ∧ s1.idx_a_ = 0 := by
  have hw0 : state_h3_last.wp 0 = some wp_far_s := by
    simp [path_manager_example.wp, state_h3_last]
  have hw1 : state_h3_last.wp 1 = some wp_far_e := by
    simp [path_manager_example.wp, state_h3_last]
  have hd := manage_dispatch state_h3_last 0 ⟨199, 0, 50, 0⟩ out_zero wp_far_e
    (by simp [state_h3_last]) hw1
  rw [if_pos (by simp [wp_far_e, mkwp])] at hd
  have hm := manage_dubins_advance state_h3_last ⟨199, 0, 50, 0⟩ out_zero wp_far_e
    wp_far_s wp_far_e (by simp [state_h3_last]) (by simp [state_h3_last])
    (by simp [state_h3_last]) rfl hw1
    (by simp [state_h3_last, path_arrival, Vec3.sub, Vec3.dot]; norm_num)
    (by simpa [state_h3_last] using hw0) (by simpa [state_h3_last] using hw1)
  rw [hm] at hd
  exact ⟨_, _, hd, rfl, by simp [state_h3_last], rfl, by simp [state_h3_last]⟩

/-! ## Temporary-waypoint consumption -/

/-- Outside the temporary-waypoint branch a returning `increment_indices` leaves the waypoint
list and `num_waypoints_` as they were. -/
lemma increment_indices_keeps_list {F : Type} [LinearOrderedField F] [Libm F]
    (s s1 : path_manager_example F) (input : input_s F) (output o1 : output_s F) (b c : Int)
    (htemp : ¬ (s.temp_waypoint_ = true ∧ s.idx_a_ = 1))
    (h : increment_indices s input output = some (s1, b, c, o1)) :
    s1.waypoints_ = s.waypoints_ ∧ s1.num_waypoints_ = s.num_waypoints_ := by
  unfold increment_indices at h
  rw [if_neg htemp] at h
  by_cases hA : s.idx_a_ = s.num_waypoints_ - 1
  · rw [if_pos hA] at h
    by_cases hol : s.orbit_last = true
    · rw [if_pos hol] at h
      cases hw : s.wp s.idx_a_ with
      | none => simp [hw] at h
      | some wa =>
        simp only [hw] at h
        have e := orbit_direction_eq s input.pn input.pe input.chi wa.w.x wa.w.y
        cases hp : publish_if_marked
            (orbit_direction s input.pn input.pe input.chi wa.w.x wa.w.y).2 s.idx_a_ with
        | none => simp [hp] at h
        | some s2 =>
          simp only [hp] at h
          have e2 := publish_if_marked_eq _ _ _ hp
          simp only [Option.some.injEq, Prod.mk.injEq] at h
          obtain ⟨rfl, -⟩ := h
          rw [e2, e]
          exact ⟨rfl, rfl⟩
    · rw [if_neg hol] at h
      cases hp : publish_if_marked s 0 with
      | none => simp [hp] at h
      | some s2 =>
        simp only [hp] at h
        have e2 := publish_if_marked_eq _ _ _ hp
        simp only [Option.some.injEq, Prod.mk.injEq] at h
        obtain ⟨rfl, -⟩ := h
        rw [e2]
        exact ⟨rfl, rfl⟩
  · rw [if_neg hA] at h
    by_cases hB : s.idx_a_ = s.num_waypoints_ - 2
    · rw [if_pos hB] at h
      cases hp : publish_if_marked s (s.num_waypoints_ - 1) with
      | none => simp [hp] at h
      | some s2 =>
        simp only [hp] at h
        have e2 := publish_if_marked_eq _ _ _ hp
        simp only [Option.some.injEq, Prod.mk.injEq] at h
        obtain ⟨rfl, -⟩ := h
        rw [e2]
        exact ⟨rfl, rfl⟩
    · rw [if_neg hB] at h
      cases hp : publish_if_marked s (s.idx_a_ + 1) with
      | none => simp [hp] at h
      | some s2 =>
        simp only [hp] at h
        have e2 := publish_if_marked_eq _ _ _ hp
        simp only [Option.some.injEq, Prod.mk.injEq] at h
        obtain ⟨rfl, -⟩ := h
        rw [e2]
        exact ⟨rfl, rfl⟩

/-- Outside the temporary-waypoint branch `increment_indices` returns on every state whose
`num_waypoints_` is the list length and whose `idx_a_` is a valid index. -/
lemma increment_indices_returns {F : Type} [LinearOrderedField F] [Libm F]
    (s : path_manager_example F) (input : input_s F) (output : output_s F)
    (hlen : s.num_waypoints_ = s.waypoints_.length)
    (h0 : 0 ≤ s.idx_a_) (h1 : s.idx_a_ < s.num_waypoints_)
    (htemp : ¬ (s.temp_waypoint_ = true ∧ s.idx_a_ = 1)) :
    ∃ r, increment_indices s input output = some r := by
  by_cases hA : s.idx_a_ = s.num_waypoints_ - 1
  · by_cases hol : s.orbit_last = true
    · obtain ⟨wa, pl, od, -, hi⟩ := increment_indices_last s input output hlen h0 hA hol htemp
      exact ⟨_, hi⟩
    · obtain ⟨pl, hp⟩ := publish_if_marked_some s 0 hlen (le_refl 0) (by omega)
      unfold increment_indices
      rw [if_neg htemp, if_pos hA, if_neg hol]
      simp only [hp]
      exact ⟨_, rfl⟩
  · unfold increment_indices
    rw [if_neg htemp, if_neg hA]
    by_cases hB : s.idx_a_ = s.num_waypoints_ - 2
    · obtain ⟨pl, hp⟩ := publish_if_marked_some s (s.num_waypoints_ - 1) hlen (by omega)
        (by omega)
      rw [if_pos hB]
      simp only [hp]
      exact ⟨_, rfl⟩
    · obtain ⟨pl, hp⟩ := publish_if_marked_some s (s.idx_a_ + 1) hlen (by omega) (by omega)
      rw [if_neg hB]
      simp only [hp]
      exact ⟨_, rfl⟩

/-- C16: on a state with a non-empty waypoint list, when the temporary flag is set and
`idx_a_ = 1`, `increment_indices` returns the state with element 0 of the list removed (the
rest in order), `num_waypoints_` decreased by one, `idx_a_ = 0`, the temporary flag cleared
and `update_marker_` set, together with `idx_b = 1`, `idx_c = 2` and the output it was given;
when the flag is clear or `idx_a_ ≠ 1`, every result has the waypoint list and
`num_waypoints_` unchanged, and a result exists whenever `idx_a_` is a valid index. -/
theorem increment_indices_temp_waypoint_consumption {F : Type} [LinearOrderedField F] [Libm F]
    (s : path_manager_example F) (input : input_s F) (output : output_s F)
    (hne : s.waypoints_ ≠ []) :
    (s.temp_waypoint_ = true ∧ s.idx_a_ = 1 →
      increment_indices s input output =
        some ({ s with
                waypoints_ := s.waypoints_.tail, num_waypoints_ := s.num_waypoints_ - 1,
                idx_a_ := 0, temp_waypoint_ := false, update_marker_ := true },
              1, 2, output)
      ∧ s.waypoints_.tail = s.waypoints_.drop 1
      ∧ s.waypoints_.tail.length + 1 = s.waypoints_.length)
    ∧ (¬ (s.temp_waypoint_ = true ∧ s.idx_a_ = 1) →
        (∀ s1 b c o1, increment_indices s input output = some (s1, b, c, o1) →
          s1.waypoints_ = s.waypoints_ ∧ s1.num_waypoints_ = s.num_waypoints_)
        ∧ (s.num_waypoints_ = s.waypoints_.length → 0 ≤ s.idx_a_ →
            s.idx_a_ < s.num_waypoints_ → ∃ r, increment_indices s input output = some r)) := by
  constructor
  · intro ht
    cases hl : s.waypoints_ with
    | nil => exact absurd hl hne
    | cons a rest =>
      refine ⟨?_, by simp, by simp⟩
      unfold increment_indices
      rw [if_pos ht]
      simp only [hl, List.tail_cons]
  · intro ht
    exact ⟨fun s1 b c o1 h => increment_indices_keeps_list s s1 input output o1 b c ht h,
      fun hlen h0 h1 => increment_indices_returns s input output hlen h0 h1 ht⟩

/-- C16, witness: the hypothesis of `increment_indices_temp_waypoint_consumption` holds for
the state `state_temp_pair`, whose temporary flag is set with `idx_a_ = 1`. -/
theorem increment_indices_temp_waypoint_consumption_witness :
    state_temp_pair.waypoints_ ≠ []
    ∧ (state_temp_pair.temp_waypoint_ = true ∧ state_temp_pair.idx_a_ = 1)
    ∧ increment_indices state_temp_pair ⟨0, 0, 50, 0⟩ out_zero =
        some ({ state_temp_pair with
                waypoints_ := state_temp_pair.waypoints_.tail,
                num_waypoints_ := state_temp_pair.num_waypoints_ - 1,
                idx_a_ := 0, temp_waypoint_ := false, update_marker_ := true },
              1, 2, out_zero) :=
  ⟨by simp [state_temp_pair], by simp [state_temp_pair],
    ((increment_indices_temp_waypoint_consumption state_temp_pair ⟨0, 0, 50, 0⟩ out_zero
      (by simp [state_temp_pair])).1 (by simp [state_temp_pair])).1⟩

/-! ## Single-waypoint orbit -/

/-- The direction computed by `orbit_direction` over the reals for an empty cache, the pose
`(0, 0)` with course `0` and the centre `(100, 100)`. -/
lemma orbit_direction_single (s : path_manager_example ℝ) (h : s.orbit_dir = 0) :
    (orbit_direction s 0 0 0 100 100).1 = -1 := by
  unfold orbit_direction
  simp only [h, Vec3.sub]
  rw [if_neg (by simp), if_neg (by simp)]

/-- A non-zero cache is returned as it is and the state is left alone. -/
lemma orbit_direction_cached {F : Type} [LinearOrderedField F] [Libm F]
    (s : path_manager_example F) (pn pe chi c_n c_e : F) (h : s.orbit_dir ≠ 0) :
    orbit_direction s pn pe chi c_n c_e = (s.orbit_dir, s) := by
  unfold orbit_direction
  rw [if_pos h]

/-- C18: for a cache `orbit_dir ∈ {-1, 0, +1}` and all inputs, `orbit_direction` returns `+1`
or `-1` and leaves the cache equal to the value returned; a non-zero cache is returned
unchanged with the state untouched whatever the inputs are, so a second call, with any
inputs, returns the value of the first and leaves the state of the first. -/
theorem orbit_direction_sticky {F : Type} [LinearOrderedField F] [Libm F]
    (s : path_manager_example F) (pn pe chi c_n c_e : F)
    (hdir : s.orbit_dir = -1 ∨ s.orbit_dir = 0 ∨ s.orbit_dir = 1) :
    ((orbit_direction s pn pe chi c_n c_e).1 = 1 ∨ (orbit_direction s pn pe chi c_n c_e).1 = -1)
      ∧ (orbit_direction s pn pe chi c_n c_e).2.orbit_dir
          = (orbit_direction s pn pe chi c_n c_e).1
      ∧ (s.orbit_dir ≠ 0 → orbit_direction s pn pe chi c_n c_e = (s.orbit_dir, s))
      ∧ ∀ pn2 pe2 chi2 c_n2 c_e2 : F,
          orbit_direction (orbit_direction s pn pe chi c_n c_e).2 pn2 pe2 chi2 c_n2 c_e2
            = ((orbit_direction s pn pe chi c_n c_e).1,
               (orbit_direction s pn pe chi c_n c_e).2) := by
  obtain ⟨hv, hc⟩ := orbit_direction_value s pn pe chi c_n c_e hdir
  refine ⟨hv, hc, orbit_direction_cached s pn pe chi c_n c_e, ?_⟩
  intro pn2 pe2 chi2 c_n2 c_e2
  have hne : (orbit_direction s pn pe chi c_n c_e).2.orbit_dir ≠ 0 := by
    rw [hc]
    rcases hv with h | h <;> rw [h] <;> decide
  rw [orbit_direction_cached _ pn2 pe2 chi2 c_n2 c_e2 hne, hc]

/-- C18, witness: the hypothesis of `orbit_direction_sticky` holds for the state
`state_single`, whose cache is empty; the first call computes `-1` and a second call from
another pose returns `-1` again. -/
theorem orbit_direction_sticky_witness :
    state_single.orbit_dir = 0
    ∧ (orbit_direction state_single 0 0 0 100 100).1 = -1
    ∧ orbit_direction (orbit_direction state_single 0 0 0 100 100).2 200 200 0 100 100
        = ((orbit_direction state_single 0 0 0 100 100).1,
           (orbit_direction state_single 0 0 0 100 100).2) :=
  ⟨rfl, orbit_direction_single state_single rfl,
    (orbit_direction_sticky state_single 0 0 0 100 100 (Or.inr (Or.inl rfl))).2.2.2
      200 200 0 100 100⟩

/-! ## The primitive written by a tick -/

/-- The value of `orbit_direction` is `+1`, `-1` or a non-zero cache. -/
lemma orbit_direction_cases {F : Type} [LinearOrderedField F] [Libm F]
    (s : path_manager_example F) (pn pe chi c_n c_e : F) :
    (orbit_direction s pn pe chi c_n c_e).1 = 1 ∨ (orbit_direction s pn pe chi c_n c_e).1 = -1
      ∨ ((orbit_direction s pn pe chi c_n c_e).1 = s.orbit_dir ∧ s.orbit_dir ≠ 0) := by
  unfold orbit_direction
  dsimp only
  split_ifs with h1 h2
  · exact Or.inr (Or.inr ⟨rfl, h1⟩)
  · exact Or.inl rfl
  · exact Or.inr (Or.inl rfl)

/-- The primitive left by `manage_line` on a state with valid indices and no temporary
waypoint to consume: a line along the normalised leg `wb - wa`, the orbit of the last
waypoint, or the primitive it was given. -/
lemma manage_line_output {F : Type} [LinearOrderedField F] [Libm F]
    (s : path_manager_example F) (input : input_s F) (output : output_s F)
    (wa wb : waypoint_s F)
    (hlen : s.num_waypoints_ = s.waypoints_.length) (hN : 2 ≤ s.num_waypoints_)
    (h0 : 0 ≤ s.idx_a_) (h1 : s.idx_a_ < s.num_waypoints_)
    (htemp : ¬ (s.temp_waypoint_ = true ∧ s.idx_a_ = 1))
    (hwa : s.wp s.idx_a_ = some wa)
    (hwb : s.wp ((s.idx_a_ + 1) % s.num_waypoints_) = some wb) :
    ∃ s1 o1, manage_line s input output = some (s1, o1) ∧
      ((o1.flag = true ∧ o1.q = (wb.w.sub wa.w).normalized)
        ∨ (o1.flag = false ∧ o1.rho = s.R_min
            ∧ (o1.lamda = 1 ∨ o1.lamda = -1 ∨ (o1.lamda = s.orbit_dir ∧ s.orbit_dir ≠ 0)))
        ∨ (o1.flag = output.flag ∧ o1.q = output.q ∧ o1.rho = output.rho
            ∧ o1.lamda = output.lamda)) := by
  by_cases hlast : s.orbit_last = true ∧ s.idx_a_ = s.num_waypoints_ - 1
  · obtain ⟨wa2, pl, od, -, hi⟩ :=
      increment_indices_last s input output hlen h0 hlast.2 hlast.1 htemp
    unfold manage_line
    dsimp only
    rw [hi]
    simp only
    rw [if_pos ⟨hlast.1, Or.inl hlast.2⟩]
    exact ⟨_, _, rfl, Or.inr (Or.inl ⟨rfl, rfl, orbit_direction_cases _ _ _ _ _ _⟩)⟩
  · by_cases hsec : s.orbit_last = true ∧ s.idx_a_ = s.num_waypoints_ - 2
    · obtain ⟨pl, hi⟩ := increment_indices_plain s input output hlen hN h0 h1 htemp hlast
      unfold manage_line
      dsimp only
      rw [hi]
      simp only
      rw [if_pos ⟨hsec.1, Or.inr hsec.2⟩]
      exact ⟨_, _, rfl, Or.inr (Or.inr ⟨rfl, rfl, rfl, rfl⟩)⟩
    · have hr := wrap_idx_range s.idx_a_ s.num_waypoints_ (by omega) 2
      obtain ⟨wc, hwc⟩ := wp_some s _ hlen hr.1 hr.2
      have hguard : ¬ (s.orbit_last = true ∧
          (s.idx_a_ = s.num_waypoints_ - 1 ∨ s.idx_a_ = s.num_waypoints_ - 2)) :=
        fun h => h.2.elim (fun a => hlast ⟨h.1, a⟩) (fun b => hsec ⟨h.1, b⟩)
      obtain ⟨s1, -, hm⟩ :=
        manage_line_eq s input output wa wb wc hN h0 h1 htemp hguard hwa hwb hwc
      rw [hm]
      exact ⟨_, _, rfl, Or.inl ⟨rfl, rfl⟩⟩

/-- The primitive written by the state machine of `manage_fillet`: a line along `q_im1` in
`STRAIGHT`, an orbit of radius `R_min` with direction `+1` or `-1` in `TRANSITION` and
`ORBIT`. -/
lemma fillet_switch_output {F : Type} [LinearOrderedField F] [Libm F]
    (s : path_manager_example F) (output : output_s F) (p w_i q_im1 q_i : Vec3 F) (varrho : F) :
    ((fillet_switch s output p w_i q_im1 q_i varrho).2.flag = true
        ∧ (fillet_switch s output p w_i q_im1 q_i varrho).2.q = q_im1)
      ∨ ((fillet_switch s output p w_i q_im1 q_i varrho).2.flag = false
        ∧ (fillet_switch s output p w_i q_im1 q_i varrho).2.rho = s.R_min
        ∧ ((fillet_switch s output p w_i q_im1 q_i varrho).2.lamda = 1
          ∨ (fillet_switch s output p w_i q_im1 q_i varrho).2.lamda = -1)) := by
  have hl : (fillet_orbit_output s.R_min output w_i q_im1 q_i varrho).lamda = 1
      ∨ (fillet_orbit_output s.R_min output w_i q_im1 q_i varrho).lamda = -1 := by
    unfold fillet_orbit_output
    dsimp only
    split_ifs
    · exact Or.inl rfl
    · exact Or.inr rfl
  unfold fillet_switch
  cases hf : s.fil_state_ with
  | STRAIGHT =>
    left
    dsimp only
    split_ifs <;> exact ⟨rfl, rfl⟩
  | TRANSITION =>
    right
    dsimp only
    split_ifs <;> exact ⟨rfl, rfl, hl⟩
  | ORBIT =>
    right
    dsimp only
    split_ifs <;> exact ⟨rfl, rfl, hl⟩

/-- The primitive left by `manage_fillet` on a state with valid indices and no temporary
waypoint to consume: a line along the normalised leg `wb - wa`, an orbit of radius `R_min`, or
the `flag`, `q`, `rho` and `lamda` it was given. -/
lemma manage_fillet_output {F : Type} [LinearOrderedField F] [Libm F]
    (s : path_manager_example F) (input : input_s F) (output : output_s F)
    (wa wb : waypoint_s F)
    (hlen : s.num_waypoints_ = s.waypoints_.length) (hN : 2 ≤ s.num_waypoints_)
    (h0 : 0 ≤ s.idx_a_) (h1 : s.idx_a_ < s.num_waypoints_)
    (htemp : ¬ (s.temp_waypoint_ = true ∧ s.idx_a_ = 1))
    (hwa : s.wp s.idx_a_ = some wa)
    (hwb : s.wp ((s.idx_a_ + 1) % s.num_waypoints_) = some wb) :
    ∃ s1 o1, manage_fillet s input output = some (s1, o1) ∧
      ((o1.flag = true ∧ o1.q = (wb.w.sub wa.w).normalized)
        ∨ (o1.flag = false ∧ o1.rho = s.R_min
            ∧ (o1.lamda = 1 ∨ o1.lamda = -1 ∨ (o1.lamda = s.orbit_dir ∧ s.orbit_dir ≠ 0)))
        ∨ (o1.flag = output.flag ∧ o1.q = output.q ∧ o1.rho = output.rho
            ∧ o1.lamda = output.lamda)) := by
  by_cases h3 : s.num_waypoints_ < 3
  · unfold manage_fillet
    rw [if_pos h3]
    exact manage_line_output s input output wa wb hlen hN h0 h1 htemp hwa hwb
  · by_cases hlast : s.orbit_last = true ∧ s.idx_a_ = s.num_waypoints_ - 1
    · obtain ⟨wa2, pl, od, -, hm⟩ :=
        manage_fillet_last s input output hlen h0 hlast.2 hlast.1 htemp
      rw [hm]
      exact ⟨_, _, rfl, Or.inr (Or.inl ⟨rfl, rfl, orbit_direction_cases _ _ _ _ _ _⟩)⟩
    · have hr := wrap_idx_range s.idx_a_ s.num_waypoints_ (by omega) 2
      obtain ⟨wc, hwc⟩ := wp_some s _ hlen hr.1 hr.2
      by_cases hac : s.R_min > fillet_max_r wa.w wb.w wc.w
      · obtain ⟨pl, hi⟩ := increment_indices_plain s input output hlen hN h0 h1 htemp hlast
        have hwa2 : path_manager_example.wp
          { s with update_marker_ := false, published_ := pl } s.idx_a_ = some wa := hwa
        have hwb2 : path_manager_example.wp
          { s with update_marker_ := false, published_ := pl }
          ((s.idx_a_ + 1) % s.num_waypoints_) = some wb := hwb
        have hwc2 : path_manager_example.wp
          { s with update_marker_ := false, published_ := pl }
          ((s.idx_a_ + 2) % s.num_waypoints_) = some wc := hwc
        obtain ⟨s1, o1, hm, hk⟩ := manage_line_output
          { s with update_marker_ := false, published_ := pl } input
          { output with va_d := wa.va_d, r := wa.w } wa wb hlen
          (show (2 : Int) ≤ s.num_waypoints_ by omega) h0 h1 htemp hwa hwb
        refine ⟨s1, o1, ?_, hk⟩
        unfold manage_fillet
        rw [if_neg h3]
        simp only [hi]
        rw [if_neg hlast]
        simp only [hwa2, hwb2, hwc2]
        rw [if_pos hac]
        exact hm
      · obtain ⟨s1, hp, hm⟩ := manage_fillet_eq_switch s input output wa wb wc (by omega)
          h0 h1 htemp hlast hwa hwb hwc hac
        have e := publish_if_marked_eq _ _ _ hp
        have hR : s1.R_min = s.R_min := by rw [e]
        rw [hm]
        refine ⟨_, _, rfl, ?_⟩
        rcases fillet_switch_output s1 { output with va_d := wa.va_d, r := wa.w }
          ⟨input.pn, input.pe, -input.h⟩ wb.w (wb.w.sub wa.w).normalized
          (wc.w.sub wb.w).normalized (fillet_varrho wa.w wb.w wc.w) with h | ⟨ha, hb, hc⟩
        · exact Or.inl h
        · refine Or.inr (Or.inl ⟨ha, hb.trans hR, ?_⟩)
          rcases hc with hc | hc
          · exact Or.inl hc
          · exact Or.inr (Or.inl hc)

/-- The primitive left by `manage_dubins` on a state with valid indices: the line along the
stored `q1` in `STRAIGHT`, otherwise an arc whose radius and direction are those of the stored
path (in `FIRST`, of the record left by the solver call on waypoints 0 and 1). -/
lemma manage_dubins_output {F : Type} [LinearOrderedField F] [Libm F]
    (s : path_manager_example F) (input : input_s F) (output : output_s F)
    (wa w0 w1 : waypoint_s F)
    (hlen : s.num_waypoints_ = s.waypoints_.length) (hN : 2 ≤ s.num_waypoints_)
    (h0 : 0 ≤ s.idx_a_) (h1 : s.idx_a_ < s.num_waypoints_)
    (hwa : s.wp s.idx_a_ = some wa) (hw0 : s.wp 0 = some w0) (hw1 : s.wp 1 = some w1) :
    ∃ s1 o1, manage_dubins s input output = some (s1, o1) ∧
      ((s.dub_state_ = dubin_state.STRAIGHT ∧ o1.flag = true ∧ o1.q = s.dubinspath_.q1)
        ∨ (s.dub_state_ = dubin_state.FIRST ∧ o1.flag = false
            ∧ o1.rho = (dubinsParameters s.dubinspath_ w0 w1 s.R_min).R
            ∧ o1.lamda = (dubinsParameters s.dubinspath_ w0 w1 s.R_min).lams)
        ∨ ((s.dub_state_ = dubin_state.BEFORE_H1
              ∨ s.dub_state_ = dubin_state.BEFORE_H1_WRONG_SIDE)
            ∧ o1.flag = false ∧ o1.rho = s.dubinspath_.R ∧ o1.lamda = s.dubinspath_.lams)
        ∨ ((s.dub_state_ = dubin_state.BEFORE_H3
              ∨ s.dub_state_ = dubin_state.BEFORE_H3_WRONG_SIDE)
            ∧ o1.flag = false ∧ o1.rho = s.dubinspath_.R ∧ o1.lamda = s.dubinspath_.lame)) := by
  cases hst : s.dub_state_ with
  | FIRST =>
    rw [manage_dubins_first s input output wa w0 w1 hst hwa hw0 hw1]
    exact ⟨_, _, rfl, Or.inr (Or.inl ⟨rfl, rfl, rfl, rfl⟩)⟩
  | BEFORE_H1 =>
    simp only [manage_dubins, hwa, hst]
    split_ifs <;>
      exact ⟨_, _, rfl, Or.inr (Or.inr (Or.inl ⟨Or.inl trivial, rfl, rfl, rfl⟩))⟩
  | BEFORE_H1_WRONG_SIDE =>
    simp only [manage_dubins, hwa, hst]
    split_ifs <;>
      exact ⟨_, _, rfl, Or.inr (Or.inr (Or.inl ⟨Or.inr trivial, rfl, rfl, rfl⟩))⟩
  | STRAIGHT =>
    simp only [manage_dubins, hwa, hst]
    split_ifs <;> exact ⟨_, _, rfl, Or.inl ⟨trivial, rfl, rfl⟩⟩
  | BEFORE_H3 =>
    obtain ⟨na, hna⟩ := wp_some s
      (if s.idx_a_ = s.num_waypoints_ - 1 then 0 else s.idx_a_ + 1) hlen
      (by split_ifs <;> omega) (by split_ifs <;> omega)
    obtain ⟨nb, hnb⟩ := wp_some s
      (if s.idx_a_ = s.num_waypoints_ - 1 then 1
        else if s.idx_a_ = s.num_waypoints_ - 2 then 0 else s.idx_a_ + 1 + 1) hlen
      (by split_ifs <;> omega) (by split_ifs <;> omega)
    simp only [manage_dubins, hwa, hst, hna, hnb]
    split_ifs <;>
      exact ⟨_, _, rfl, Or.inr (Or.inr (Or.inr ⟨Or.inl trivial, rfl, rfl, rfl⟩))⟩
  | BEFORE_H3_WRONG_SIDE =>
    simp only [manage_dubins, hwa, hst]
    split_ifs <;>
      exact ⟨_, _, rfl, Or.inr (Or.inr (Or.inr ⟨Or.inr trivial, rfl, rfl, rfl⟩))⟩

/-! ## Line primitive: the emitted direction -/

lemma vec3_sub_ne_zero (a b : Vec3 ℝ) (h : a ≠ b) : a.sub b ≠ ⟨0, 0, 0⟩ := by
  intro e
  apply h
  simp only [Vec3.sub, Vec3.mk.injEq] at e
  exact vec3_ext _ _ (by linarith [e.1]) (by linarith [e.2.1]) (by linarith [e.2.2])

lemma vec3_sub_self (a : Vec3 ℝ) : a.sub a = ⟨0, 0, 0⟩ := by
  simp [Vec3.sub]

/-- C19, at the failing input: with two coincident waypoints (`N = 2`, no heading constraint)
the dispatcher tick leaves `flag = LINE` with the direction `q = (0, 0, 0)`, whose norm is not
`1`. -/
theorem manage_line_zero_direction :
    ∃ s1 o1, manage state_duplicate 0 ⟨10, 0, 50, 0⟩ out_zero = some (s1, o1)
      ∧ 2 ≤ state_duplicate.num_waypoints_
      ∧ o1.flag = true ∧ o1.q = ⟨0, 0, 0⟩ ∧ o1.q.norm ≠ 1 := by
  have hw : state_duplicate.wp 0 = some (mkwp 0 0 (-50) 0 false) := by
    simp [state_duplicate, path_manager_example.wp]
  have hw1 : state_duplicate.wp 1 = some (mkwp 0 0 (-50) 0 false) := by
    simp [state_duplicate, path_manager_example.wp]
  have hd := manage_dispatch state_duplicate 0 ⟨10, 0, 50, 0⟩ out_zero _
    (by simp [state_duplicate]) (show state_duplicate.wp state_duplicate.idx_a_ = _ from hw)
  rw [if_neg (by simp [mkwp])] at hd
  obtain ⟨s1, -, hm⟩ := manage_line_eq state_duplicate ⟨10, 0, 50, 0⟩ out_zero
    (mkwp 0 0 (-50) 0 false) (mkwp 0 0 (-50) 0 false) (mkwp 0 0 (-50) 0 false)
    (by simp [state_duplicate]) (by simp [state_duplicate]) (by simp [state_duplicate])
    (by simp [state_duplicate]) (by simp [state_duplicate])
    (by simpa [state_duplicate] using hw) (by simpa [state_duplicate] using hw1)
    (by simpa [state_duplicate] using hw)
  have hf : manage_fillet state_duplicate ⟨10, 0, 50, 0⟩ out_zero
      = manage_line state_duplicate ⟨10, 0, 50, 0⟩ out_zero := by
    unfold manage_fillet
    rw [if_pos (by simp [state_duplicate])]
  rw [hf, hm] at hd
  have hq : ((mkwp 0 0 (-50) 0 false).w.sub (mkwp 0 0 (-50) 0 false).w).normalized
      = ⟨0, 0, 0⟩ := by
    rw [vec3_sub_self, normalized_zero]
  refine ⟨_, _, hd, by simp [state_duplicate], rfl, hq, ?_⟩
  show ((mkwp 0 0 (-50) 0 false).w.sub (mkwp 0 0 (-50) 0 false).w).normalized.norm ≠ 1
  rw [hq]
  simp [Vec3.norm, Vec3.squaredNorm]

/-! ## Orbit primitive: radius and direction -/

/-- For an accepted pair the solver stores the radius it was given and directions `±1`. -/
lemma dubinsParameters_arc_fields {F : Type} [LinearOrderedField F] [Libm F]
    (d : dubinspath_s F) (sn en : waypoint_s F) (R : F)
    (hacc : ¬ (dubins_ell sn en < 2 * R)) :
    (dubinsParameters d sn en R).R = R
      ∧ ((dubinsParameters d sn en R).lams = 1 ∨ (dubinsParameters d sn en R).lams = -1)
      ∧ ((dubinsParameters d sn en R).lame = 1 ∨ (dubinsParameters d sn en R).lame = -1) := by
  rcases dubinsParameters_fields d sn en R hacc with ⟨-, h⟩ | ⟨-, h⟩ | ⟨-, h⟩ | ⟨-, h⟩
  · exact ⟨by rw [h], Or.inl (by rw [h]), Or.inl (by rw [h])⟩
  · exact ⟨by rw [h], Or.inl (by rw [h]), Or.inr (by rw [h])⟩
  · exact ⟨by rw [h], Or.inr (by rw [h]), Or.inl (by rw [h])⟩
  · exact ⟨by rw [h], Or.inr (by rw [h]), Or.inr (by rw [h])⟩

/-- C20, at the failing input: with two heading-constrained waypoints 1 apart, `R_min = 50`,
the Dubins manager in `FIRST` and a stored record that no solver call has written (all zero),
the dispatcher tick leaves `flag = ORBIT` with `rho = 0 < R_min` and `lamda = 0`. -/
theorem manage_dubins_first_orbit_out_of_bounds :
    ∃ s1 o1, manage state_first_blank 0 ⟨0, 0, 50, 0⟩ out_zero = some (s1, o1)
      ∧ state_first_blank.dub_state_ = dubin_state.FIRST
      ∧ o1.flag = false ∧ o1.rho < state_first_blank.R_min
      ∧ o1.lamda ≠ 1 ∧ o1.lamda ≠ -1 := by
  have hw0 : state_first_blank.wp 0 = some wp_near_s := by
    simp [path_manager_example.wp, state_first_blank]
  have hw1 : state_first_blank.wp 1 = some wp_near_e := by
    simp [path_manager_example.wp, state_first_blank]
  have hd := manage_dispatch state_first_blank 0 ⟨0, 0, 50, 0⟩ out_zero wp_near_s
    (by simp [state_first_blank]) hw0
  rw [if_pos (by simp [wp_near_s, mkwp])] at hd
  have hm := manage_dubins_first state_first_blank ⟨0, 0, 50, 0⟩ out_zero wp_near_s
    wp_near_s wp_near_e rfl hw0 hw0 hw1
  have hrej : dubinsParameters state_first_blank.dubinspath_ wp_near_s wp_near_e
      state_first_blank.R_min = path_blank :=
    dubinsParameters_rejected _ _ _ _ (by
      rw [dubins_ell_near]
      simp only [state_first_blank]
      norm_num)
  rw [hrej] at hm
  rw [hm] at hd
  refine ⟨_, _, hd, rfl, rfl, ?_, ?_, ?_⟩
  · simp [dubins_start_orbit, path_blank, state_first_blank]
  · simp [dubins_start_orbit, path_blank]
  · simp [dubins_start_orbit, path_blank]

/-! ## Angle normalisation -/

lemma mo_lt_two_pi (x : ℝ) : mo x < 2 * Real.pi := by
  have hpi := Real.pi_pos
  rw [mo_eq_floor]
  have h := Int.lt_floor_add_one (x / (2 * Real.pi))
  rw [div_lt_iff₀ (by positivity)] at h
  linarith

/-- With exact arithmetic, for every real `x`, `0 ≤ mo x < 2π` and `x - mo x` is an integer
multiple of `2π`; hence `mo (mo x) = mo x` and `mo (x + 2π) = mo x`. The single-precision
rounding of the source is not part of this statement. -/
lemma mo_exact_range_and_period (x : ℝ) :
    0 ≤ mo x ∧ mo x < 2 * Real.pi
      ∧ (∃ k : ℤ, x - mo x = (k : ℝ) * (2 * Real.pi))
      ∧ mo (mo x) = mo x ∧ mo (x + 2 * Real.pi) = mo x := by
  have h0 := mo_nonneg x
  have h1 := mo_lt_two_pi x
  have hk : x = mo x + 2 * Real.pi * ((⌊x / (2 * Real.pi)⌋ : ℤ) : ℝ) := by
    rw [mo_eq_floor]
    ring
  refine ⟨h0, h1, ⟨⌊x / (2 * Real.pi)⌋, ?_⟩, ?_, ?_⟩
  · rw [mo_eq_floor]
    ring
  · exact mo_eq_of (mo x) (mo x) 0 h0 h1 (by simp)
  · refine mo_eq_of (x + 2 * Real.pi) (mo x) (⌊x / (2 * Real.pi)⌋ + 1) h0 h1 ?_
    push_cast
    linarith

/-! ## Dubins solver: feasibility of the cross tangents -/

lemma dubins_L2_branches {F : Type} [LinearOrderedField F] [Libm F]
    (crs cle : Vec3 F) (chis chie R : F) :
    ((cle.sub crs).norm < 2 * R → dubins_L2 crs cle chis chie R = 9999)
      ∧ (2 * R ≤ (cle.sub crs).norm →
          dubins_L2 crs cle chis chie R = dubins_rsl_length crs cle chis chie R) := by
  constructor
  · intro h
    unfold dubins_L2
    dsimp only
    rw [if_pos h]
  · intro h
    unfold dubins_L2 dubins_rsl_length
    dsimp only
    rw [if_neg (not_lt.2 h)]

lemma dubins_L3_branches {F : Type} [LinearOrderedField F] [Libm F]
    (cls cre : Vec3 F) (chis chie R : F) :
    ((cre.sub cls).norm < 2 * R → dubins_L3 cls cre chis chie R = 9999)
      ∧ (2 * R ≤ (cre.sub cls).norm →
          dubins_L3 cls cre chis chie R = dubins_lsr_length cls cre chis chie R) := by
  constructor
  · intro h
    unfold dubins_L3
    dsimp only
    rw [if_pos h]
  · intro h
    unfold dubins_L3 dubins_lsr_length
    dsimp only
    rw [if_neg (not_lt.2 h)]

/-! ## Fillet geometry: tangency of the emitted circle -/

/-- Half-angle facts for `varrho = arccos (-d)` with `-1 < d < 1`. -/
lemma half_angle_arccos (d : ℝ) (h1 : -1 < d) (h2 : d < 1) :
    0 < Real.sin (Real.arccos (-d) / 2) ∧ 0 < Real.cos (Real.arccos (-d) / 2)
      ∧ Real.cos (Real.arccos (-d) / 2) ^ 2 = (1 - d) / 2
      ∧ Real.sin (Real.arccos (-d) / 2) ^ 2 = (1 + d) / 2 := by
  have hpos : 0 < Real.arccos (-d) := Real.arccos_pos.2 (by linarith)
  have hlt : Real.arccos (-d) < Real.pi := by
    refine lt_of_le_of_ne (Real.arccos_le_pi _) (fun h => ?_)
    have := Real.arccos_eq_pi.1 h
    linarith
  have hcos : Real.cos (Real.arccos (-d)) = -d :=
    Real.cos_arccos (by linarith) (by linarith)
  have hc2 : Real.cos (Real.arccos (-d) / 2) ^ 2 = (1 - d) / 2 := by
    rw [Real.cos_sq, show 2 * (Real.arccos (-d) / 2) = Real.arccos (-d) by ring, hcos]
    ring
  have hs2 : Real.sin (Real.arccos (-d) / 2) ^ 2 = (1 + d) / 2 := by
    have := Real.sin_sq_add_cos_sq (Real.arccos (-d) / 2)
    linarith
  refine ⟨Real.sin_pos_of_pos_of_lt_pi (by linarith) (by linarith),
    Real.cos_pos_of_mem_Ioo ⟨by linarith, by linarith⟩, hc2, hs2⟩

/-- Two unit vectors that are neither equal nor opposite have a dot product strictly between
`-1` and `1`. -/
lemma dot_unit_strict (a b : Vec3 ℝ) (ha : a.squaredNorm = 1) (hb : b.squaredNorm = 1)
    (hne : a ≠ b) (hopp : a.add b ≠ ⟨0, 0, 0⟩) : -1 < a.dot b ∧ a.dot b < 1 := by
  have e1 : (a.sub b).squaredNorm = 2 - 2 * a.dot b := by
    unfold Vec3.squaredNorm at ha hb ⊢
    simp only [Vec3.sub, Vec3.dot]
    linear_combination ha + hb
  have e2 : (a.add b).squaredNorm = 2 + 2 * a.dot b := by
    unfold Vec3.squaredNorm at ha hb ⊢
    simp only [Vec3.add, Vec3.dot]
    linear_combination ha + hb
  have p1 : 0 < (a.sub b).squaredNorm := by
    rcases (squaredNorm_nonneg (a.sub b)).lt_or_eq with h | h
    · exact h
    · exact absurd ((squaredNorm_eq_zero _).1 h.symm) (vec3_sub_ne_zero a b hne)
  have p2 : 0 < (a.add b).squaredNorm := by
    rcases (squaredNorm_nonneg (a.add b)).lt_or_eq with h | h
    · exact h
    · exact absurd ((squaredNorm_eq_zero _).1 h.symm) hopp
  constructor <;> linarith
/-- The algebra behind the tangency of the fillet circle, with `C`, `S` the cosine and sine
of half the turn angle. -/
lemma tangency_algebra (a b w : Vec3 ℝ) (R C S : ℝ)
    (ha : a.squaredNorm = 1) (hb : b.squaredNorm = 1) (hC : 0 < C) (hS : 0 < S)
    (hC2 : C ^ 2 = (1 - a.dot b) / 2) (hS2 : S ^ 2 = (1 + a.dot b) / 2) :
    ((w.sub (a.scale (R / (S / C)))).sub
        (w.sub (((a.sub b).divs (2 * C)).scale (R / S)))).dot a = 0
      ∧ ((w.sub (a.scale (R / (S / C)))).sub
        (w.sub (((a.sub b).divs (2 * C)).scale (R / S)))).squaredNorm = R * R
      ∧ ((w.add (b.scale (R / (S / C)))).sub
        (w.sub (((a.sub b).divs (2 * C)).scale (R / S)))).dot b = 0
      ∧ ((w.add (b.scale (R / (S / C)))).sub
        (w.sub (((a.sub b).divs (2 * C)).scale (R / S)))).squaredNorm = R * R := by
  have hC0 : C ≠ 0 := hC.ne'
  have hS0 : S ≠ 0 := hS.ne'
  unfold Vec3.squaredNorm at ha hb
  simp only [Vec3.dot] at hC2 hS2
  simp only [Vec3.sub, Vec3.add, Vec3.scale, Vec3.divs, Vec3.dot, Vec3.squaredNorm]
  refine ⟨?_, ?_, ?_, ?_⟩
  · field_simp
    linear_combination S * R * (1 - 2 * C ^ 2) * ha + (-2 * S * R) * hC2
  · field_simp
    linear_combination S ^ 2 * R ^ 2 * (1 - 2 * C ^ 2) ^ 2 * ha + S ^ 2 * R ^ 2 * hb
      + (S ^ 2 * R ^ 2 * (-4 * C ^ 2)) * hS2 + S ^ 2 * R ^ 2 * (4 * C ^ 2 - 4) * hC2
  · field_simp
    linear_combination S * R * (2 * C ^ 2 - 1) * hb + (2 * S * R) * hC2
  · field_simp
    linear_combination S ^ 2 * R ^ 2 * (1 - 2 * C ^ 2) ^ 2 * hb + S ^ 2 * R ^ 2 * ha
      + (S ^ 2 * R ^ 2 * (-4 * C ^ 2)) * hS2 + S ^ 2 * R ^ 2 * (4 * C ^ 2 - 4) * hC2

/-- The switching tests of `fillet_switch` are half-plane tests at `fillet_z_in` and
`fillet_z_out`, and the orbit cases emit the centre of `fillet_orbit_output`. -/
lemma fillet_switch_points {F : Type} [LinearOrderedField F] [Libm F]
    (s : path_manager_example F) (output : output_s F) (p w_i q_im1 q_i : Vec3 F) (varrho : F) :
    (s.fil_state_ = fillet_state.STRAIGHT → ¬ q_i.eqv q_im1 →
        (fillet_switch s output p w_i q_im1 q_i varrho).1.fil_state_
          = if (p.sub (fillet_z_in s.R_min w_i q_im1 varrho)).dot q_im1 > 0
            then fillet_state.TRANSITION else fillet_state.STRAIGHT)
      ∧ (s.fil_state_ = fillet_state.ORBIT →
        (fillet_switch s output p w_i q_im1 q_i varrho).1.fil_state_
          = if (p.sub (fillet_z_out s.R_min w_i q_i varrho)).dot q_i > 0
            then fillet_state.STRAIGHT else fillet_state.ORBIT)
      ∧ (s.fil_state_ ≠ fillet_state.STRAIGHT →
        (fillet_switch s output p w_i q_im1 q_i varrho).2.c
          = (fillet_orbit_output s.R_min output w_i q_im1 q_i varrho).c) := by
  refine ⟨fun hs he => ?_, fun hs => ?_, fun hs => ?_⟩
  · unfold fillet_switch fillet_z_in
    simp only [hs]
    split_ifs <;> simp_all
  · unfold fillet_switch fillet_z_out
    simp only [hs]
    split_ifs <;> simp_all
  · unfold fillet_switch
    cases hf : s.fil_state_ with
    | STRAIGHT => exact absurd hf hs
    | TRANSITION => dsimp only; split_ifs <;> rfl
    | ORBIT => dsimp only; split_ifs <;> rfl

/-- C23: for unit leg directions `q_{i-1}`, `q_i` that are neither equal nor opposite,
`varrho = arccos(-q_{i-1}·q_i)` and `R_min > 0`, the centre `c` emitted in `TRANSITION` and
`ORBIT` is at distance `R_min` from the point `z_in` tested in `STRAIGHT` and from the point
`z_out` tested in `TRANSITION` and `ORBIT`, with `(z_in - c)·q_{i-1} = 0` and
`(z_out - c)·q_i = 0`; `z_in`, `z_out` and `c` are the points the state machine
`fillet_switch` uses. -/
theorem fillet_arc_tangency
    (s : path_manager_example ℝ) (output : output_s ℝ) (p w_i q_im1 q_i : Vec3 ℝ) (varrho : ℝ)
    (ha : q_im1.squaredNorm = 1) (hb : q_i.squaredNorm = 1)
    (hne : q_im1 ≠ q_i) (hopp : q_im1.add q_i ≠ ⟨0, 0, 0⟩)
    (hv : varrho = Libm.acosf (-(q_im1.dot q_i))) (hR : 0 < s.R_min) :
    ((fillet_z_in s.R_min w_i q_im1 varrho).sub
          (fillet_orbit_output s.R_min output w_i q_im1 q_i varrho).c).norm = s.R_min
      ∧ ((fillet_z_out s.R_min w_i q_i varrho).sub
          (fillet_orbit_output s.R_min output w_i q_im1 q_i varrho).c).norm = s.R_min
      ∧ ((fillet_z_in s.R_min w_i q_im1 varrho).sub
          (fillet_orbit_output s.R_min output w_i q_im1 q_i varrho).c).dot q_im1 = 0
      ∧ ((fillet_z_out s.R_min w_i q_i varrho).sub
          (fillet_orbit_output s.R_min output w_i q_im1 q_i varrho).c).dot q_i = 0
      ∧ (s.fil_state_ = fillet_state.STRAIGHT → ¬ q_i.eqv q_im1 →
          (fillet_switch s output p w_i q_im1 q_i varrho).1.fil_state_
            = if (p.sub (fillet_z_in s.R_min w_i q_im1 varrho)).dot q_im1 > 0
              then fillet_state.TRANSITION else fillet_state.STRAIGHT)
      ∧ (s.fil_state_ = fillet_state.ORBIT →
          (fillet_switch s output p w_i q_im1 q_i varrho).1.fil_state_
            = if (p.sub (fillet_z_out s.R_min w_i q_i varrho)).dot q_i > 0
              then fillet_state.STRAIGHT else fillet_state.ORBIT)
      ∧ (s.fil_state_ ≠ fillet_state.STRAIGHT →
          (fillet_switch s output p w_i q_im1 q_i varrho).2.c
            = (fillet_orbit_output s.R_min output w_i q_im1 q_i varrho).c) := by
  obtain ⟨d1, d2⟩ := dot_unit_strict q_im1 q_i ha hb hne hopp
  obtain ⟨hS, hC, hC2, hS2⟩ := half_angle_arccos (q_im1.dot q_i) d1 d2
  have hsq : (q_im1.sub q_i).squaredNorm
      = (2 * Real.cos (Real.arccos (-(q_im1.dot q_i)) / 2))
        * (2 * Real.cos (Real.arccos (-(q_im1.dot q_i)) / 2)) := by
    have e1 : (q_im1.sub q_i).squaredNorm = 2 - 2 * q_im1.dot q_i := by
      unfold Vec3.squaredNorm at ha hb ⊢
      simp only [Vec3.sub, Vec3.dot]
      linear_combination ha + hb
    rw [e1]
    linear_combination (-4 : ℝ) * hC2
  have hnorm : (q_im1.sub q_i).normalized
      = (q_im1.sub q_i).divs (2 * Real.cos (Real.arccos (-(q_im1.dot q_i)) / 2)) := by
    unfold Vec3.normalized
    rw [if_pos (by rw [hsq]; positivity)]
    simp only [sqrtf_real]
    rw [hsq, Real.sqrt_mul_self (by positivity)]
  obtain ⟨t1, t2, t3, t4⟩ := tangency_algebra q_im1 q_i w_i s.R_min
    (Real.cos (Real.arccos (-(q_im1.dot q_i)) / 2))
    (Real.sin (Real.arccos (-(q_im1.dot q_i)) / 2)) ha hb hC hS hC2 hS2
  have ec : (fillet_orbit_output s.R_min output w_i q_im1 q_i varrho).c
      = w_i.sub (((q_im1.sub q_i).divs
          (2 * Real.cos (Real.arccos (-(q_im1.dot q_i)) / 2))).scale
          (s.R_min / Real.sin (Real.arccos (-(q_im1.dot q_i)) / 2))) := by
    unfold fillet_orbit_output
    simp only [hv, hnorm, sinf_real, acosf_real]
  have ei : fillet_z_in s.R_min w_i q_im1 varrho
      = w_i.sub (q_im1.scale (s.R_min / (Real.sin (Real.arccos (-(q_im1.dot q_i)) / 2)
          / Real.cos (Real.arccos (-(q_im1.dot q_i)) / 2)))) := by
    unfold fillet_z_in
    simp only [hv, tanf_real, acosf_real, Real.tan_eq_sin_div_cos]
  have eo : fillet_z_out s.R_min w_i q_i varrho
      = w_i.add (q_i.scale (s.R_min / (Real.sin (Real.arccos (-(q_im1.dot q_i)) / 2)
          / Real.cos (Real.arccos (-(q_im1.dot q_i)) / 2)))) := by
    unfold fillet_z_out
    simp only [hv, tanf_real, acosf_real, Real.tan_eq_sin_div_cos]
  obtain ⟨l1, l2, l3⟩ := fillet_switch_points s output p w_i q_im1 q_i varrho
  refine ⟨?_, ?_, ?_, ?_, l1, l2, l3⟩
  · rw [ec, ei]
    unfold Vec3.norm
    simp only [sqrtf_real]
    rw [t2, Real.sqrt_mul_self hR.le]
  · rw [ec, eo]
    unfold Vec3.norm
    simp only [sqrtf_real]
    rw [t4, Real.sqrt_mul_self hR.le]
  · rw [ec, ei]
    exact t1
  · rw [ec, eo]
    exact t3
/-- C23, witness: the hypotheses of `fillet_arc_tangency` hold for the right-angle corner at
`(100, 0, -50)` of `state_right_angle`, with `q_{i-1} = (1, 0, 0)`, `q_i = (0, 1, 0)` and
`R_min = 25`. -/
theorem fillet_arc_tangency_witness :
    (⟨1, 0, 0⟩ : Vec3 ℝ).squaredNorm = 1 ∧ (⟨0, 1, 0⟩ : Vec3 ℝ).squaredNorm = 1
      ∧ 0 < state_right_angle.R_min
      ∧ ((fillet_z_in state_right_angle.R_min ⟨100, 0, -50⟩ ⟨1, 0, 0⟩
            (Libm.acosf (-(Vec3.dot (⟨1, 0, 0⟩ : Vec3 ℝ) ⟨0, 1, 0⟩)))).sub
          (fillet_orbit_output state_right_angle.R_min out_zero ⟨100, 0, -50⟩ ⟨1, 0, 0⟩
            ⟨0, 1, 0⟩ (Libm.acosf (-(Vec3.dot (⟨1, 0, 0⟩ : Vec3 ℝ) ⟨0, 1, 0⟩)))).c).norm
          = state_right_angle.R_min :=
  ⟨by simp [Vec3.squaredNorm], by simp [Vec3.squaredNorm], by simp [state_right_angle],
    (fillet_arc_tangency state_right_angle out_zero ⟨99, 0, -50⟩ ⟨100, 0, -50⟩ ⟨1, 0, 0⟩
      ⟨0, 1, 0⟩ (Libm.acosf (-(Vec3.dot (⟨1, 0, 0⟩ : Vec3 ℝ) ⟨0, 1, 0⟩)))
      (by simp [Vec3.squaredNorm]) (by simp [Vec3.squaredNorm]) (by simp)
      (by simp [Vec3.add]) rfl (by simp [state_right_angle])).1⟩

/-! ## Dubins solver: tangency of the stored points -/

lemma advance_idx_a_eq {F : Type} [LinearOrderedField F] [Libm F]
    (s : path_manager_example F) (h0 : 0 ≤ s.idx_a_) (h1 : s.idx_a_ < s.num_waypoints_) :
    advance_idx_a s = (s.idx_a_ + 1) % s.num_waypoints_ := by
  unfold advance_idx_a
  exact dubins_next_a s h0 h1

/-- The index after `manage_line`. -/
lemma manage_line_index {F : Type} [LinearOrderedField F] [Libm F]
    (s : path_manager_example F) (input : input_s F) (output : output_s F)
    (hlen : s.num_waypoints_ = s.waypoints_.length) (hN : 2 ≤ s.num_waypoints_)
    (h0 : 0 ≤ s.idx_a_) (h1 : s.idx_a_ < s.num_waypoints_)
    (htemp : ¬ (s.temp_waypoint_ = true ∧ s.idx_a_ = 1)) :
    ∃ s1 o1, manage_line s input output = some (s1, o1) ∧ idx_step s s1 := by
  by_cases hlast : s.orbit_last = true ∧ s.idx_a_ = s.num_waypoints_ - 1
  · obtain ⟨wa2, pl, od, -, hi⟩ :=
      increment_indices_last s input output hlen h0 hlast.2 hlast.1 htemp
    unfold manage_line
    dsimp only
    rw [hi]
    simp only
    rw [if_pos ⟨hlast.1, Or.inl hlast.2⟩]
    exact ⟨_, _, rfl, rfl, Or.inl rfl⟩
  · by_cases hsec : s.orbit_last = true ∧ s.idx_a_ = s.num_waypoints_ - 2
    · obtain ⟨pl, hi⟩ := increment_indices_plain s input output hlen hN h0 h1 htemp hlast
      unfold manage_line
      dsimp only
      rw [hi]
      simp only
      rw [if_pos ⟨hsec.1, Or.inr hsec.2⟩]
      exact ⟨_, _, rfl, rfl, Or.inl rfl⟩
    · have hr1 := wrap_idx_range s.idx_a_ s.num_waypoints_ (by omega) 1
      have hr2 := wrap_idx_range s.idx_a_ s.num_waypoints_ (by omega) 2
      obtain ⟨wa, hwa⟩ := wp_some s _ hlen h0 h1
      obtain ⟨wb, hwb⟩ := wp_some s _ hlen hr1.1 hr1.2
      obtain ⟨wc, hwc⟩ := wp_some s _ hlen hr2.1 hr2.2
      have hguard : ¬ (s.orbit_last = true ∧
          (s.idx_a_ = s.num_waypoints_ - 1 ∨ s.idx_a_ = s.num_waypoints_ - 2)) :=
        fun h => h.2.elim (fun a => hlast ⟨h.1, a⟩) (fun b => hsec ⟨h.1, b⟩)
      obtain ⟨s1, hp, hm⟩ :=
        manage_line_eq s input output wa wb wc hN h0 h1 htemp hguard hwa hwb hwc
      have e := publish_if_marked_eq _ _ _ hp
      have eN : s1.num_waypoints_ = s.num_waypoints_ := by rw [e]
      have eA : s1.idx_a_ = s.idx_a_ := by rw [e]
      have ea := advance_idx_a_eq s1 (by rw [eA]; exact h0) (by rw [eA, eN]; exact h1)
      rw [eA, eN] at ea
      have key : ∀ (c : Prop) [Decidable c], idx_step s
          (if c then { s1 with idx_a_ := advance_idx_a s1, update_marker_ := true }
            else s1) := by
        intro c _
        split_ifs
        · exact ⟨eN, Or.inr ea⟩
        · exact ⟨eN, Or.inl eA⟩
      rw [hm]
      exact ⟨_, _, rfl, key _⟩

/-- The index after the state machine of `manage_fillet`. -/
lemma fillet_switch_index {F : Type} [LinearOrderedField F] [Libm F]
    (s : path_manager_example F) (output : output_s F) (p w_i q_im1 q_i : Vec3 F) (varrho : F)
    (h0 : 0 ≤ s.idx_a_) (h1 : s.idx_a_ < s.num_waypoints_) :
    idx_step s (fillet_switch s output p w_i q_im1 q_i varrho).1 := by
  have ea := advance_idx_a_eq s h0 h1
  unfold idx_step fillet_switch
  cases hf : s.fil_state_ with
  | STRAIGHT =>
    dsimp only
    split_ifs
    · exact ⟨rfl, Or.inr ea⟩
    · exact ⟨rfl, Or.inl rfl⟩
    · exact ⟨rfl, Or.inl rfl⟩
  | TRANSITION =>
    dsimp only
    split_ifs with hx
    · refine ⟨rfl, Or.inr ?_⟩
      show s.idx_a_ + 1 = (s.idx_a_ + 1) % s.num_waypoints_
      exact (Int.emod_eq_of_lt (by omega) (by omega)).symm
    · exact ⟨rfl, Or.inl rfl⟩
    · exact ⟨rfl, Or.inl rfl⟩
  | ORBIT =>
    dsimp only
    split_ifs
    · exact ⟨rfl, Or.inr ea⟩
    · exact ⟨rfl, Or.inl rfl⟩
/-- The index after `manage_fillet`. -/
lemma manage_fillet_index {F : Type} [LinearOrderedField F] [Libm F]
    (s : path_manager_example F) (input : input_s F) (output : output_s F)
    (hlen : s.num_waypoints_ = s.waypoints_.length) (hN : 2 ≤ s.num_waypoints_)
    (h0 : 0 ≤ s.idx_a_) (h1 : s.idx_a_ < s.num_waypoints_)
    (htemp : ¬ (s.temp_waypoint_ = true ∧ s.idx_a_ = 1)) :
    ∃ s1 o1, manage_fillet s input output = some (s1, o1) ∧ idx_step s s1 := by
  by_cases h3 : s.num_waypoints_ < 3
  · unfold manage_fillet
    rw [if_pos h3]
    exact manage_line_index s input output hlen hN h0 h1 htemp
  · by_cases hlast : s.orbit_last = true ∧ s.idx_a_ = s.num_waypoints_ - 1
    · obtain ⟨wa2, pl, od, -, hm⟩ :=
        manage_fillet_last s input output hlen h0 hlast.2 hlast.1 htemp
      rw [hm]
      exact ⟨_, _, rfl, rfl, Or.inl rfl⟩
    · have hr1 := wrap_idx_range s.idx_a_ s.num_waypoints_ (by omega) 1
      have hr2 := wrap_idx_range s.idx_a_ s.num_waypoints_ (by omega) 2
      obtain ⟨wa, hwa⟩ := wp_some s _ hlen h0 h1
      obtain ⟨wb, hwb⟩ := wp_some s _ hlen hr1.1 hr1.2
      obtain ⟨wc, hwc⟩ := wp_some s _ hlen hr2.1 hr2.2
      by_cases hac : s.R_min > fillet_max_r wa.w wb.w wc.w
      · obtain ⟨pl, hi⟩ := increment_indices_plain s input output hlen hN h0 h1 htemp hlast
        have hwa2 : path_manager_example.wp
          { s with update_marker_ := false, published_ := pl } s.idx_a_ = some wa := hwa
        have hwb2 : path_manager_example.wp
          { s with update_marker_ := false, published_ := pl }
          ((s.idx_a_ + 1) % s.num_waypoints_) = some wb := hwb
        have hwc2 : path_manager_example.wp
          { s with update_marker_ := false, published_ := pl }
          ((s.idx_a_ + 2) % s.num_waypoints_) = some wc := hwc
        obtain ⟨s1, o1, hm, hk⟩ := manage_line_index
          { s with update_marker_ := false, published_ := pl } input
          { output with va_d := wa.va_d, r := wa.w } hlen
          (show (2 : Int) ≤ s.num_waypoints_ by omega) h0 h1 htemp
        refine ⟨s1, o1, ?_, hk⟩
        unfold manage_fillet
        rw [if_neg h3]
        simp only [hi]
        rw [if_neg hlast]
        simp only [hwa2, hwb2, hwc2]
        rw [if_pos hac]
        exact hm
      · obtain ⟨s1, hp, hm⟩ := manage_fillet_eq_switch s input output wa wb wc (by omega)
          h0 h1 htemp hlast hwa hwb hwc hac
        have e := publish_if_marked_eq _ _ _ hp
        have eN : s1.num_waypoints_ = s.num_waypoints_ := by rw [e]
        have eA : s1.idx_a_ = s.idx_a_ := by rw [e]
        have hk := fillet_switch_index s1 { output with va_d := wa.va_d, r := wa.w }
          ⟨input.pn, input.pe, -input.h⟩ wb.w (wb.w.sub wa.w).normalized
          (wc.w.sub wb.w).normalized (fillet_varrho wa.w wb.w wc.w)
          (by rw [eA]; exact h0) (by rw [eA, eN]; exact h1)
        unfold idx_step at hk
        rw [eA, eN] at hk
        rw [hm]
        exact ⟨_, _, rfl, hk⟩

/-- The index after `manage_dubins`. -/
lemma manage_dubins_index {F : Type} [LinearOrderedField F] [Libm F]
    (s : path_manager_example F) (input : input_s F) (output : output_s F)
    (hlen : s.num_waypoints_ = s.waypoints_.length) (hN : 2 ≤ s.num_waypoints_)
    (h0 : 0 ≤ s.idx_a_) (h1 : s.idx_a_ < s.num_waypoints_) :
    ∃ s1 o1, manage_dubins s input output = some (s1, o1) ∧ idx_step s s1 := by
  obtain ⟨wa, hwa⟩ := wp_some s _ hlen h0 h1
  cases hst : s.dub_state_ with
  | FIRST =>
    obtain ⟨w0, hw0⟩ := wp_some s 0 hlen (le_refl 0) (by omega)
    obtain ⟨w1, hw1⟩ := wp_some s 1 hlen (by omega) (by omega)
    rw [manage_dubins_first s input output wa w0 w1 hst hwa hw0 hw1]
    exact ⟨_, _, rfl, rfl, Or.inl rfl⟩
  | BEFORE_H1 =>
    simp only [manage_dubins, hwa, hst]
    split_ifs <;> exact ⟨_, _, rfl, rfl, Or.inl rfl⟩
  | BEFORE_H1_WRONG_SIDE =>
    simp only [manage_dubins, hwa, hst]
    split_ifs <;> exact ⟨_, _, rfl, rfl, Or.inl rfl⟩
  | STRAIGHT =>
    simp only [manage_dubins, hwa, hst]
    split_ifs <;> exact ⟨_, _, rfl, rfl, Or.inl rfl⟩
  | BEFORE_H3 =>
    by_cases hcross : (Vec3.sub ⟨input.pn, input.pe, -input.h⟩ s.dubinspath_.w3).dot
        s.dubinspath_.q3 ≥ 0
    · have hr1 := wrap_idx_range s.idx_a_ s.num_waypoints_ (by omega) 1
      obtain ⟨na, hna⟩ := wp_some s _ hlen hr1.1 hr1.2
      have hr2 := wrap_idx_range ((s.idx_a_ + 1) % s.num_waypoints_) s.num_waypoints_
        (by omega) 1
      obtain ⟨nb, hnb⟩ := wp_some s _ hlen hr2.1 hr2.2
      rw [manage_dubins_advance s input output wa na nb hN h0 h1 hst hwa hcross hna hnb]
      exact ⟨_, _, rfl, rfl, Or.inr rfl⟩
    · simp only [manage_dubins, hwa, hst]
      rw [if_neg hcross]
      exact ⟨_, _, rfl, rfl, Or.inl rfl⟩
  | BEFORE_H3_WRONG_SIDE =>
    simp only [manage_dubins, hwa, hst]
    split_ifs <;> exact ⟨_, _, rfl, rfl, Or.inl rfl⟩

/-- C25: for `N ≥ 2` (the list length) with no temporary waypoint and `0 ≤ idx_a < N`, in every
fillet and Dubins state, every configuration and every pose, the dispatcher tick returns,
keeps `N`, the new `idx_a` again satisfies `0 ≤ idx_a < N`, and it is either unchanged or
`(old idx_a + 1) mod N`. -/
theorem manage_index_invariant {F : Type} [LinearOrderedField F] [Libm F]
    (s : path_manager_example F) (elapsed : F) (input : input_s F) (output : output_s F)
    (hlen : s.num_waypoints_ = s.waypoints_.length) (hN : 2 ≤ s.num_waypoints_)
    (h0 : 0 ≤ s.idx_a_) (h1 : s.idx_a_ < s.num_waypoints_)
    (htemp : s.temp_waypoint_ = false) :
    ∃ s1 o1, manage s elapsed input output = some (s1, o1)
      ∧ s1.num_waypoints_ = s.num_waypoints_
      ∧ 0 ≤ s1.idx_a_ ∧ s1.idx_a_ < s1.num_waypoints_
      ∧ (s1.idx_a_ = s.idx_a_ ∨ s1.idx_a_ = (s.idx_a_ + 1) % s.num_waypoints_) := by
  obtain ⟨wa, hwa⟩ := wp_some s _ hlen h0 h1
  have hd := manage_dispatch s elapsed input output wa hN hwa
  have hr := wrap_idx_range s.idx_a_ s.num_waypoints_ (by omega) 1
  have key : ∃ s1 o1, manage s elapsed input output = some (s1, o1) ∧ idx_step s s1 := by
    by_cases hu : wa.use_chi = true
    · rw [if_pos hu] at hd
      rw [hd]
      exact manage_dubins_index s input output hlen hN h0 h1
    · rw [if_neg hu] at hd
      rw [hd]
      exact manage_fillet_index s input output hlen hN h0 h1 (by simp [htemp])
  obtain ⟨s1, o1, hm, hn, hi⟩ := key
  refine ⟨s1, o1, hm, hn, ?_, ?_, hi⟩
  · rcases hi with h | h <;> rw [h]
    · exact h0
    · exact hr.1
  · rw [hn]
    rcases hi with h | h <;> rw [h]
    · exact h1
    · exact hr.2

/-- C25, witness: the hypotheses of `manage_index_invariant` hold for the state
`state_right_angle`. -/
theorem manage_index_invariant_witness :
    ∃ s1 o1, manage state_right_angle 0 ⟨99, 0, 50, 0⟩ out_zero = some (s1, o1)
      ∧ s1.num_waypoints_ = state_right_angle.num_waypoints_
      ∧ 0 ≤ s1.idx_a_ ∧ s1.idx_a_ < s1.num_waypoints_
      ∧ (s1.idx_a_ = state_right_angle.idx_a_
          ∨ s1.idx_a_ = (state_right_angle.idx_a_ + 1) % state_right_angle.num_waypoints_) :=
  manage_index_invariant state_right_angle 0 ⟨99, 0, 50, 0⟩ out_zero
    (by simp [state_right_angle]) (by simp [state_right_angle]) (by simp [state_right_angle])
    (by simp [state_right_angle]) (by simp [state_right_angle])

/-! ## `orbit_last` at the second-to-last waypoint -/

/-- With `orbit_last` set and `idx_a = N - 2`, `manage_line` returns the output it was given
and changes only `update_marker_` and the published markers. -/
lemma manage_line_stall {F : Type} [LinearOrderedField F] [Libm F]
    (s : path_manager_example F) (input : input_s F) (output : output_s F)
    (hlen : s.num_waypoints_ = s.waypoints_.length) (hN : 2 ≤ s.num_waypoints_)
    (hol : s.orbit_last = true) (htemp : s.temp_waypoint_ = false)
    (hA : s.idx_a_ = s.num_waypoints_ - 2) :
    ∃ pl, manage_line s input output
      = some ({ s with update_marker_ := false, published_ := pl }, output) := by
  obtain ⟨pl, hi⟩ := increment_indices_plain s input output hlen hN (by omega) (by omega)
    (by simp [htemp]) (fun h => by omega)
  refine ⟨pl, ?_⟩
  unfold manage_line
  dsimp only
  rw [hi]
  simp only
  rw [if_pos ⟨hol, Or.inr hA⟩]

/-- One dispatcher tick in the stall: two waypoints, `orbit_last`, `idx_a = 0`, the first
waypoint without heading constraint. -/
lemma manage_stall_tick {F : Type} [LinearOrderedField F] [Libm F]
    (s : path_manager_example F) (elapsed : F) (input : input_s F) (output : output_s F)
    (w0 : waypoint_s F)
    (hlen : s.num_waypoints_ = s.waypoints_.length) (hN : s.num_waypoints_ = 2)
    (hol : s.orbit_last = true) (htemp : s.temp_waypoint_ = false) (hA : s.idx_a_ = 0)
    (hw0 : s.wp 0 = some w0) (hu : w0.use_chi = false) :
    ∃ pl, manage s elapsed input output
      = some ({ s with update_marker_ := false, published_ := pl }, output) := by
  obtain ⟨pl, hm⟩ := manage_line_stall s input output hlen (by omega) hol htemp (by omega)
  refine ⟨pl, ?_⟩
  rw [manage_dispatch s elapsed input output w0 (by omega) (by rw [hA]; exact hw0),
    if_neg (by simp [hu])]
  unfold manage_fillet
  rw [if_pos (by omega)]
  exact hm

/-- Any number of dispatcher ticks in the stall leave the output primitive, `idx_a_`,
`fil_state_` and the waypoint list as they were. -/
lemma manage_ticks_stall {F : Type} [LinearOrderedField F] [Libm F]
    (ticks : List (F × input_s F)) :
    ∀ (s : path_manager_example F) (output : output_s F) (w0 : waypoint_s F),
      s.num_waypoints_ = s.waypoints_.length → s.num_waypoints_ = 2 →
      s.orbit_last = true → s.temp_waypoint_ = false → s.idx_a_ = 0 →
      s.wp 0 = some w0 → w0.use_chi = false →
      ∃ s1, manage_ticks s output ticks = some (s1, output)
        ∧ s1.idx_a_ = 0 ∧ s1.num_waypoints_ = 2 ∧ s1.fil_state_ = s.fil_state_
        ∧ s1.waypoints_ = s.waypoints_ := by
  induction ticks with
  | nil =>
    intro s output w0 _ hN _ _ hA _ _
    exact ⟨s, rfl, hA, hN, rfl, rfl⟩
  | cons t rest ih =>
    intro s output w0 hlen hN hol htemp hA hw0 hu
    obtain ⟨elapsed, input⟩ := t
    obtain ⟨pl, hm⟩ := manage_stall_tick s elapsed input output w0 hlen hN hol htemp hA hw0 hu
    obtain ⟨s1, h1, h2, h3, h4, h5⟩ := ih
      { s with update_marker_ := false, published_ := pl } output w0 hlen hN hol htemp hA
      hw0 hu
    refine ⟨s1, ?_, h2, h3, h4, h5⟩
    unfold manage_ticks
    simp only [hm]
    exact h1

/-- C26: for `N ≥ 2` (the list length) with `orbit_last = true`, no temporary waypoint and
`idx_a = N - 2`, `manage_line` leaves every field of the output primitive and `idx_a`
unchanged for every pose; for `N = 2` with `waypoints[0].use_chi = false` (so `idx_a = 0`),
every sequence of dispatcher ticks leaves the output primitive, `idx_a` and `fil_state`
unchanged, so `idx_a` never reaches `N - 1` and the last-waypoint orbit is never emitted. -/
theorem manage_line_orbit_last_stall {F : Type} [LinearOrderedField F] [Libm F]
    (s : path_manager_example F) (input : input_s F) (output : output_s F)
    (hlen : s.num_waypoints_ = s.waypoints_.length) (hN : 2 ≤ s.num_waypoints_)
    (hol : s.orbit_last = true) (htemp : s.temp_waypoint_ = false)
    (hA : s.idx_a_ = s.num_waypoints_ - 2) :
    (∃ s1, manage_line s input output = some (s1, output) ∧ s1.idx_a_ = s.idx_a_)
      ∧ (s.num_waypoints_ = 2 → ∀ w0 : waypoint_s F, s.wp 0 = some w0 → w0.use_chi = false →
          ∀ ticks : List (F × input_s F),
            ∃ s1, manage_ticks s output ticks = some (s1, output)
              ∧ s1.idx_a_ = s.idx_a_ ∧ s1.idx_a_ ≠ s1.num_waypoints_ - 1
              ∧ s1.fil_state_ = s.fil_state_) := by
  constructor
  · obtain ⟨pl, hm⟩ := manage_line_stall s input output hlen hN hol htemp hA
    exact ⟨_, hm, rfl⟩
  · intro h2 w0 hw0 hu ticks
    have hA0 : s.idx_a_ = 0 := by omega
    obtain ⟨s1, h1, h3, h4, h5, -⟩ :=
      manage_ticks_stall ticks s output w0 hlen h2 hol htemp hA0 hw0 hu
    refine ⟨s1, h1, by rw [h3, hA0], ?_, h5⟩
    rw [h3, h4]
    decide

/-- C26, witness: the hypotheses of `manage_line_orbit_last_stall` hold for the state
`state_stall`; two ticks from poses before and beyond the last waypoint leave the output and
`idx_a_` as they were. -/
theorem manage_line_orbit_last_stall_witness :
    ∃ s1, manage_ticks state_stall out_zero [(0, ⟨50, 0, 50, 0⟩), (0, ⟨150, 0, 50, 0⟩)]
        = some (s1, out_zero)
      ∧ s1.idx_a_ = state_stall.idx_a_ ∧ s1.idx_a_ ≠ s1.num_waypoints_ - 1
      ∧ s1.fil_state_ = state_stall.fil_state_ :=
  (manage_line_orbit_last_stall state_stall ⟨50, 0, 50, 0⟩ out_zero
    (by simp [state_stall]) (by simp [state_stall]) (by simp [state_stall])
    (by simp [state_stall]) (by simp [state_stall])).2 (by simp [state_stall])
    (mkwp 0 0 (-50) 0 false) (by simp [state_stall, path_manager_example.wp])
    (by simp [mkwp]) [(0, ⟨50, 0, 50, 0⟩), (0, ⟨150, 0, 50, 0⟩)]

/-! ## Dubins solver: a pair for which the sentinel length is the minimum -/

lemma norm_e1 (a : ℝ) (h : 0 ≤ a) : (⟨a, 0, 0⟩ : Vec3 ℝ).norm = a := by
  simp [Vec3.norm, Vec3.squaredNorm, Real.sqrt_mul_self h]

lemma dubins_ell_long : dubins_ell wp_deg_s wp_long_e = 3900 := by
  have h : Real.sqrt ((3900 : ℝ) * 3900) = 3900 := Real.sqrt_mul_self (by norm_num)
  simp [dubins_ell, wp_deg_s, wp_long_e, h]

lemma crs_long : circle_right wp_deg_s.w wp_deg_s.chi_d 1300 = ⟨1300, 0, 0⟩ := by
  simp [circle_right, wp_deg_s]

lemma cls_long : circle_left wp_deg_s.w wp_deg_s.chi_d 1300 = ⟨-1300, 0, 0⟩ := by
  simp [circle_left, wp_deg_s]

lemma cre_long : circle_right wp_long_e.w wp_long_e.chi_d 1300 = ⟨5200, 0, 0⟩ := by
  simp [circle_right, wp_long_e]
  norm_num

lemma cle_long : circle_left wp_long_e.w wp_long_e.chi_d 1300 = ⟨2600, 0, 0⟩ := by
  simp [circle_left, wp_long_e]
  norm_num

lemma mo_three_pi_div_two : mo (3 * Real.pi / 2) = 3 * Real.pi / 2 :=
  mo_eq_of _ (3 * Real.pi / 2) 0 (by positivity) (by linarith [Real.pi_pos]) (by simp)

lemma L1_long : dubins_cand1 wp_deg_s wp_long_e 1300 = 3900 + 2600 * Real.pi := by
  unfold dubins_cand1
  rw [crs_long, cre_long]
  unfold dubins_L1
  have ea : (Libm.atan2f (0 : ℝ) (5200 - 1300) : ℝ) = 0 := atan2f_pos_x _ (by norm_num)
  have en : (Vec3.sub (⟨1300, 0, 0⟩ : Vec3 ℝ) ⟨5200, 0, 0⟩).norm = 3900 := by
    have h : Real.sqrt 15210000 = 3900 := by
      rw [show (15210000 : ℝ) = 3900 * 3900 by norm_num]
      exact Real.sqrt_mul_self (by norm_num)
    simp [Vec3.sub, Vec3.norm, Vec3.squaredNorm]
    norm_num [h]
  simp only [sub_self, ea, en, pi_real, pi_2_real, zero_sub]
  have e1 : wp_deg_s.chi_d - Real.pi / 2 = -Real.pi := by
    simp only [wp_deg_s]; ring
  have e2 : wp_long_e.chi_d - Real.pi / 2 = -Real.pi := by
    simp only [wp_long_e]; ring
  rw [e1, e2, mo_neg_pi_div_two, mo_neg_pi]
  have e3 : 2 * Real.pi + 3 * Real.pi / 2 - Real.pi = 5 * Real.pi / 2 := by ring
  have e4 : 2 * Real.pi + Real.pi - 3 * Real.pi / 2 = 3 * Real.pi / 2 := by ring
  rw [e3, e4, mo_five_pi_div_two, mo_three_pi_div_two]
  ring

lemma L4_long : dubins_cand4 wp_deg_s wp_long_e 1300 = 3900 + 2600 * Real.pi := by
  unfold dubins_cand4
  rw [cls_long, cle_long]
  unfold dubins_L4
  have ea : (Libm.atan2f (0 : ℝ) (2600 - -1300) : ℝ) = 0 := atan2f_pos_x _ (by norm_num)
  have en : (Vec3.sub (⟨-1300, 0, 0⟩ : Vec3 ℝ) ⟨2600, 0, 0⟩).norm = 3900 := by
    have h : Real.sqrt 15210000 = 3900 := by
      rw [show (15210000 : ℝ) = 3900 * 3900 by norm_num]
      exact Real.sqrt_mul_self (by norm_num)
    simp [Vec3.sub, Vec3.norm, Vec3.squaredNorm]
    norm_num [h]
  simp only [sub_self, ea, en, pi_real, pi_2_real, zero_add]
  have e1 : wp_deg_s.chi_d + Real.pi / 2 = 0 := by
    simp only [wp_deg_s]; ring
  have e2 : wp_long_e.chi_d + Real.pi / 2 = 0 := by
    simp only [wp_long_e]; ring
  rw [e1, e2, mo_zero, mo_pi_div_two]
  have e3 : 2 * Real.pi + 0 - Real.pi / 2 = 3 * Real.pi / 2 := by ring
  have e4 : 2 * Real.pi + Real.pi / 2 - 0 = 5 * Real.pi / 2 := by ring
  rw [e3, e4, mo_five_pi_div_two, mo_three_pi_div_two]
  ring

lemma norm_rsl_long :
    ((circle_left wp_long_e.w wp_long_e.chi_d 1300).sub
      (circle_right wp_deg_s.w wp_deg_s.chi_d 1300)).norm = 1300 := by
  rw [crs_long, cle_long]
  have e : Vec3.sub (⟨2600, 0, 0⟩ : Vec3 ℝ) ⟨1300, 0, 0⟩ = ⟨1300, 0, 0⟩ := by
    simp [Vec3.sub]
    norm_num
  rw [e]
  exact norm_e1 _ (by norm_num)

lemma L2_long : dubins_cand2 wp_deg_s wp_long_e 1300 = 9999 := by
  unfold dubins_cand2
  exact (dubins_L2_branches _ _ _ _ _).1 (by rw [norm_rsl_long]; norm_num)

lemma L3_long : 9999 < dubins_cand3 wp_deg_s wp_long_e 1300 := by
  have hpi := Real.pi_gt_three
  have e : Vec3.sub (⟨5200, 0, 0⟩ : Vec3 ℝ) ⟨-1300, 0, 0⟩ = ⟨6500, 0, 0⟩ := by
    simp [Vec3.sub]
    norm_num
  have hn : (⟨6500, 0, 0⟩ : Vec3 ℝ).norm = 6500 := norm_e1 _ (by norm_num)
  have ht : dubins_theta_lsr (⟨-1300, 0, 0⟩ : Vec3 ℝ) ⟨5200, 0, 0⟩ 1300
      = Real.arccos (2 / 5) := by
    unfold dubins_theta_lsr
    rw [e, hn]
    simp only [sub_self, acosf_real]
    have ea : (Libm.atan2f (0 : ℝ) (5200 - -1300) : ℝ) = 0 := atan2f_pos_x _ (by norm_num)
    rw [ea, show (2 : ℝ) * 1300 / 6500 = 2 / 5 by norm_num]
    ring
  have t0 : 0 < Real.arccos (2 / 5) := Real.arccos_pos.2 (by norm_num)
  have t1 : Real.arccos (2 / 5) ≤ Real.pi / 2 := Real.arccos_le_pi_div_two.2 (by norm_num)
  unfold dubins_cand3
  rw [cls_long, cre_long]
  unfold dubins_L3
  rw [ht, e, hn]
  simp only [pi_real, pi_2_real, sqrtf_real]
  rw [if_neg (by norm_num)]
  have m1 : mo (Real.arccos (2 / 5)) = Real.arccos (2 / 5) :=
    mo_eq_of _ _ 0 (by linarith) (by linarith) (by push_cast; ring)
  have m2 : mo (wp_deg_s.chi_d + Real.pi / 2) = 0 :=
    mo_eq_of _ _ 0 le_rfl (by linarith) (by simp only [wp_deg_s]; push_cast; ring)
  have m3 : mo (Real.arccos (2 / 5) - Real.pi) = Real.arccos (2 / 5) + Real.pi :=
    mo_eq_of _ _ (-1) (by linarith) (by linarith) (by push_cast; ring)
  have m4 : mo (wp_long_e.chi_d - Real.pi / 2) = Real.pi :=
    mo_eq_of _ _ (-1) (by linarith) (by linarith) (by simp only [wp_long_e]; push_cast; ring)
  rw [m1, m2, m3, m4]
  have m5 : mo (2 * Real.pi + 0 - Real.arccos (2 / 5)) = 2 * Real.pi - Real.arccos (2 / 5) :=
    mo_eq_of _ _ 0 (by linarith) (by linarith) (by push_cast; ring)
  have m6 : mo (2 * Real.pi + Real.pi - (Real.arccos (2 / 5) + Real.pi))
      = 2 * Real.pi - Real.arccos (2 / 5) :=
    mo_eq_of _ _ 0 (by linarith) (by linarith) (by push_cast; ring)
  rw [m5, m6]
  have hs := Real.sqrt_nonneg ((6500 : ℝ) * 6500 - 4 * 1300 * 1300)
  generalize Real.sqrt ((6500 : ℝ) * 6500 - 4 * 1300 * 1300) = r at hs ⊢
  generalize Real.arccos (2 / 5) = t at t0 t1 ⊢
  linarith

lemma dubins_select_long :
    dubins_select (dubins_cand1 wp_deg_s wp_long_e 1300) (dubins_cand2 wp_deg_s wp_long_e 1300)
      (dubins_cand3 wp_deg_s wp_long_e 1300) (dubins_cand4 wp_deg_s wp_long_e 1300)
      = (2, 9999) := by
  have hpi := Real.pi_gt_three
  have h3 := L3_long
  rw [L1_long, L2_long, L4_long]
  generalize dubins_cand3 wp_deg_s wp_long_e 1300 = c at h3 ⊢
  have c1 : (9999 : ℝ) < 3900 + 2600 * Real.pi := by linarith
  have c3 : ¬ (c < 9999) := by linarith
  have c4 : ¬ (3900 + 2600 * Real.pi < 9999) := by linarith
  simp only [dubins_select, c1, c3, c4, if_true, if_false]

lemma dubins_idx_long : dubins_idx wp_deg_s wp_long_e 1300 = 2 := by
  have hidx : dubins_idx wp_deg_s wp_long_e 1300
      = (dubins_select (dubins_cand1 wp_deg_s wp_long_e 1300)
          (dubins_cand2 wp_deg_s wp_long_e 1300) (dubins_cand3 wp_deg_s wp_long_e 1300)
          (dubins_cand4 wp_deg_s wp_long_e 1300)).1 := rfl
  rw [hidx, dubins_select_long]

/-- C7, at the failing input: for the start `(0, 0, 0)` and the end `(3900, 0, 0)`, both with
course `-π/2`, and `R = 1300`, the pair is accepted, the candidates RSR, LSR and LSL are all
longer than `9999`, so the solver selects index 2 (RSL) with the sentinel length `9999`; the
stored centres are `1300 = R` apart, and the stored `q1` is `rotz(theta2 + π/2)·ê₁` for
`theta2 = atan2f(0, 1300) − π/2 + asinf(2)`: the arcsine is evaluated at `2R/ell = 2`, outside
its domain. -/
theorem dubinsParameters_sentinel_selected :
    ¬ (dubins_ell wp_deg_s wp_long_e < 2 * 1300)
      ∧ 9999 < dubins_cand1 wp_deg_s wp_long_e 1300
      ∧ dubins_cand2 wp_deg_s wp_long_e 1300 = 9999
      ∧ 9999 < dubins_cand3 wp_deg_s wp_long_e 1300
      ∧ 9999 < dubins_cand4 wp_deg_s wp_long_e 1300
      ∧ dubins_idx wp_deg_s wp_long_e 1300 = 2
      ∧ (dubinsParameters path_arrival wp_deg_s wp_long_e 1300).L = 9999
      ∧ (dubinsParameters path_arrival wp_deg_s wp_long_e 1300).cs = ⟨1300, 0, 0⟩
      ∧ (dubinsParameters path_arrival wp_deg_s wp_long_e 1300).ce = ⟨2600, 0, 0⟩
      ∧ ((dubinsParameters path_arrival wp_deg_s wp_long_e 1300).ce.sub
          (dubinsParameters path_arrival wp_deg_s wp_long_e 1300).cs).norm = 1300
      ∧ (dubinsParameters path_arrival wp_deg_s wp_long_e 1300).q1
          = (rotz (dubins_theta2_rsl ⟨1300, 0, 0⟩ ⟨2600, 0, 0⟩ 1300 + Libm.M_PI_2_F)).mulVec
              ⟨1, 0, 0⟩
      ∧ dubins_theta2_rsl (⟨1300, 0, 0⟩ : Vec3 ℝ) ⟨2600, 0, 0⟩ 1300
          = Libm.atan2f 0 1300 - Libm.M_PI_2_F + Libm.asinf 2 := by
  have hpi := Real.pi_gt_three
  have hacc : ¬ (dubins_ell wp_deg_s wp_long_e < 2 * 1300) := by
    rw [dubins_ell_long]; norm_num
  have hL : (dubinsParameters path_arrival wp_deg_s wp_long_e 1300).L
      = (dubins_select (dubins_cand1 wp_deg_s wp_long_e 1300)
          (dubins_cand2 wp_deg_s wp_long_e 1300) (dubins_cand3 wp_deg_s wp_long_e 1300)
          (dubins_cand4 wp_deg_s wp_long_e 1300)).2 := by
    unfold dubinsParameters
    rw [if_neg hacc]
    dsimp only
    split <;> rfl
  rw [dubins_select_long] at hL
  have e : Vec3.sub (⟨2600, 0, 0⟩ : Vec3 ℝ) ⟨1300, 0, 0⟩ = ⟨1300, 0, 0⟩ := by
    simp [Vec3.sub]
    norm_num
  have hf : (dubinsParameters path_arrival wp_deg_s wp_long_e 1300).cs = ⟨1300, 0, 0⟩
      ∧ (dubinsParameters path_arrival wp_deg_s wp_long_e 1300).ce = ⟨2600, 0, 0⟩
      ∧ (dubinsParameters path_arrival wp_deg_s wp_long_e 1300).q1
          = (rotz (dubins_theta2_rsl ⟨1300, 0, 0⟩ ⟨2600, 0, 0⟩ 1300 + Libm.M_PI_2_F)).mulVec
              ⟨1, 0, 0⟩ := by
    rcases dubinsParameters_fields path_arrival wp_deg_s wp_long_e 1300 hacc
      with ⟨hi, -⟩ | ⟨-, h⟩ | ⟨hi, -⟩ | ⟨hi, -⟩
    · rw [dubins_idx_long] at hi; exact absurd hi (by decide)
    · rw [h]
      simp only [crs_long, cle_long]
      exact ⟨trivial, trivial, trivial⟩
    · rw [dubins_idx_long] at hi; exact absurd hi (by decide)
    · rw [dubins_idx_long] at hi; exact absurd hi (by decide)
  obtain ⟨h1, h2, h3⟩ := hf
  refine ⟨hacc, by rw [L1_long]; linarith, L2_long, L3_long, by rw [L4_long]; linarith,
    dubins_idx_long, hL, h1, h2, ?_, h3, ?_⟩
  · rw [h1, h2, e]
    exact norm_e1 _ (by norm_num)
  · unfold dubins_theta2_rsl
    rw [e, norm_e1 _ (by norm_num)]
    simp only [sub_self]
    rw [show (2600 : ℝ) - 1300 = 1300 by norm_num, show (2 : ℝ) * 1300 / 1300 = 2 by norm_num]

/-! ## Dubins manager: a rejected pair in state `FIRST` -/

/-- C12, at the failing input: in state `FIRST` with two heading-constrained waypoints
`1 < 2 · 50` apart, whatever the stored record `d` holds, the solver rejects the pair and
leaves `d` as it is, and the tick of `manage_dubins` leaves `FIRST` and replaces the all-zero
output by the start arc of `d` with the airspeed of the waypoint: the output after the tick
differs from the output before it. -/
theorem manage_dubins_infeasible_changes_output (d : dubinspath_s ℝ) :
    ∃ s1 o1, manage_dubins (state_first_with d) ⟨201, 0, 50, 0⟩ out_zero
        = some (s1, o1)
      ∧ dubins_ell wp_near_s wp_near_e < 2 * (state_first_with d).R_min
      ∧ s1.dubinspath_ = d
      ∧ s1.dub_state_ = dubins_entry_state d ⟨201, 0, -50⟩
      ∧ s1.dub_state_ ≠ dubin_state.FIRST
      ∧ o1.flag = false ∧ o1.c = d.cs ∧ o1.rho = d.R ∧ o1.lamda = d.lams
      ∧ out_zero.va_d = 0 ∧ o1.va_d = 15
      ∧ o1 ≠ out_zero := by
  have hrej : dubins_ell wp_near_s wp_near_e < 2 * (50 : ℝ) := by
    rw [dubins_ell_near]; norm_num
  have hm := manage_dubins_first (state_first_with d) ⟨201, 0, 50, 0⟩
    out_zero wp_near_s wp_near_s wp_near_e rfl (wp_near_reads _ rfl).1 (wp_near_reads _ rfl).1
    (wp_near_reads _ rfl).2
  have hR : (state_first_with d).R_min = 50 := rfl
  have hd : (state_first_with d).dubinspath_ = d := rfl
  rw [hR, hd, dubinsParameters_rejected _ _ _ _ hrej] at hm
  refine ⟨_, _, hm, hrej, rfl, rfl, ?_, rfl, rfl, rfl, rfl, rfl, rfl, ?_⟩
  · simp only [dubins_entry_state]
    split_ifs <;> decide
  · intro h
    have h2 := congrArg output_s.va_d h
    simp [dubins_start_orbit, out_zero, wp_near_s, mkwp] at h2

/-! ## Dubins solver: the cross-tangent test at centre distance `2R` -/

lemma sqrt_eq_of_mul_self (x a : ℝ) (ha : 0 ≤ a) (h : x = a * a) : Real.sqrt x = a := by
  rw [h]
  exact Real.sqrt_mul_self ha

lemma R_edge_pos : 0 < R_edge := by
  unfold R_edge
  norm_num

lemma dubins_ell_edge : dubins_ell wp_edge_s wp_edge_e = 4 * R_edge := by
  have e : (5033165 / 1048576 : ℝ) = 4 * R_edge := by
    unfold R_edge
    norm_num
  simp only [dubins_ell, wp_edge_s, wp_edge_e, mkwp, sqrtf_real, e]
  exact sqrt_eq_of_mul_self _ _ (by linarith [R_edge_pos]) (by ring)

lemma crs_edge : circle_right wp_edge_s.w wp_edge_s.chi_d R_edge = ⟨0, R_edge, 0⟩ := by
  simp [circle_right, wp_edge_s, mkwp]

lemma cle_edge : circle_left wp_edge_e.w wp_edge_e.chi_d R_edge = ⟨0, 3 * R_edge, 0⟩ := by
  have e : (5033165 / 1048576 : ℝ) = 4 * R_edge := by
    unfold R_edge
    norm_num
  simp only [circle_left, wp_edge_e, mkwp, e]
  simp
  ring

lemma norm_rsl_edge :
    ((circle_left wp_edge_e.w wp_edge_e.chi_d R_edge).sub
      (circle_right wp_edge_s.w wp_edge_s.chi_d R_edge)).norm = 2 * R_edge := by
  rw [crs_edge, cle_edge]
  simp only [Vec3.sub, Vec3.norm, Vec3.squaredNorm, sqrtf_real]
  exact sqrt_eq_of_mul_self _ _ (by linarith [R_edge_pos]) (by ring)

/-- C22, at the failing input: for `R = 1.2f`, the start `(0, 0, 0)` and the end
`(0, 4.8f, 0)`, both with course `0`, the pair is accepted and the centres `crs`, `cle` are
exactly `2R` apart; the test `2.0 * R > ell` is false there, so the RSL candidate `L2` is the
value of the tangent formula, not the sentinel `9999`; in that formula the argument
`ell² − 4R²` of the square root is `0` and the argument `2R/ell` of the arcsine is `1`, both on
the boundary of the domain. -/
theorem dubins_rsl_formula_at_two_R :
    ¬ (dubins_ell wp_edge_s wp_edge_e < 2 * R_edge)
      ∧ ((circle_left wp_edge_e.w wp_edge_e.chi_d R_edge).sub
          (circle_right wp_edge_s.w wp_edge_s.chi_d R_edge)).norm = 2 * R_edge
      ∧ dubins_cand2 wp_edge_s wp_edge_e R_edge
          = dubins_rsl_length (circle_right wp_edge_s.w wp_edge_s.chi_d R_edge)
              (circle_left wp_edge_e.w wp_edge_e.chi_d R_edge)
              wp_edge_s.chi_d wp_edge_e.chi_d R_edge
      ∧ ((circle_left wp_edge_e.w wp_edge_e.chi_d R_edge).sub
          (circle_right wp_edge_s.w wp_edge_s.chi_d R_edge)).norm
          * ((circle_left wp_edge_e.w wp_edge_e.chi_d R_edge).sub
          (circle_right wp_edge_s.w wp_edge_s.chi_d R_edge)).norm
          - 4 * R_edge * R_edge = 0
      ∧ 2 * R_edge / ((circle_left wp_edge_e.w wp_edge_e.chi_d R_edge).sub
          (circle_right wp_edge_s.w wp_edge_s.chi_d R_edge)).norm = 1
      ∧ dubins_cand2 wp_edge_s wp_edge_e R_edge ≠ 9999 := by
  have hR := R_edge_pos
  have hR2 : R_edge < 2 := by
    unfold R_edge
    norm_num
  have he : dubins_cand2 wp_edge_s wp_edge_e R_edge
      = dubins_rsl_length (circle_right wp_edge_s.w wp_edge_s.chi_d R_edge)
          (circle_left wp_edge_e.w wp_edge_e.chi_d R_edge)
          wp_edge_s.chi_d wp_edge_e.chi_d R_edge := by
    unfold dubins_cand2
    exact (dubins_L2_branches _ _ _ _ _).2 (by rw [norm_rsl_edge])
  have hb : dubins_cand2 wp_edge_s wp_edge_e R_edge < 4 * Real.pi * R_edge := by
    rw [he]
    unfold dubins_rsl_length
    rw [norm_rsl_edge]
    have hs : (Libm.sqrtf (2 * R_edge * (2 * R_edge) - 4 * R_edge * R_edge) : ℝ) = 0 := by
      simp only [sqrtf_real]
      rw [show 2 * R_edge * (2 * R_edge) - 4 * R_edge * R_edge = 0 by ring]
      exact Real.sqrt_zero
    rw [hs]
    have key : ∀ a b : ℝ, a < 2 * Real.pi → b < 2 * Real.pi →
        0 + R_edge * a + R_edge * b < 4 * Real.pi * R_edge := by
      intro a b ha hb
      nlinarith
    exact key _ _ (mo_lt_two_pi _) (mo_lt_two_pi _)
  refine ⟨by rw [dubins_ell_edge]; linarith, norm_rsl_edge, he, ?_, ?_, ?_⟩
  · rw [norm_rsl_edge]
    ring
  · rw [norm_rsl_edge]
    field_simp
  · have hpi := Real.pi_lt_four
    intro h
    rw [h] at hb
    nlinarith

end rosplane
